import Mathlib

/-!
# KD-tree repository: geometry kernel, tree store, build and traversal

A shallow embedding of the ray/box/triangle routines of `src/src/Geometry.cpp`,
of the tree store declared in `src/src/KdTree.hpp` and of the brute-force
reference of `src/test/A5-KdTree.cpp`.

`float` values are modelled by an arbitrary linearly ordered field `K`
(exact arithmetic, no NaN, no rounding); concrete evaluations are done in `ℚ`.
The square root used by `glm::normalize` is a parameter `sqrt : K → K`
(third-party code); theorems state what they need of it at the point of use.

The bodies of `KdTree::build`, `KdTree::get_closest`, `KdTree::get_triangles`
and of the accessors of `KdTree::Node` are not part of the sources (only their
declarations, callers and tests are), nor is the overload
`IntersectionTimeRayTriangle(ray, triangle)` that the test calls. They are
modelled from the specification; each such definition says so in its doc comment.
-/

set_option linter.unusedSectionVars false

namespace CS350

/-- A `glm::vec3`. -/
structure Vec3 (K : Type) where
  x : K
  y : K
  z : K
deriving DecidableEq

variable {K : Type} [LinearOrderedField K]

namespace Vec3

/-- Componentwise sum, `a + b`. -/
def add (a b : Vec3 K) : Vec3 K := ⟨a.x + b.x, a.y + b.y, a.z + b.z⟩

/-- Componentwise difference, `a - b`. -/
def sub (a b : Vec3 K) : Vec3 K := ⟨a.x - b.x, a.y - b.y, a.z - b.z⟩

/-- Scalar multiple, `t * v`. -/
def smul (t : K) (v : Vec3 K) : Vec3 K := ⟨t * v.x, t * v.y, t * v.z⟩

/-- Component access `v[a]` (axis 0, 1, 2; any other index reads `z`). -/
def get (v : Vec3 K) (a : Nat) : K :=
  match a with
  | 0 => v.x
  | 1 => v.y
  | _ => v.z

/-- Component update `v[a] = c`. -/
def set (v : Vec3 K) (a : Nat) (c : K) : Vec3 K :=
  match a with
  | 0 => ⟨c, v.y, v.z⟩
  | 1 => ⟨v.x, c, v.z⟩
  | _ => ⟨v.x, v.y, c⟩

end Vec3

/-- The value of `glm::min(a, b)`: `(b < a) ? b : a`. -/
def glm_min (a b : K) : K := if b < a then b else a

/-- The value of `glm::max(a, b)`: `(a < b) ? b : a`. -/
def glm_max (a b : K) : K := if a < b then b else a

/-- The value of `glm::abs(a)`. -/
def glm_abs (a : K) : K := if a < 0 then -a else a

/-- The value of `glm::dot(a, b)`. -/
def dot (a b : Vec3 K) : K := a.x * b.x + a.y * b.y + a.z * b.z

/-- The value of `glm::cross(a, b)`. -/
def cross (a b : Vec3 K) : Vec3 K :=
  ⟨a.y * b.z - b.y * a.z, a.z * b.x - b.z * a.x, a.x * b.y - b.x * a.y⟩

/-- The value of `glm::normalize(v)`, `v * inversesqrt(dot(v, v))`, over the square root `sqrt`. -/
def normalize (sqrt : K → K) (v : Vec3 K) : Vec3 K := Vec3.smul (1 / sqrt (dot v v)) v

/-- The constant `cEpsilon = 1e-5f` of `Geometry.cpp`. -/
def cEpsilon : K := 1 / 100000

/-- The enumeration `SideResult` of `Geometry.hpp`. -/
inductive SideResult where
  | eINSIDE
  | eOVERLAPPING
  | eOUTSIDE
deriving DecidableEq

/-- The integer value of a `SideResult` enumerator. -/
def SideResult.toInt : SideResult → Int
  | .eINSIDE => -1
  | .eOVERLAPPING => 0
  | .eOUTSIDE => 1

/-- `OverlapPointAabb` of `Geometry.cpp`. -/
def OverlapPointAabb (p min max : Vec3 K) : Bool :=
  decide (p.x ≥ min.x) && decide (p.x ≤ max.x) &&
  decide (p.y ≥ min.y) && decide (p.y ≤ max.y) &&
  decide (p.z ≥ min.z) && decide (p.z ≤ max.z)

/-- `ClassifyPointAabb` of `Geometry.cpp`. -/
def ClassifyPointAabb (p min max : Vec3 K) : SideResult :=
  if OverlapPointAabb p min max then
    let onFace : Bool :=
      decide (p.x = min.x) || decide (p.x = max.x) ||
      decide (p.y = min.y) || decide (p.y = max.y) ||
      decide (p.z = min.z) || decide (p.z = max.z)
    if onFace then SideResult.eOVERLAPPING else SideResult.eINSIDE
  else SideResult.eOUTSIDE

/-- `IntersectionTimeRayPlane` of `Geometry.cpp`. -/
def IntersectionTimeRayPlane (s dir n : Vec3 K) (d : K) : K :=
  if glm_abs (dot dir n) < cEpsilon then -1
  else
    let t := -(dot n s - d) / dot n dir
    if t > 0 then t else -1

/-- `IntersectionTimeRayAabb` of `Geometry.cpp`. -/
def IntersectionTimeRayAabb (s dir min max : Vec3 K) : K :=
  let tx1 := (min.x - s.x) / dir.x
  let tx2 := (max.x - s.x) / dir.x
  let ty1 := (min.y - s.y) / dir.y
  let ty2 := (max.y - s.y) / dir.y
  let tz1 := (min.z - s.z) / dir.z
  let tz2 := (max.z - s.z) / dir.z
  let min_t := glm_max (glm_max (glm_min tx1 tx2) (glm_min ty1 ty2)) (glm_min tz1 tz2)
  let max_t := glm_min (glm_min (glm_max tx1 tx2) (glm_max ty1 ty2)) (glm_max tz1 tz2)
  if max_t < 0 ∨ min_t > max_t then -1
  else if min_t > 0 then min_t else 0

/-- `IntersectionTimeRayTriangle` of `Geometry.cpp`. -/
def IntersectionTimeRayTriangle (sqrt : K → K) (s dir p1 p2 p3 : Vec3 K) : K :=
  let ab := Vec3.sub p2 p1
  let ac := Vec3.sub p3 p1
  let normal := normalize sqrt (cross ab ac)
  let d := dot p1 normal
  let t := IntersectionTimeRayPlane s dir normal d
  if t < 0 then -1
  else
    let point := Vec3.add s (Vec3.smul t dir)
    if dot (cross (Vec3.sub p2 p1) (Vec3.sub point p1)) normal < 0 ∨
       dot (cross (Vec3.sub p3 p2) (Vec3.sub point p2)) normal < 0 ∨
       dot (cross (Vec3.sub p1 p3) (Vec3.sub point p3)) normal < 0 then -1
    else t

/-- One iteration of the loop of `CreateAabbBruteForce`: the six independent updates. -/
def aabbStep (acc : Vec3 K × Vec3 K) (v : Vec3 K) : Vec3 K × Vec3 K :=
  let mn := acc.1
  let mx := acc.2
  let mn := if v.x < mn.x then { mn with x := v.x } else mn
  let mn := if v.y < mn.y then { mn with y := v.y } else mn
  let mn := if v.z < mn.z then { mn with z := v.z } else mn
  let mx := if v.x > mx.x then { mx with x := v.x } else mx
  let mx := if v.y > mx.y then { mx with y := v.y } else mx
  let mx := if v.z > mx.z then { mx with z := v.z } else mx
  (mn, mx)

/-- `CreateAabbBruteForce` of `Geometry.cpp`: `(out_min, out_max)`; the read of `vertices[0]`
has no value on an empty array. -/
def CreateAabbBruteForce (vertices : List (Vec3 K)) : Option (Vec3 K × Vec3 K) :=
  match vertices with
  | [] => none
  | v0 :: rest => some (rest.foldl aabbStep (v0, v0))

/-- The box `(mn, mx)` encloses every vertex of `S` componentwise and each of its six
components is attained by a vertex of `S`. -/
def EnclosesTightly (S : List (Vec3 K)) (mn mx : Vec3 K) : Prop :=
  (∀ v ∈ S, (mn.x ≤ v.x ∧ v.x ≤ mx.x) ∧ (mn.y ≤ v.y ∧ v.y ≤ mx.y) ∧ (mn.z ≤ v.z ∧ v.z ≤ mx.z)) ∧
  (∃ v ∈ S, v.x = mn.x) ∧ (∃ v ∈ S, v.y = mn.y) ∧ (∃ v ∈ S, v.z = mn.z) ∧
  (∃ v ∈ S, v.x = mx.x) ∧ (∃ v ∈ S, v.y = mx.y) ∧ (∃ v ∈ S, v.z = mx.z)

/-- The point `s + t * dir` of a ray. -/
def rayPoint (s dir : Vec3 K) (t : K) : Vec3 K := Vec3.add s (Vec3.smul t dir)

/-- The entry time `t_near` of a ray into the three slabs of a box: the latest of the three
per-axis entry times. -/
def slabNear (s dir mn mx : Vec3 K) : K :=
  max (max (min ((mn.x - s.x) / dir.x) ((mx.x - s.x) / dir.x))
           (min ((mn.y - s.y) / dir.y) ((mx.y - s.y) / dir.y)))
      (min ((mn.z - s.z) / dir.z) ((mx.z - s.z) / dir.z))

/-- The exit time `t_far` of a ray out of the three slabs of a box: the earliest of the three
per-axis exit times. -/
def slabFar (s dir mn mx : Vec3 K) : K :=
  min (min (max ((mn.x - s.x) / dir.x) ((mx.x - s.x) / dir.x))
           (max ((mn.y - s.y) / dir.y) ((mx.y - s.y) / dir.y)))
      (max ((mn.z - s.z) / dir.z) ((mx.z - s.z) / dir.z))

/-- The point `P` lies in the closed triangle `(p1, p2, p3)`: it is a convex combination
of the three vertices. -/
def InTriangle (p1 p2 p3 P : Vec3 K) : Prop :=
  ∃ u v w : K, 0 ≤ u ∧ 0 ≤ v ∧ 0 ≤ w ∧ u + v + w = 1 ∧
    P = Vec3.add (Vec3.add (Vec3.smul u p1) (Vec3.smul v p2)) (Vec3.smul w p3)

/-- The side of the point `P` with respect to the edge from `a` to `b`, seen along `n`: the
quantity `dot(cross(b - a, P - a), n)` of the edge tests of `IntersectionTimeRayTriangle`. -/
def edgeSide (a b P n : Vec3 K) : K := dot (cross (Vec3.sub b a) (Vec3.sub P a)) n

/-- An `Aabb` of `Shapes.hpp`. -/
structure Aabb (K : Type) where
  min : Vec3 K
  max : Vec3 K
deriving DecidableEq

/-- `Aabb::SurfaceArea` of `Shapes.cpp`. -/
def Aabb.SurfaceArea (b : Aabb K) : K :=
  let dimensions := Vec3.sub b.max b.min
  2 * (dimensions.x * dimensions.y + dimensions.y * dimensions.z + dimensions.z * dimensions.x)

/-- A triangle: three points, read as `tri[0]`, `tri[1]`, `tri[2]`. -/
structure Triangle (K : Type) where
  v0 : Vec3 K
  v1 : Vec3 K
  v2 : Vec3 K
deriving DecidableEq

/-- A `Ray` of `Shapes.hpp`. -/
structure Ray (K : Type) where
  origin : Vec3 K
  direction : Vec3 K
deriving DecidableEq

/-- The constructor `Ray::Ray(origin, direction)` of `Shapes.cpp`: the direction is stored
normalised. -/
def Ray.ctor (sqrt : K → K) (origin direction : Vec3 K) : Ray K :=
  ⟨origin, normalize sqrt direction⟩

namespace KdTree

/-- `KdTree::Config` of `KdTree.hpp`, with its default member initialisers. -/
structure Config (K : Type) [LinearOrderedField K] where
  cost_traversal : K := 1
  cost_intersection : K := 80
  max_depth : Int := 5
  min_triangles : Int := 50

/-- `KdTree::DebugStats` of `KdTree.hpp`. -/
structure DebugStats where
  traversed_nodes : List Nat
  tested_triangles : List Nat
deriving DecidableEq

/-- `KdTree::Intersection` of `KdTree.hpp`. -/
structure Intersection (K : Type) where
  triangle_index : Nat
  t : K
deriving DecidableEq

/-- The conversion `explicit operator bool()` of `KdTree::Intersection`. -/
def Intersection.toBool (i : Intersection K) : Bool := decide (i.t ≥ 0)

/-- Modelled from the spec: the data of `KdTree::Node`, whose members and accessor bodies are
not in the sources. A node is a leaf with a range `primitive_start`, `primitive_count` of the
index pool, or an internal node with a split axis, a split position and the index of its right
child (the left child is the next node). -/
inductive Node (K : Type) where
  | leaf (first_primitive_index primitive_count : Nat)
  | internal (axis : Nat) (split_point : K) (subnode_index : Nat)
deriving DecidableEq

namespace Node

/-- Modelled from the spec: `Node::is_leaf`. -/
def is_leaf : Node K → Bool
  | .leaf _ _ => true
  | .internal _ _ _ => false

/-- Modelled from the spec: `Node::is_internal`. -/
def is_internal : Node K → Bool
  | .leaf _ _ => false
  | .internal _ _ _ => true

/-- Modelled from the spec: `Node::primitive_count` (0 on an internal node). -/
def primitive_count : Node K → Nat
  | .leaf _ c => c
  | .internal _ _ _ => 0

/-- Modelled from the spec: `Node::primitive_start` (0 on an internal node). -/
def primitive_start : Node K → Nat
  | .leaf s _ => s
  | .internal _ _ _ => 0

/-- Modelled from the spec: `Node::next_child`, the index of the right child (0 on a leaf). -/
def next_child : Node K → Nat
  | .leaf _ _ => 0
  | .internal _ _ n => n

/-- Modelled from the spec: `Node::split` (0 on a leaf). -/
def split : Node K → K
  | .leaf _ _ => 0
  | .internal _ s _ => s

/-- Modelled from the spec: `Node::axis` (0 on a leaf). -/
def axis : Node K → Nat
  | .leaf _ _ => 0
  | .internal a _ _ => a

end Node

end KdTree

/-- The data members of the class `KdTree` of `KdTree.hpp`: the Tree Store. -/
structure KdTreeStore (K : Type) [LinearOrderedField K] where
  m_indices : List Nat
  m_nodes : List (KdTree.Node K)
  m_aabbs : List (Aabb K)
  m_cfg : KdTree.Config K

namespace KdTreeStore

/-- `KdTree::nodes`. -/
def nodes (kd : KdTreeStore K) : List (KdTree.Node K) := kd.m_nodes

/-- `KdTree::indices`. -/
def indices (kd : KdTreeStore K) : List Nat := kd.m_indices

/-- `KdTree::aabbs`. -/
def aabbs (kd : KdTreeStore K) : List (Aabb K) := kd.m_aabbs

/-- `KdTree::empty` of `KdTree.hpp`: `return m_indices.empty();`. -/
def empty (kd : KdTreeStore K) : Bool := kd.m_indices.isEmpty

end KdTreeStore

/-- `OverlapAabbAabb` of `Geometry.cpp`. -/
def OverlapAabbAabb (min1 max1 min2 max2 : Vec3 K) : Bool :=
  decide (min1.x ≤ max2.x) && decide (max1.x ≥ min2.x) &&
  decide (min1.y ≤ max2.y) && decide (max1.y ≥ min2.y) &&
  decide (min1.z ≤ max2.z) && decide (max1.z ≥ min2.z)

namespace KdTree

/-- Modelled from the spec: the least coordinate of a triangle on axis `a` (its extent `min[a]`). -/
def triMin (tri : Triangle K) (a : Nat) : K :=
  min (min (tri.v0.get a) (tri.v1.get a)) (tri.v2.get a)

/-- Modelled from the spec: the greatest coordinate of a triangle on axis `a` (its extent
`max[a]`). -/
def triMax (tri : Triangle K) (a : Nat) : K :=
  max (max (tri.v0.get a) (tri.v1.get a)) (tri.v2.get a)

/-- Modelled from the spec: the parent box clipped to `max[a] = s` (box of the left child). -/
def clipLeft (box : Aabb K) (a : Nat) (s : K) : Aabb K := ⟨box.min, box.max.set a s⟩

/-- Modelled from the spec: the parent box clipped to `min[a] = s` (box of the right child). -/
def clipRight (box : Aabb K) (a : Nat) (s : K) : Aabb K := ⟨box.min.set a s, box.max⟩

/-- Modelled from the spec: the candidate split positions of a node on axis `a`: the
coordinates `v0[a], v1[a], v2[a]` of the node's triangles that lie strictly inside the box. -/
def candidates (tris : List (Triangle K)) (box : Aabb K) (T : List Nat) (a : Nat) : List K :=
  (T.flatMap (fun j =>
    match tris.get? j with
    | some tri => [tri.v0.get a, tri.v1.get a, tri.v2.get a]
    | none => [])).filter (fun c => decide (box.min.get a < c ∧ c < box.max.get a))

/-- Modelled from the spec: the set `L` of a trial split, the triangles with `min[a] < s`. -/
def partL (tris : List (Triangle K)) (T : List Nat) (a : Nat) (s : K) : List Nat :=
  T.filter (fun j =>
    match tris.get? j with
    | some tri => decide (triMin tri a < s)
    | none => false)

/-- Modelled from the spec: the set `R` of a trial split, the triangles with `max[a] > s`. -/
def partR (tris : List (Triangle K)) (T : List Nat) (a : Nat) (s : K) : List Nat :=
  T.filter (fun j =>
    match tris.get? j with
    | some tri => decide (triMax tri a > s)
    | none => false)

/-- Modelled from the spec: the SAH cost
`Kt + Ki * ((SA_L / SA_parent) * |L| + (SA_R / SA_parent) * |R|)` of the trial split `(a, s)`. -/
def splitCost (cfg : Config K) (box : Aabb K) (nL nR : Nat) (a : Nat) (s : K) : K :=
  cfg.cost_traversal + cfg.cost_intersection *
    ((clipLeft box a s).SurfaceArea / box.SurfaceArea * (nL : K) +
     (clipRight box a s).SurfaceArea / box.SurfaceArea * (nR : K))

/-- Modelled from the spec: a trial split `(a, s)` with its cost. -/
structure Split (K : Type) where
  axis : Nat
  pos : K
  cost : K
deriving DecidableEq

/-- Modelled from the spec: the selection order of trial splits: lower cost first, ties broken
by the lowest axis, then the lowest split coordinate. -/
def betterSplit (c b : Split K) : Bool :=
  decide (c.cost < b.cost ∨ (c.cost = b.cost ∧ (c.axis < b.axis ∨ (c.axis = b.axis ∧ c.pos < b.pos))))

/-- Modelled from the spec: all trial splits of a node, axis by axis. -/
def trials (tris : List (Triangle K)) (cfg : Config K) (box : Aabb K) (T : List Nat) :
    List (Split K) :=
  [0, 1, 2].flatMap (fun a =>
    (candidates tris box T a).map (fun s =>
      ⟨a, s, splitCost cfg box (partL tris T a s).length (partR tris T a s).length a s⟩))

/-- Modelled from the spec: the trial split `(a*, s*)` of least cost (with the tie-break), if the
node has a candidate at all. -/
def bestSplit (tris : List (Triangle K)) (cfg : Config K) (box : Aabb K) (T : List Nat) :
    Option (Split K) :=
  (trials tris cfg box T).foldl
    (fun best c =>
      match best with
      | none => some c
      | some b => if betterSplit c b then some c else some b)
    none

/-- Modelled from the spec: the tree the recursive build produces, before it is written out in
pre-order. -/
inductive BuildTree (K : Type) where
  | leaf (box : Aabb K) (tris : List Nat)
  | inner (box : Aabb K) (axis : Nat) (split : K) (left right : BuildTree K)

/-- Modelled from the spec: the recursive SAH build of one node. `depth` is the depth of the
node, the root being at depth 1 (a tree built with `max_depth = 1` is a single node); the
recursion is bounded by `fuel`. A node becomes a leaf when
it has at most `min_triangles` triangles, when its depth is `max_depth` (for `max_depth > 0`), when
it has no valid split (no candidate, or a parent box of surface area 0, whose cost is undefined),
when the best cost is not below `Ki * |triangles|`, or when the best split leaves a side empty. -/
def buildNode (tris : List (Triangle K)) (cfg : Config K) :
    Nat → Aabb K → List Nat → Int → BuildTree K
  | 0, box, T, _ => BuildTree.leaf box T.dedup
  | fuel + 1, box, T, depth =>
    if (T.length : Int) ≤ cfg.min_triangles then BuildTree.leaf box T.dedup
    else if 0 < cfg.max_depth ∧ depth = cfg.max_depth then BuildTree.leaf box T.dedup
    else if box.SurfaceArea = 0 then BuildTree.leaf box T.dedup
    else
      match bestSplit tris cfg box T with
      | none => BuildTree.leaf box T.dedup
      | some sp =>
        if sp.cost ≥ cfg.cost_intersection * (T.length : K) then BuildTree.leaf box T.dedup
        else if (partL tris T sp.axis sp.pos).length = 0 ∨
            (partR tris T sp.axis sp.pos).length = 0 then BuildTree.leaf box T.dedup
        else
          BuildTree.inner box sp.axis sp.pos
            (buildNode tris cfg fuel (clipLeft box sp.axis sp.pos)
              (partL tris T sp.axis sp.pos) (depth + 1))
            (buildNode tris cfg fuel (clipRight box sp.axis sp.pos)
              (partR tris T sp.axis sp.pos) (depth + 1))

namespace BuildTree

/-- The number of nodes of a tree. -/
def size : BuildTree K → Nat
  | leaf _ _ => 1
  | inner _ _ _ l r => 1 + l.size + r.size

/-- The box of the root of a tree. -/
def box : BuildTree K → Aabb K
  | leaf b _ => b
  | inner b _ _ _ _ => b

/-- Modelled from the spec: the index pool a tree fills, the triangle indices of its leaves
left to right, each leaf owning a contiguous slice. -/
def flattenIndices : BuildTree K → List Nat
  | leaf _ T => T
  | inner _ _ _ l r => l.flattenIndices ++ r.flattenIndices

/-- Modelled from the spec: the boxes of a tree in pre-order, pushed in the order the nodes
are created. -/
def flattenAabbs : BuildTree K → List (Aabb K)
  | leaf b _ => [b]
  | inner b _ _ l r => b :: (l.flattenAabbs ++ r.flattenAabbs)

/-- Modelled from the spec: the pre-order node sequence of a tree whose root is written at
node index `nodeBase` and whose leaves fill the index pool from `poolBase`; the right child index
is recorded once the left subtree is complete. -/
def flattenNodes : BuildTree K → Nat → Nat → List (Node K)
  | leaf _ T, _, poolBase => [Node.leaf poolBase T.length]
  | inner _ a s l r, nodeBase, poolBase =>
    Node.internal a s (nodeBase + 1 + l.size) ::
      (l.flattenNodes (nodeBase + 1) poolBase ++
        r.flattenNodes (nodeBase + 1 + l.size) (poolBase + l.flattenIndices.length))

end BuildTree

/-- Modelled from the spec: all triangle vertices, over which the root box is computed. -/
def allVertices (tris : List (Triangle K)) : List (Vec3 K) :=
  tris.flatMap (fun tri => [tri.v0, tri.v1, tri.v2])

end KdTree

/-- Modelled from the spec: `KdTree::build`, whose body is not in the sources. The root box is
the componentwise min/max over all triangle vertices, the root holds the indices `0 .. N-1`, and
the tree is written in pre-order; an empty triangle array gives the empty store. -/
def KdTreeStore.build (all_triangles : List (Triangle K)) (cfg : KdTree.Config K) :
    KdTreeStore K :=
  match CreateAabbBruteForce (KdTree.allVertices all_triangles) with
  | none => ⟨[], [], [], cfg⟩
  | some (mn, mx) =>
    let t := KdTree.buildNode all_triangles cfg (9 * all_triangles.length + 1) ⟨mn, mx⟩
      (List.range all_triangles.length) 1
    ⟨t.flattenIndices, t.flattenNodes 0 0, t.flattenAabbs, cfg⟩

/-- The states of an object of the class `KdTree` of `KdTree.hpp`: its members are private, so
it is either as default-constructed (the three vectors empty, `m_cfg` with the default member
initialisers), or as left by a call of `build` on an earlier state. -/
inductive KdTreeStore.IsState : KdTreeStore K → Prop
  | ctor : KdTreeStore.IsState ⟨[], [], [], {}⟩
  | build (kd : KdTreeStore K) (all_triangles : List (Triangle K)) (cfg : KdTree.Config K) :
      KdTreeStore.IsState kd → KdTreeStore.IsState (KdTreeStore.build all_triangles cfg)

/-- Modelled from the spec: the triangle indices of the leaves below node `i` of a node array,
left to right (`fuel` bounds the descent). -/
def KdTree.collectTriangles (nodes : List (KdTree.Node K)) (indices : List Nat) :
    Nat → Nat → List Nat
  | 0, _ => []
  | fuel + 1, i =>
    match nodes.get? i with
    | none => []
    | some (KdTree.Node.leaf start count) => (indices.drop start).take count
    | some (KdTree.Node.internal _ _ next) =>
      KdTree.collectTriangles nodes indices fuel (i + 1) ++
        KdTree.collectTriangles nodes indices fuel next

/-- Modelled from the spec: `KdTree::get_triangles`, whose body is not in the sources: the set
of all triangle indices reachable from the node, de-duplicated and sorted. -/
def KdTreeStore.get_triangles (kd : KdTreeStore K) (node_index : Nat) : List Nat :=
  ((KdTree.collectTriangles kd.m_nodes kd.m_indices kd.m_nodes.length node_index).dedup).insertionSort
    (fun a b => a ≤ b)

/-- The loop body of `ClosestIntersection` of `A5-KdTree.cpp`: triangle `i` replaces the current
hit when its time is non-negative and smaller, or when there is no hit yet. -/
def closestStep (sqrt : K → K) (ray : Ray K) (triangles : List (Triangle K))
    (intersection : KdTree.Intersection K) (i : Nat) : KdTree.Intersection K :=
  match triangles.get? i with
  | none => intersection
  | some triangle =>
    let current_t := IntersectionTimeRayTriangle sqrt ray.origin ray.direction
      triangle.v0 triangle.v1 triangle.v2
    if current_t ≥ 0 then
      if current_t < intersection.t ∨ intersection.t < 0 then ⟨i, current_t⟩ else intersection
    else intersection

/-- The ray/triangle time of triangle `j` of the array (-1 when `j` is out of range). -/
def hitTime (sqrt : K → K) (triangles : List (Triangle K)) (ray : Ray K) (j : Nat) : K :=
  match triangles.get? j with
  | none => -1
  | some triangle =>
    IntersectionTimeRayTriangle sqrt ray.origin ray.direction triangle.v0 triangle.v1 triangle.v2

/-- The result `res` is the closest hit among the triangles `S`: a miss (`t = -1`) when none of
them is hit, else a triangle of `S` with its ray/triangle time, the least non-negative one. -/
def IsClosestAmong (sqrt : K → K) (triangles : List (Triangle K)) (ray : Ray K) (S : List Nat)
    (res : KdTree.Intersection K) : Prop :=
  (res.t = -1 ∧ ∀ j ∈ S, hitTime sqrt triangles ray j < 0) ∨
  (0 ≤ res.t ∧ res.triangle_index ∈ S ∧ hitTime sqrt triangles ray res.triangle_index = res.t ∧
    ∀ j ∈ S, 0 ≤ hitTime sqrt triangles ray j → res.t ≤ hitTime sqrt triangles ray j)

/-- `ClosestIntersection` of `A5-KdTree.cpp`: the brute-force closest hit over all triangles. -/
def ClosestIntersection (sqrt : K → K) (ray : Ray K) (triangles : List (Triangle K)) :
    KdTree.Intersection K :=
  (List.range triangles.length).foldl (closestStep sqrt ray triangles) ⟨0, -1⟩

namespace KdTree

/-- Modelled from the spec: one slab of the root clip. `none` is a miss, `some none` no
constraint (a zero direction component with the origin inside the slab, the interval being
infinite), `some (some (lo, hi))` the interval of the slab. -/
def slabAxis (o d mn mx : K) : Option (Option (K × K)) :=
  if d = 0 then
    if mn ≤ o ∧ o ≤ mx then some none else none
  else some (some (min ((mn - o) / d) ((mx - o) / d), max ((mn - o) / d) ((mx - o) / d)))

/-- Modelled from the spec: the intersection of a slab interval with the running interval of
the clip (`none` standing for no constraint so far). -/
def slabMeet (acc : Option (K × K)) (iv : Option (K × K)) : Option (K × K) :=
  match acc, iv with
  | a, none => a
  | none, some i => some i
  | some (lo, hi), some (l, h) => some (max lo l, min hi h)

/-- Modelled from the spec: the clip of the ray against a box by the slab test: the interval
`[t_near, t_far]`, or `none` for a miss (`t_far < 0` or `t_near > t_far`). -/
def slabClip (ray : Ray K) (box : Aabb K) : Option (K × K) :=
  match slabAxis ray.origin.x ray.direction.x box.min.x box.max.x,
        slabAxis ray.origin.y ray.direction.y box.min.y box.max.y,
        slabAxis ray.origin.z ray.direction.z box.min.z box.max.z with
  | some ix, some iy, some iz =>
    match slabMeet (slabMeet (slabMeet none ix) iy) iz with
    | none => none
    | some (t_near, t_far) => if t_far < 0 ∨ t_near > t_far then none else some (t_near, t_far)
  | _, _, _ => none

/-- Modelled from the spec: the leaf step of the traversal: every triangle of the range is
tested and recorded, the hit of smallest non-negative `t` is kept. -/
def testLeaf (sqrt : K → K) (triangles : List (Triangle K)) (ray : Ray K) (range : List Nat)
    (stats : DebugStats) : Intersection K × DebugStats :=
  (range.foldl (closestStep sqrt ray triangles) ⟨0, -1⟩,
    { stats with tested_triangles := stats.tested_triangles ++ range })

/-- Modelled from the spec: the better of two traversal results. -/
def closer (a b : Intersection K) : Intersection K :=
  if a.t < 0 then b else if b.t < 0 then a else if b.t < a.t then b else a

/-- Modelled from the spec: the recursive front-to-back traversal from node `i` with the
interval `[t_near, t_far]` (`fuel` bounds the descent). The near child is the side of the
origin; for an origin on the plane the sign of the direction decides (the side the ray leaves
is near, so that `t_split = 0` sends the ray to the far side); a ray parallel to the plane
visits the near side only. -/
def traverse (sqrt : K → K) (triangles : List (Triangle K)) (nodes : List (Node K))
    (indices : List Nat) (ray : Ray K) :
    Nat → Nat → K → K → DebugStats → Intersection K × DebugStats
  | 0, _, _, _, stats => (⟨0, -1⟩, stats)
  | fuel + 1, i, t_near, t_far, stats =>
    let stats := { stats with traversed_nodes := stats.traversed_nodes ++ [i] }
    match nodes.get? i with
    | none => (⟨0, -1⟩, stats)
    | some (Node.leaf start count) =>
      testLeaf sqrt triangles ray ((indices.drop start).take count) stats
    | some (Node.internal a s next) =>
      let o := ray.origin.get a
      let d := ray.direction.get a
      let leftFirst : Bool := decide (o < s ∨ (o = s ∧ d > 0))
      let near := if leftFirst then i + 1 else next
      let far := if leftFirst then next else i + 1
      if d = 0 then traverse sqrt triangles nodes indices ray fuel near t_near t_far stats
      else
        let t_split := (s - o) * (1 / d)
        if t_split > t_far ∨ t_split < 0 then
          traverse sqrt triangles nodes indices ray fuel near t_near t_far stats
        else if t_split < t_near then
          traverse sqrt triangles nodes indices ray fuel far t_near t_far stats
        else
          let r1 := traverse sqrt triangles nodes indices ray fuel near t_near t_split stats
          if r1.1.t ≥ 0 ∧ r1.1.t ≤ t_split then r1
          else
            let r2 := traverse sqrt triangles nodes indices ray fuel far t_split t_far r1.2
            (closer r1.1 r2.1, r2.2)

end KdTree

/-- Modelled from the spec: `KdTree::get_closest`, whose body is not in the sources. An empty
tree is a miss; otherwise the ray is clipped against the root box and the tree is traversed from
the root with the clipped interval. -/
def KdTreeStore.get_closest (sqrt : K → K) (kd : KdTreeStore K)
    (all_triangles : List (Triangle K)) (r : Ray K) (stats : KdTree.DebugStats) :
    KdTree.Intersection K × KdTree.DebugStats :=
  match kd.m_aabbs.head? with
  | none => (⟨0, -1⟩, stats)
  | some box =>
    match KdTree.slabClip r box with
    | none => (⟨0, -1⟩, stats)
    | some (t_near, t_far) =>
      KdTree.traverse sqrt all_triangles kd.m_nodes kd.m_indices r kd.m_nodes.length 0
        t_near t_far stats


namespace KdTree

/-- The componentwise minimum of the three vertices of a triangle. -/
def triMinVec (tri : Triangle K) : Vec3 K := ⟨triMin tri 0, triMin tri 1, triMin tri 2⟩

/-- The componentwise maximum of the three vertices of a triangle. -/
def triMaxVec (tri : Triangle K) : Vec3 K := ⟨triMax tri 0, triMax tri 1, triMax tri 2⟩

/-- The number of candidate split positions of a node, over the three axes. -/
def candidateCount (tris : List (Triangle K)) (box : Aabb K) (T : List Nat) : Nat :=
  (candidates tris box T 0).length + (candidates tris box T 1).length +
    (candidates tris box T 2).length

/-- The extent of triangle `j` of the array overlaps the box (`OverlapAabbAabb` of the
triangle's bounding box and the box). -/
def TriOverlaps (tris : List (Triangle K)) (box : Aabb K) (j : Nat) : Prop :=
  ∃ tri, tris.get? j = some tri ∧
    OverlapAabbAabb (triMinVec tri) (triMaxVec tri) box.min box.max = true

namespace BuildTree

/-- The subtrees of a tree in pre-order, the tree itself first. -/
def subtrees : BuildTree K → List (BuildTree K)
  | leaf b T => [leaf b T]
  | inner b a s l r => inner b a s l r :: (l.subtrees ++ r.subtrees)

end BuildTree

/-- The tree `t` is written at node index `i` of the arrays: its box is `aabbs[i]`, a leaf owns
a slice of the index pool equal to its triangle list, an internal node is followed by its left
subtree and names the index where its right subtree is written. -/
def Laid (nodes : List (Node K)) (aabbs : List (Aabb K)) (indices : List Nat) :
    BuildTree K → Nat → Prop
  | BuildTree.leaf b T, i =>
    aabbs.get? i = some b ∧
      ∃ start, nodes.get? i = some (Node.leaf start T.length) ∧
        (indices.drop start).take T.length = T
  | BuildTree.inner b a s l r, i =>
    aabbs.get? i = some b ∧
      ∃ next, nodes.get? i = some (Node.internal a s next) ∧
        Laid nodes aabbs indices l (i + 1) ∧ Laid nodes aabbs indices r next

/-- The decision of the traversal at an internal node, over the traversals `N` of the near
child and `F` of the far child: `d` is the direction component on the split axis, `tsplit` the
time of the split plane. -/
def cascade (N F : K → K → DebugStats → Intersection K × DebugStats) (d tsplit : K)
    (t_near t_far : K) (stats : DebugStats) : Intersection K × DebugStats :=
  if d = 0 then N t_near t_far stats
  else if tsplit > t_far ∨ tsplit < 0 then N t_near t_far stats
  else if tsplit < t_near then F t_near t_far stats
  else
    if (N t_near tsplit stats).1.t ≥ 0 ∧ (N t_near tsplit stats).1.t ≤ tsplit then
      N t_near tsplit stats
    else
      (closer (N t_near tsplit stats).1 (F tsplit t_far (N t_near tsplit stats).2).1,
        (F tsplit t_far (N t_near tsplit stats).2).2)

/-- The result `res` of a traversal over the triangles `S` with the interval `[tn, tf]` is a
miss or a true hit of a triangle of `S`, and no triangle of `S` is hit in the interval before
`res` (`h` gives the ray/triangle times). -/
def TraverseOk (h : Nat → K) (S : List Nat) (tn tf : K) (res : Intersection K) : Prop :=
  (res.t = -1 ∨ (0 ≤ res.t ∧ res.triangle_index ∈ S ∧ h res.triangle_index = res.t)) ∧
  ∀ j ∈ S, 0 ≤ h j → tn ≤ h j → h j ≤ tf → 0 ≤ res.t ∧ res.t ≤ h j

/-- No triangle is lost at a split of the tree: a triangle of an internal node with
`min[a] < s` is among the triangles of the left child, one with `max[a] > s` among those of the
right child. -/
def SplitsKeep (tris : List (Triangle K)) : BuildTree K → Prop
  | BuildTree.leaf _ _ => True
  | BuildTree.inner _ a s l r =>
    (∀ j ∈ l.flattenIndices ++ r.flattenIndices, ∀ tri, tris.get? j = some tri →
      (triMin tri a < s → j ∈ l.flattenIndices) ∧ (triMax tri a > s → j ∈ r.flattenIndices)) ∧
    SplitsKeep tris l ∧ SplitsKeep tris r

/-- The ray lies in no split plane of the tree: at every internal node its direction has a
component on the split axis or its origin is off the plane. -/
def OffSplitPlanes (ray : Ray K) : BuildTree K → Prop
  | BuildTree.leaf _ _ => True
  | BuildTree.inner _ a s l r =>
    (ray.direction.get a ≠ 0 ∨ ray.origin.get a ≠ s) ∧
    OffSplitPlanes ray l ∧ OffSplitPlanes ray r

/-- The parameter `t` is in the slab interval `iv` (no constraint when `iv` is `none`). -/
def InSlab (iv : Option (K × K)) (t : K) : Prop :=
  ∀ lo hi, iv = some (lo, hi) → lo ≤ t ∧ t ≤ hi

end KdTree

/-- The store loses no triangle (invariant I3 of the spec, checked on the arrays): every
triangle index is among the triangles of the root, and at every internal node with axis `a` and
split `s` a triangle of the node with `min[a] < s` is among the triangles of the left child, one
with `max[a] > s` among those of the right child. -/
def KdTreeStore.keepsTriangles (kd : KdTreeStore K) (all_triangles : List (Triangle K)) : Bool :=
  (List.range all_triangles.length).all (fun j => decide (j ∈ kd.get_triangles 0)) &&
  (List.range kd.m_nodes.length).all (fun i =>
    match kd.m_nodes.get? i with
    | some (KdTree.Node.internal a s next) =>
      (kd.get_triangles i).all (fun j =>
        match all_triangles.get? j with
        | some tri =>
          (!decide (KdTree.triMin tri a < s) || decide (j ∈ kd.get_triangles (i + 1))) &&
          (!decide (KdTree.triMax tri a > s) || decide (j ∈ kd.get_triangles next))
        | none => true)
    | _ => true)

/-- The ray lies in no split plane of the store: at every internal node its direction has a
component on the split axis or its origin is off the plane. -/
def KdTreeStore.offSplitPlanes (kd : KdTreeStore K) (r : Ray K) : Bool :=
  kd.m_nodes.all (fun n =>
    match n with
    | KdTree.Node.internal a s _ => decide (r.direction.get a ≠ 0 ∨ r.origin.get a ≠ s)
    | KdTree.Node.leaf _ _ => true)

end CS350

namespace CS350

variable {K : Type} [LinearOrderedField K]

/-- The counters of the class `Stats` of `Stats.hpp` (the state of the singleton
`Stats::Instance()`). -/
structure Stats where
  frustumVsAabb : Nat
  aabbVsAabb : Nat
  rayVsAabb : Nat
  rayVsTriangle : Nat
deriving DecidableEq

/-- `Stats::Reset` of `Stats.hpp`: all four counters are set to zero. -/
def Stats.Reset (_st : Stats) : Stats := ⟨0, 0, 0, 0⟩

/-- `IntersectionTimeRayAabb` of `Geometry.cpp` together with its effect on the `Stats`
singleton: the body contains no statement on `Stats`, the counters are returned as they came. -/
def IntersectionTimeRayAabbStats (st : Stats) (s dir min max : Vec3 K) : K × Stats :=
  (IntersectionTimeRayAabb s dir min max, st)

/-- `IntersectionTimeRayTriangle` of `Geometry.cpp` together with its effect on the `Stats`
singleton: the body contains no statement on `Stats`, the counters are returned as they came. -/
def IntersectionTimeRayTriangleStats (sqrt : K → K) (st : Stats) (s dir p1 p2 p3 : Vec3 K) :
    K × Stats :=
  (IntersectionTimeRayTriangle sqrt s dir p1 p2 p3, st)

/-- The increment `++` of a `size_t` counter of `Stats.hpp`; `bits` is the width of `size_t`. -/
def Stats.incr (bits n : Nat) : Nat := (n + 1) % 2 ^ bits

/-- Modelled from the spec: the overload `IntersectionTimeRayTriangle(ray, triangle)` that
`ClosestIntersection` of `A5-KdTree.cpp` calls and for which that file includes `ShapeUtils.hpp`
("Intersection functions"); neither its declaration nor its body is in the sources. By section
4.4 the ray/triangle counter is incremented by the math routine: the overload counts one test on
the `Stats` singleton and forwards to `IntersectionTimeRayTriangle` of `Geometry.cpp`, as the
wrapper `Frustum::TestNaive` left in a comment in `Shapes.cpp` does for `frustumVsAabb`. -/
def IntersectionTimeRayTriangleOverload (bits : Nat) (sqrt : K → K) (st : Stats) (ray : Ray K)
    (triangle : Triangle K) : K × Stats :=
  IntersectionTimeRayTriangleStats sqrt
    { st with rayVsTriangle := Stats.incr bits st.rayVsTriangle }
    ray.origin ray.direction triangle.v0 triangle.v1 triangle.v2

/-- The loop body of `ClosestIntersection` of `A5-KdTree.cpp` with the `Stats` singleton
threaded through its call `IntersectionTimeRayTriangle(ray, triangle)`. -/
def closestStepStats (bits : Nat) (sqrt : K → K) (ray : Ray K) (triangles : List (Triangle K))
    (acc : KdTree.Intersection K × Stats) (i : Nat) : KdTree.Intersection K × Stats :=
  match triangles.get? i with
  | none => acc
  | some triangle =>
    let r := IntersectionTimeRayTriangleOverload bits sqrt acc.2 ray triangle
    let current_t := r.1
    if current_t ≥ 0 then
      if current_t < acc.1.t ∨ acc.1.t < 0 then (⟨i, current_t⟩, r.2) else (acc.1, r.2)
    else (acc.1, r.2)

/-- `ClosestIntersection` of `A5-KdTree.cpp` with the `Stats` singleton threaded through. -/
def ClosestIntersectionStats (bits : Nat) (sqrt : K → K) (st : Stats) (ray : Ray K)
    (triangles : List (Triangle K)) : KdTree.Intersection K × Stats :=
  (List.range triangles.length).foldl (closestStepStats bits sqrt ray triangles) (⟨0, -1⟩, st)

end CS350

namespace CS350

variable {K : Type} [LinearOrderedField K]

/-- `glm::vec2`. -/
structure Vec2 (K : Type) where
  x : K
  y : K
deriving DecidableEq

/-- `CS350PrimitiveData` of `CS350Loader.hpp`; a `Face` is a `std::array<int, 3>`. -/
structure CS350PrimitiveData (K : Type) where
  positions : List (Vec3 K)
  uvs : List (Vec2 K)
  normals : List (Vec3 K)
  polygons : List (Int × Int × Int)
  bvMin : Vec3 K
  bvMax : Vec3 K

/-- The state of the `std::ifstream` of the loader: the bytes of the file, the read position
and the failure flag. No exception mask is set on the stream, a failed read only sets the flag. -/
structure IStream where
  bytes : List UInt8
  pos : Nat
  failed : Bool
deriving DecidableEq

/-- `std::istream::read(buf, n)`: a failed stream extracts nothing and leaves the buffer as it
is; else the bytes up to `n` or the end of the file are stored at the front of the buffer, and
the stream fails when the file ended before `n` bytes. -/
def IStream.read (input : IStream) (buf : List UInt8) (n : Nat) : List UInt8 × IStream :=
  if input.failed then (buf, input)
  else
    let got := (input.bytes.drop input.pos).take n
    (got ++ buf.drop got.length, ⟨input.bytes, input.pos + got.length, decide (got.length < n)⟩)

/-- The value of four bytes in memory as a `uint32_t` (little-endian). -/
def u32 (b : List UInt8) : Nat :=
  (b.getD 0 0).toNat + 256 * (b.getD 1 0).toNat + 65536 * (b.getD 2 0).toNat +
    16777216 * (b.getD 3 0).toNat

/-- The value of four bytes in memory as an `int` (two's complement). -/
def i32 (b : List UInt8) : Int :=
  if u32 b < 2147483648 then (u32 b : Int) else (u32 b : Int) - 4294967296

/-- The value of twelve bytes in memory as a `glm::vec3`; `f32` gives the `float` of a 32-bit
pattern. -/
def vec3Of (f32 : Nat → K) (b : List UInt8) : Vec3 K :=
  ⟨f32 (u32 b), f32 (u32 (b.drop 4)), f32 (u32 (b.drop 8))⟩

/-- The value of eight bytes in memory as a `glm::vec2`. -/
def vec2Of (f32 : Nat → K) (b : List UInt8) : Vec2 K :=
  ⟨f32 (u32 b), f32 (u32 (b.drop 4))⟩

/-- The value of twelve bytes in memory as a `Face`. -/
def faceOf (b : List UInt8) : Int × Int × Int :=
  (i32 b, i32 (b.drop 4), i32 (b.drop 8))

/-- `ReadBoolean` of `CS350Loader.cpp`; the byte read into the `bool` counts as true when it
is not zero. -/
def ReadBoolean (input : IStream) : Bool × IStream :=
  let r := input.read [0] 1
  (decide (r.1.getD 0 0 ≠ 0), r.2)

/-- `ReadUInt32` of `CS350Loader.cpp`. -/
def ReadUInt32 (input : IStream) : Nat × IStream :=
  let r := input.read [0, 0, 0, 0] 4
  (u32 r.1, r.2)

/-- `ReadVec3` of `CS350Loader.cpp`: the value starts as `(0, 0, 0)`, whose bytes are zero. -/
def ReadVec3 (f32 : Nat → K) (input : IStream) : Vec3 K × IStream :=
  let r := input.read (List.replicate 12 0) 12
  (vec3Of f32 r.1, r.2)

/-- `ReadVec2` of `CS350Loader.cpp`: the value is not initialised, `junk 8` stands for the
bytes it holds before the read. -/
def ReadVec2 (f32 : Nat → K) (junk : Nat → List UInt8) (input : IStream) : Vec2 K × IStream :=
  let r := input.read (junk 8) 8
  (vec2Of f32 r.1, r.2)

/-- The five bytes `"CS350"`. -/
def signatureBytes : List UInt8 := [67, 83, 51, 53, 48]

/-- `VerifySignature` of `CS350Loader.cpp`: the array `signature` is not initialised (`junk 5`);
an error is the `std::runtime_error` thrown. -/
def VerifySignature (junk : Nat → List UInt8) (input : IStream) : Except String Unit × IStream :=
  let r := input.read (junk 5) 5
  if r.1.take 5 ≠ signatureBytes then (Except.error "Invalid file signature in file", r.2)
  else (Except.ok (), r.2)

/-- `ReadAttributes` of `CS350Loader.cpp`. -/
def ReadAttributes (input : IStream) : (Bool × Bool × Bool) × IStream :=
  let hasPositions := ReadBoolean input
  let hasNormals := ReadBoolean hasPositions.2
  let hasUVs := ReadBoolean hasNormals.2
  ((hasPositions.1, hasNormals.1, hasUVs.1), hasUVs.2)

/-- The loop body of `ReadVertices` of `CS350Loader.cpp`. -/
def readVertex (f32 : Nat → K) (junk : Nat → List UInt8) (hasPositions hasNormals hasUVs : Bool)
    (s : IStream × CS350PrimitiveData K) : IStream × CS350PrimitiveData K :=
  let s1 : IStream × CS350PrimitiveData K :=
    if hasPositions then
      let r := ReadVec3 f32 s.1
      (r.2, { s.2 with positions := s.2.positions ++ [r.1] })
    else s
  let s2 : IStream × CS350PrimitiveData K :=
    if hasNormals then
      let r := ReadVec3 f32 s1.1
      (r.2, { s1.2 with normals := s1.2.normals ++ [r.1] })
    else s1
  if hasUVs then
    let r := ReadVec2 f32 junk s2.1
    (r.2, { s2.2 with uvs := s2.2.uvs ++ [r.1] })
  else s2

/-- `ReadVertices` of `CS350Loader.cpp`: the loop body runs `vertexCount` times. -/
def ReadVertices (f32 : Nat → K) (junk : Nat → List UInt8)
    (hasPositions hasNormals hasUVs : Bool) :
    Nat → IStream × CS350PrimitiveData K → IStream × CS350PrimitiveData K
  | 0, s => s
  | vertexCount + 1, s =>
    ReadVertices f32 junk hasPositions hasNormals hasUVs vertexCount
      (readVertex f32 junk hasPositions hasNormals hasUVs s)

/-- The loop body of `ReadPolygons` of `CS350Loader.cpp`: the `face` is not initialised
(`junk 12`). -/
def readFace (junk : Nat → List UInt8) (s : IStream × CS350PrimitiveData K) :
    IStream × CS350PrimitiveData K :=
  let r := s.1.read (junk 12) 12
  (r.2, { s.2 with polygons := s.2.polygons ++ [faceOf r.1] })

/-- The loop of `ReadPolygons`, `count` rounds. -/
def readFaces (junk : Nat → List UInt8) :
    Nat → IStream × CS350PrimitiveData K → IStream × CS350PrimitiveData K
  | 0, s => s
  | count + 1, s => readFaces junk count (readFace junk s)

/-- `ReadPolygons` of `CS350Loader.cpp`: `indexCount / 3` faces are read. -/
def ReadPolygons (junk : Nat → List UInt8) (indexCount : Nat)
    (s : IStream × CS350PrimitiveData K) : IStream × CS350PrimitiveData K :=
  readFaces junk (indexCount / 3) s

/-- The componentwise `glm::min` of two `vec3`. -/
def Vec3.min (a b : Vec3 K) : Vec3 K := ⟨glm_min a.x b.x, glm_min a.y b.y, glm_min a.z b.z⟩

/-- The componentwise `glm::max` of two `vec3`. -/
def Vec3.max (a b : Vec3 K) : Vec3 K := ⟨glm_max a.x b.x, glm_max a.y b.y, glm_max a.z b.z⟩

/-- `CalculateBoundingVolume` of `CS350Loader.cpp`. -/
def CalculateBoundingVolume (data : CS350PrimitiveData K) : CS350PrimitiveData K :=
  match data.positions with
  | [] => data
  | p0 :: _ =>
    { data with
      bvMin := data.positions.foldl Vec3.min p0
      bvMax := data.positions.foldl Vec3.max p0 }

/-- The body of `LoadCS350Binary` of `CS350Loader.cpp` once the file is open, with the state in
which it leaves the stream. -/
def LoadCS350BinaryStream (f32 : Nat → K) (junk : Nat → List UInt8) (input : IStream) :
    Except String (CS350PrimitiveData K) × IStream :=
  let v := VerifySignature junk input
  match v.1 with
  | Except.error e => (Except.error e, v.2)
  | Except.ok _ =>
    let vertexCount := ReadUInt32 v.2
    let indexCount := ReadUInt32 vertexCount.2
    let attrs := ReadAttributes indexCount.2
    let s := ReadVertices f32 junk attrs.1.1 attrs.1.2.1 attrs.1.2.2 vertexCount.1
      (attrs.2, (⟨[], [], [], [], ⟨0, 0, 0⟩, ⟨0, 0, 0⟩⟩ : CS350PrimitiveData K))
    let s := if indexCount.1 ≠ 0 then ReadPolygons junk indexCount.1 s else s
    (Except.ok (CalculateBoundingVolume s.2), s.1)

/-- `LoadCS350Binary` of `CS350Loader.cpp`; `file` is the content of the file, `none` when it
cannot be opened. -/
def LoadCS350Binary (f32 : Nat → K) (junk : Nat → List UInt8) (file : Option (List UInt8)) :
    Except String (CS350PrimitiveData K) :=
  match file with
  | none => Except.error "Failed to open file"
  | some bytes => (LoadCS350BinaryStream f32 junk ⟨bytes, 0, false⟩).1

/-- The `n` bytes of a file from offset `off`. -/
def bytesAt (bytes : List UInt8) (off n : Nat) : List UInt8 := (bytes.drop off).take n

end CS350

namespace CS350

variable {K : Type} [LinearOrderedField K]

/-- The number of bytes of one vertex record for the three attribute flags. -/
def vertexStride (hasPositions hasNormals hasUVs : Bool) : Nat :=
  (if hasPositions then 12 else 0) + (if hasNormals then 12 else 0) + (if hasUVs then 8 else 0)

/-- The header fields of a `CS350_binary` file as the format description of `CS350Loader.hpp`
places them: the vertex count at offset 5, the index count at offset 9, the three attribute
bytes at offsets 13, 14 and 15. -/
structure CS350Header where
  vertex_count : Nat
  index_count : Nat
  has_positions : Bool
  has_normals : Bool
  has_uvs : Bool
deriving DecidableEq

/-- The header of a file. -/
def headerOf (bytes : List UInt8) : CS350Header :=
  ⟨u32 (bytesAt bytes 5 4), u32 (bytesAt bytes 9 4), decide (bytes.getD 13 0 ≠ 0),
    decide (bytes.getD 14 0 ≠ 0), decide (bytes.getD 15 0 ≠ 0)⟩

/-- The size of one vertex record of a file. -/
def CS350Header.stride (h : CS350Header) : Nat :=
  vertexStride h.has_positions h.has_normals h.has_uvs

/-- A well-formed `CS350_binary` file: the signature, the header, and all the vertex records
and faces that the header declares. -/
def WellFormedFile (bytes : List UInt8) : Prop :=
  bytes.take 5 = signatureBytes ∧
    16 + (headerOf bytes).vertex_count * (headerOf bytes).stride +
      12 * ((headerOf bytes).index_count / 3) ≤ bytes.length

instance (bytes : List UInt8) : Decidable (WellFormedFile bytes) := by
  unfold WellFormedFile; infer_instance

end CS350

namespace CS350

/-- A well-formed file: one vertex with a position and a uv, and one face. -/
def sampleFile : List UInt8 :=
  [67, 83, 51, 53, 48, 1, 0, 0, 0, 3, 0, 0, 0, 1, 0, 1,
    1, 0, 0, 0, 2, 0, 0, 0, 3, 0, 0, 0, 4, 0, 0, 0, 5, 0, 0, 0,
    0, 0, 0, 0, 255, 255, 255, 255, 2, 1, 0, 0]

/-- A file with the signature whose header declares one vertex with a position and no index,
and that ends after the header. -/
def truncatedFile : List UInt8 :=
  [67, 83, 51, 53, 48, 1, 0, 0, 0, 0, 0, 0, 0, 1, 0, 0]

end CS350

namespace CS350

variable {K : Type} [LinearOrderedField K]

namespace KdTree

/-- The outcome of a member function that reads nodes with `std::vector::at` and recurses:
`ok` is a normal return, `out_of_range` the exception `std::out_of_range` thrown by `at` (what
was written to the stream before the throw is not kept), `out_of_fuel` a recursion that has
not ended within the bound given to the model. -/
inductive Run (α : Type) where
  | ok (value : α)
  | out_of_range
  | out_of_fuel
deriving DecidableEq

/-- The text that the stream inserter writes for a `char('x' + axis)`. -/
def axisChar (axis : Nat) : String := String.singleton (Char.ofNat (('x'.toNat + axis) % 256))

/-- The string `std::string tab(size_t(level * 2), ' ')` of `KdTree::dump`. -/
def tab (level : Nat) : String := String.mk (List.replicate (level * 2) (Char.ofNat 32))

/-- The lambda `node_dump` of `KdTree::dump` in `KdTree.cpp`, writing to the stream `os`;
`showFloat` is the text the stream writes for a `float`. The `int` arguments `n` and `level`
are natural numbers here (no overflow on arrays of fewer than 2^31 nodes); the first argument
bounds the depth of the recursion. -/
def dump.node_dump (showFloat : K → String) (m_nodes : List (Node K)) :
    Nat → Nat → Nat → String → Run String
  | 0, _, _, _ => Run.out_of_fuel
  | fuel + 1, n, level, os =>
    match m_nodes.get? n with
    | none => Run.out_of_range
    | some node =>
      let os := os ++ tab level ++ "Node " ++ toString n ++ "["
      if node.is_internal then
        let os := os ++ "internal, " ++ "SplitPosition at " ++ axisChar node.axis ++ "=" ++
          showFloat node.split ++ "]\n" ++ "Depth: " ++ toString level ++ "Height: " ++
          toString level ++ "\n"
        match dump.node_dump showFloat m_nodes fuel (n + 1) (level + 1) os with
        | Run.ok os => dump.node_dump showFloat m_nodes fuel node.next_child (level + 1) os
        | r => r
      else
        Run.ok (os ++ "leaf, " ++ toString node.primitive_start ++ ":" ++
          toString ((node.primitive_start + node.primitive_count) % 4294967296) ++ "]\n")

/-- The lambda `node_triangle_count` of `KdTree::dump_graph` in `KdTree.cpp`; the sum is
an `unsigned`. -/
def dump_graph.node_triangle_count (m_nodes : List (Node K)) : Nat → Nat → Run Nat
  | 0, _ => Run.out_of_fuel
  | fuel + 1, n =>
    match m_nodes.get? n with
    | none => Run.out_of_range
    | some node =>
      if node.is_internal then
        match dump_graph.node_triangle_count m_nodes fuel (n + 1) with
        | Run.ok a =>
          match dump_graph.node_triangle_count m_nodes fuel node.next_child with
          | Run.ok b => Run.ok ((a + b) % 4294967296)
          | r => r
        | r => r
      else Run.ok node.primitive_count

/-- The lambda `node_dump` of `KdTree::dump_graph` in `KdTree.cpp`; the first argument bounds
the depth of the recursion. -/
def dump_graph.node_dump (showFloat : K → String) (m_nodes : List (Node K)) :
    Nat → Nat → Nat → String → Run String
  | 0, _, _, _ => Run.out_of_fuel
  | fuel + 1, n, n_parent, os =>
    let name := "NODE" ++ toString n
    let os := os ++ "\t" ++ name ++ "[label=\""
    match m_nodes.get? n with
    | none => Run.out_of_range
    | some node =>
      let label : Run String :=
        if node.is_internal then
          match dump_graph.node_triangle_count m_nodes (fuel + 1) n with
          | Run.ok count =>
            Run.ok (os ++ "SplitPosition: " ++ axisChar node.axis ++ " at " ++
              showFloat node.split ++ "\\n" ++ toString count ++ " subtriangles")
          | Run.out_of_range => Run.out_of_range
          | Run.out_of_fuel => Run.out_of_fuel
        else Run.ok (os ++ toString node.primitive_count ++ " triangles")
      match label with
      | Run.ok os =>
        let os := os ++ "\"];\n"
        let os := if n ≠ 0 then os ++ "\t" ++ ("NODE" ++ toString n_parent) ++ " -> " ++ name ++ ";\n"
          else os
        if node.is_internal then
          match dump_graph.node_dump showFloat m_nodes fuel (n + 1) n os with
          | Run.ok os => dump_graph.node_dump showFloat m_nodes fuel node.next_child n os
          | r => r
        else Run.ok os
      | r => r

/-- Pre-order layout of a node array: the subtree of node `i` occupies the indices `i .. j-1`.
A leaf occupies its own index; below an internal node the left subtree occupies
`i+1 .. next_child-1` and the right subtree starts at `next_child`. -/
inductive PreOrder (nodes : List (Node K)) : Nat → Nat → Prop where
  | leaf (i start count : Nat) : nodes.get? i = some (Node.leaf start count) →
      PreOrder nodes i (i + 1)
  | internal (i j axis : Nat) (split : K) (next : Nat) :
      nodes.get? i = some (Node.internal axis split next) →
      PreOrder nodes (i + 1) next → PreOrder nodes next j → PreOrder nodes i j

/-- Node `c` is a child of node `p`: `p` is internal and `c` is `p + 1` or `next_child(p)`. -/
def IsChild (nodes : List (Node K)) (p c : Nat) : Prop :=
  ∃ axis split next, nodes.get? p = some (Node.internal axis split next) ∧
    (c = p + 1 ∨ c = next)

/-- Node `n` is at depth `d`: the root is at depth 0, a child one level below its parent. -/
inductive AtDepth (nodes : List (Node K)) : Nat → Nat → Prop where
  | root : AtDepth nodes 0 0
  | child (p c d : Nat) : AtDepth nodes p d → IsChild nodes p c → AtDepth nodes c (d + 1)

/-- The concatenation of a list of texts. -/
def text : List String → String
  | [] => ""
  | s :: l => s ++ text l

/-- The text that one call of `node_dump` of `KdTree::dump` writes for node `n` at a level,
before it descends. -/
def dumpEntry (showFloat : K → String) (nodes : List (Node K)) (n level : Nat) : String :=
  match nodes.get? n with
  | none => ""
  | some (Node.internal axis split _) =>
    tab level ++ "Node " ++ toString n ++ "[" ++ "internal, " ++ "SplitPosition at " ++
      axisChar axis ++ "=" ++ showFloat split ++ "]\n" ++ "Depth: " ++ toString level ++
      "Height: " ++ toString level ++ "\n"
  | some (Node.leaf start count) =>
    tab level ++ "Node " ++ toString n ++ "[" ++ "leaf, " ++ toString start ++ ":" ++
      toString ((start + count) % 4294967296) ++ "]\n"

/-- The value of `node_triangle_count(n)` once the recursion has room to end (0 otherwise). -/
def subtreeCount (nodes : List (Node K)) (n : Nat) : Nat :=
  match dump_graph.node_triangle_count nodes nodes.length n with
  | Run.ok c => c
  | _ => 0

/-- The text that one call of `node_dump` of `KdTree::dump_graph` writes for node `n` with a
parent, before it descends: the declaration of the node, and the edge unless `n` is 0. -/
def graphEntry (showFloat : K → String) (nodes : List (Node K)) (n parent : Nat) : String :=
  "\t" ++ ("NODE" ++ toString n) ++ "[label=\"" ++
    (match nodes.get? n with
      | none => ""
      | some (Node.internal axis split _) =>
        "SplitPosition: " ++ axisChar axis ++ " at " ++ showFloat split ++ "\\n" ++
          toString (subtreeCount nodes n) ++ " subtriangles"
      | some (Node.leaf _ count) => toString count ++ " triangles") ++ "\"];\n" ++
    (if n ≠ 0 then "\t" ++ ("NODE" ++ toString parent) ++ " -> " ++ ("NODE" ++ toString n) ++ ";\n"
      else "")

end KdTree

/-- `KdTree::dump` of `KdTree.cpp`; `fuel` bounds the depth of the recursion of `node_dump`. -/
def KdTreeStore.dump (showFloat : K → String) (kd : KdTreeStore K) (fuel : Nat) (os : String) :
    KdTree.Run String :=
  KdTree.dump.node_dump showFloat kd.m_nodes fuel 0 0 os

/-- `KdTree::dump_graph` of `KdTree.cpp`; `fuel` bounds the depth of the recursion. -/
def KdTreeStore.dump_graph (showFloat : K → String) (kd : KdTreeStore K) (fuel : Nat)
    (os : String) : KdTree.Run String :=
  let os := os ++ "digraph kdtree \x7b\n"
  let os := os ++ "\tnode[group=\"\", shape=none, style=\"rounded,filled\", fontcolor=\"#101010\"]\n"
  match KdTree.dump_graph.node_dump showFloat kd.m_nodes fuel 0 0 os with
  | KdTree.Run.ok os => KdTree.Run.ok (os ++ "\x7d")
  | r => r

end CS350

namespace CS350

/-- A node array in pre-order layout: an internal root whose left child is internal too, and
three leaves. -/
def sampleNodes : List (KdTree.Node ℚ) :=
  [KdTree.Node.internal 0 (1 / 2) 4, KdTree.Node.internal 1 3 3, KdTree.Node.leaf 0 2,
    KdTree.Node.leaf 2 1, KdTree.Node.leaf 3 5]

/-- A store with the nodes `sampleNodes`. -/
def sampleStore : KdTreeStore ℚ :=
  ⟨[0, 1, 2, 3, 4, 5, 6, 7], sampleNodes, [], ⟨1, 80, 5, 50⟩⟩

/-- A text for a rational number. -/
def showRat (q : ℚ) : String := toString q.num ++ "/" ++ toString q.den

end CS350

namespace CS350

variable {K : Type} [LinearOrderedField K]

/-- `ClassifyPlanePoint` of `Geometry.cpp`. -/
def ClassifyPlanePoint (normal : Vec3 K) (d : K) (point : Vec3 K) : SideResult :=
  let distance := dot normal point + d
  if distance > 0 then SideResult.eINSIDE
  else if distance < 0 then SideResult.eOUTSIDE
  else SideResult.eOVERLAPPING

/-- `ClassifyPointTriangle` of `Geometry.cpp`. -/
def ClassifyPointTriangle (point p1 p2 p3 : Vec3 K) : Bool :=
  let v1 := Vec3.sub p2 p1
  let v2 := Vec3.sub p3 p1
  let normal := cross v1 v2
  let d := dot normal p1
  if ClassifyPlanePoint normal d point = SideResult.eOUTSIDE then false
  else if dot (cross (Vec3.sub p2 p1) (Vec3.sub point p1)) normal > 0 ∨
      dot (cross (Vec3.sub p3 p2) (Vec3.sub point p2)) normal > 0 ∨
      dot (cross (Vec3.sub p1 p3) (Vec3.sub point p3)) normal > 0 then false
  else true

/-- The loop body of `SupportFunction` of `GJK.cpp`: the pair is `extreme`, `extreme_dot`. -/
def supportStep (dir : Vec3 K) (acc : Vec3 K × K) (point : Vec3 K) : Vec3 K × K :=
  let point_dot := dot point dir
  if point_dot > acc.2 then (point, point_dot) else acc

/-- `SupportFunction` of `GJK.cpp`. The loop runs over `points[1]`, `points[2]`, ...; on an
empty vector `points[0]` is undefined (`none`). -/
def SupportFunction (points : List (Vec3 K)) (dir : Vec3 K) : Option (Vec3 K) :=
  match points with
  | [] => none
  | p0 :: rest => some (rest.foldl (supportStep dir) (p0, dot p0 dir)).1

/-- `GjkSimplex` of `GJK.hpp`: `points` is a `std::array<vec3, 4>` and `active` a
`std::bitset<4>`, both lists of length 4 here. -/
structure GjkSimplex (K : Type) where
  points : List (Vec3 K)
  active : List Bool
deriving DecidableEq

/-- The loop body of `GjkSimplex::Defragment` of `GJK.cpp` for the index `i`, with the counter
`j`; `none` is the `std::out_of_range` of `at`, `test`, `reset` or `set`. -/
def GjkSimplex.defragStep (sj : GjkSimplex K × Nat) (i : Nat) : Option (GjkSimplex K × Nat) :=
  match sj.1.active.get? i with
  | none => none
  | some false => some sj
  | some true =>
    if i ≠ sj.2 then
      match sj.1.points.get? i with
      | none => none
      | some p =>
        if sj.2 < sj.1.points.length ∧ sj.2 < sj.1.active.length then
          some (⟨sj.1.points.set sj.2 p, (sj.1.active.set i false).set sj.2 true⟩, sj.2 + 1)
        else none
    else some (sj.1, sj.2 + 1)

/-- `GjkSimplex::Defragment` of `GJK.cpp`: the loop over `i = 0 .. points.size() - 1`, the size
of the array being 4. -/
def GjkSimplex.Defragment (s : GjkSimplex K) : Option (GjkSimplex K) :=
  ((List.range 4).foldl (fun st i => st.bind (fun sj => GjkSimplex.defragStep sj i))
    (some (s, 0))).map (fun sj => sj.1)

/-- The points of the active slots of a simplex, in the order of the slots. -/
def GjkSimplex.activePoints (s : GjkSimplex K) : List (Vec3 K) :=
  ((s.points.zip s.active).filter (fun pa => pa.2)).map (fun pa => pa.1)

/-- `std::swap(a, b)` under the condition `a > b`, as `Ray::IntersectionTime` and
`Ray::TestRayAabb` apply it to the two times of a slab. -/
def swapIfGreater (a b : K) : K × K := if a > b then (b, a) else (a, b)

/-- `Ray::IntersectionTime(aabb)` of `Shapes.cpp`. -/
def Ray.IntersectionTime (r : Ray K) (aabb : Aabb K) : K :=
  let x := swapIfGreater ((aabb.min.x - r.origin.x) / r.direction.x)
    ((aabb.max.x - r.origin.x) / r.direction.x)
  let y := swapIfGreater ((aabb.min.y - r.origin.y) / r.direction.y)
    ((aabb.max.y - r.origin.y) / r.direction.y)
  if x.1 > y.2 ∨ y.1 > x.2 then -1
  else
    let tMin := if y.1 > x.1 then y.1 else x.1
    let tMax := if y.2 < x.2 then y.2 else x.2
    let z := swapIfGreater ((aabb.min.z - r.origin.z) / r.direction.z)
      ((aabb.max.z - r.origin.z) / r.direction.z)
    if tMin > z.2 ∨ z.1 > tMax then -1
    else
      let tMin := if z.1 > tMin then z.1 else tMin
      let tMax := if z.2 < tMax then z.2 else tMax
      if tMin > 0 then tMin else tMax

/-- `Ray::TestRayAabb(aabb)` of `Shapes.cpp`. -/
def Ray.TestRayAabb (r : Ray K) (aabb : Aabb K) : Bool :=
  let x := swapIfGreater ((aabb.min.x - r.origin.x) / r.direction.x)
    ((aabb.max.x - r.origin.x) / r.direction.x)
  let y := swapIfGreater ((aabb.min.y - r.origin.y) / r.direction.y)
    ((aabb.max.y - r.origin.y) / r.direction.y)
  if x.1 > y.2 ∨ y.1 > x.2 then false
  else
    let tMin := if y.1 > x.1 then y.1 else x.1
    let tMax := if y.2 < x.2 then y.2 else x.2
    let z := swapIfGreater ((aabb.min.z - r.origin.z) / r.direction.z)
      ((aabb.max.z - r.origin.z) / r.direction.z)
    if tMin > z.2 ∨ z.1 > tMax then false
    else true

/-- The area of the cross-section of a box perpendicular to the axis `a`: the product of its
extents on the two other axes. -/
def Aabb.crossSection (b : Aabb K) (a : Nat) : K :=
  let dimensions := Vec3.sub b.max b.min
  match a with
  | 0 => dimensions.y * dimensions.z
  | 1 => dimensions.z * dimensions.x
  | _ => dimensions.x * dimensions.y

end CS350

namespace CS350

variable {K : Type} [LinearOrderedField K]

/-- The children of every internal node of a node array lie behind it and inside the array:
an internal node `i` has `i + 1 < |nodes|` and `i < next_child(i) < |nodes|`. -/
def KdTree.ChildrenAhead (nodes : List (KdTree.Node K)) : Prop :=
  ∀ i axis split next, nodes.get? i = some (KdTree.Node.internal axis split next) →
    i + 1 < nodes.length ∧ i < next ∧ next < nodes.length

/-- A node array whose children lie ahead but which is no tree: both children of the root are
node 1. -/
def sharedChildNodes : List (KdTree.Node ℚ) :=
  [KdTree.Node.internal 0 (1 / 2) 1, KdTree.Node.leaf 0 2]

end CS350

namespace CS350
variable {K : Type} [LinearOrderedField K]

/-! ## Geometry kernel: point/box classification -/

theorem OverlapPointAabb_iff (p mn mx : Vec3 K) :
    OverlapPointAabb p mn mx = true ↔
      (mn.x ≤ p.x ∧ p.x ≤ mx.x) ∧ (mn.y ≤ p.y ∧ p.y ≤ mx.y) ∧ (mn.z ≤ p.z ∧ p.z ≤ mx.z) := by
  simp only [OverlapPointAabb, Bool.and_eq_true, decide_eq_true_eq, ge_iff_le]
  tauto

/-- C8: the conversion of an `Intersection` to `bool` is true exactly when `t >= 0` and false
exactly when `t < 0`. -/
theorem Intersection_toBool_iff (i : KdTree.Intersection K) :
    (i.toBool = true ↔ 0 ≤ i.t) ∧ (i.toBool = false ↔ i.t < 0) := by
  constructor
  · simp [KdTree.Intersection.toBool]
  · simp [KdTree.Intersection.toBool]

/-- C10: for a box with `min <= max`, `ClassifyPointAabb` returns `eOUTSIDE` (1) exactly when a
coordinate of `p` is outside `[min, max]`, `eOVERLAPPING` (0) exactly when `p` is in the closed
box with a coordinate on a bound, `eINSIDE` (-1) exactly when `p` is strictly inside on every
axis; the result is `<= 0` exactly when `OverlapPointAabb` holds. -/
theorem ClassifyPointAabb_spec (p mn mx : Vec3 K)
    (hbox : mn.x ≤ mx.x ∧ mn.y ≤ mx.y ∧ mn.z ≤ mx.z) :
    (ClassifyPointAabb p mn mx = SideResult.eOUTSIDE ↔
        (p.x < mn.x ∨ mx.x < p.x) ∨ (p.y < mn.y ∨ mx.y < p.y) ∨ (p.z < mn.z ∨ mx.z < p.z)) ∧
    (ClassifyPointAabb p mn mx = SideResult.eOVERLAPPING ↔
        ((mn.x ≤ p.x ∧ p.x ≤ mx.x) ∧ (mn.y ≤ p.y ∧ p.y ≤ mx.y) ∧ (mn.z ≤ p.z ∧ p.z ≤ mx.z)) ∧
        (p.x = mn.x ∨ p.x = mx.x ∨ p.y = mn.y ∨ p.y = mx.y ∨ p.z = mn.z ∨ p.z = mx.z)) ∧
    (ClassifyPointAabb p mn mx = SideResult.eINSIDE ↔
        (mn.x < p.x ∧ p.x < mx.x) ∧ (mn.y < p.y ∧ p.y < mx.y) ∧ (mn.z < p.z ∧ p.z < mx.z)) ∧
    (SideResult.eOUTSIDE.toInt = 1 ∧ SideResult.eOVERLAPPING.toInt = 0 ∧
      SideResult.eINSIDE.toInt = -1) ∧
    ((ClassifyPointAabb p mn mx).toInt ≤ 0 ↔ OverlapPointAabb p mn mx = true) := by
  obtain ⟨hx, hy, hz⟩ := hbox
  have hov := OverlapPointAabb_iff p mn mx
  by_cases ho : OverlapPointAabb p mn mx = true
  · have hb := hov.1 ho
    obtain ⟨⟨h1, h2⟩, ⟨h3, h4⟩, h5, h6⟩ := hb
    by_cases hf : (p.x = mn.x ∨ p.x = mx.x ∨ p.y = mn.y ∨ p.y = mx.y ∨ p.z = mn.z ∨ p.z = mx.z)
    · have hc : ClassifyPointAabb p mn mx = SideResult.eOVERLAPPING := by
        simp only [ClassifyPointAabb, ho, if_true, Bool.or_eq_true, decide_eq_true_eq]
        rw [if_pos (by tauto)]
      rw [hc]
      refine ⟨?_, ?_, ?_, ?_, ?_⟩
      · constructor
        · intro h; cases h
        · intro h; rcases h with (h | h) | (h | h) | (h | h) <;> exact absurd h (not_lt.2 ‹_›)
      · constructor
        · intro _; exact ⟨⟨⟨h1, h2⟩, ⟨h3, h4⟩, h5, h6⟩, hf⟩
        · intro _; rfl
      · constructor
        · intro h; cases h
        · rintro ⟨⟨a1, a2⟩, ⟨a3, a4⟩, a5, a6⟩
          rcases hf with h | h | h | h | h | h
          · exact absurd h (ne_of_gt a1)
          · exact absurd h (ne_of_lt a2)
          · exact absurd h (ne_of_gt a3)
          · exact absurd h (ne_of_lt a4)
          · exact absurd h (ne_of_gt a5)
          · exact absurd h (ne_of_lt a6)
      · exact ⟨rfl, rfl, rfl⟩
      · simp [SideResult.toInt, ho]
    · have hc : ClassifyPointAabb p mn mx = SideResult.eINSIDE := by
        simp only [ClassifyPointAabb, ho, if_true, Bool.or_eq_true, decide_eq_true_eq]
        rw [if_neg (by tauto)]
      rw [hc]
      push_neg at hf
      obtain ⟨f1, f2, f3, f4, f5, f6⟩ := hf
      refine ⟨?_, ?_, ?_, ?_, ?_⟩
      · constructor
        · intro h; cases h
        · intro h; rcases h with (h | h) | (h | h) | (h | h) <;> exact absurd h (not_lt.2 ‹_›)
      · constructor
        · intro h; cases h
        · rintro ⟨-, h | h | h | h | h | h⟩ <;> contradiction
      · constructor
        · intro _
          exact ⟨⟨lt_of_le_of_ne h1 (Ne.symm f1), lt_of_le_of_ne h2 f2⟩,
            ⟨lt_of_le_of_ne h3 (Ne.symm f3), lt_of_le_of_ne h4 f4⟩,
            lt_of_le_of_ne h5 (Ne.symm f5), lt_of_le_of_ne h6 f6⟩
        · intro _; rfl
      · exact ⟨rfl, rfl, rfl⟩
      · simp [SideResult.toInt, ho]
  · have hc : ClassifyPointAabb p mn mx = SideResult.eOUTSIDE := by
      simp only [ClassifyPointAabb, ho]
      rfl
    rw [hc]
    have hnb := mt hov.2 ho
    refine ⟨?_, ?_, ?_, ?_, ?_⟩
    · constructor
      · intro _
        by_contra hcon
        push_neg at hcon
        exact hnb ⟨⟨hcon.1.1, hcon.1.2⟩, ⟨hcon.2.1.1, hcon.2.1.2⟩, hcon.2.2.1, hcon.2.2.2⟩
      · intro _; rfl
    · constructor
      · intro h; cases h
      · rintro ⟨hb, -⟩; exact absurd hb hnb
    · constructor
      · intro h; cases h
      · rintro ⟨⟨a1, a2⟩, ⟨a3, a4⟩, a5, a6⟩
        exact absurd ⟨⟨a1.le, a2.le⟩, ⟨a3.le, a4.le⟩, a5.le, a6.le⟩ hnb
    · exact ⟨rfl, rfl, rfl⟩
    · simp [SideResult.toInt, ho]

theorem ClassifyPointAabb_spec_witness :
    ((0:ℚ) ≤ 1 ∧ (0:ℚ) ≤ 1 ∧ (0:ℚ) ≤ 1) ∧
    (ClassifyPointAabb (⟨1/2, 1/2, 1⟩ : Vec3 ℚ) ⟨0, 0, 0⟩ ⟨1, 1, 1⟩ = SideResult.eOVERLAPPING ↔
        (((0:ℚ) ≤ 1/2 ∧ (1/2:ℚ) ≤ 1) ∧ ((0:ℚ) ≤ 1/2 ∧ (1/2:ℚ) ≤ 1) ∧ ((0:ℚ) ≤ 1 ∧ (1:ℚ) ≤ 1)) ∧
        ((1/2:ℚ) = 0 ∨ (1/2:ℚ) = 1 ∨ (1/2:ℚ) = 0 ∨ (1/2:ℚ) = 1 ∨ (1:ℚ) = 0 ∨ (1:ℚ) = 1)) :=
  ⟨by decide!,
    (ClassifyPointAabb_spec (⟨1/2, 1/2, 1⟩ : Vec3 ℚ) ⟨0, 0, 0⟩ ⟨1, 1, 1⟩ (by decide!)).2.1⟩

end CS350

namespace CS350
variable {K : Type} [LinearOrderedField K]

/-! ## Geometry kernel: bounding box of a vertex array -/

theorem glm_min_eq_min (a b : K) : glm_min a b = min a b := by
  unfold glm_min
  rcases lt_trichotomy a b with h | h | h
  · rw [if_neg (not_lt.2 h.le), min_eq_left h.le]
  · subst h; simp
  · rw [if_pos h, min_eq_right h.le]

theorem glm_max_eq_max (a b : K) : glm_max a b = max a b := by
  unfold glm_max
  rcases lt_trichotomy a b with h | h | h
  · rw [if_pos h, max_eq_right h.le]
  · subst h; simp
  · rw [if_neg (not_lt.2 h.le), max_eq_left h.le]

theorem glm_abs_eq_abs (a : K) : glm_abs a = |a| := by
  unfold glm_abs
  by_cases h : a < 0
  · rw [if_pos h, abs_of_neg h]
  · rw [if_neg h, abs_of_nonneg (not_lt.1 h)]

theorem aabbStep_eq (mn mx v : Vec3 K) :
    aabbStep (mn, mx) v =
      (⟨min mn.x v.x, min mn.y v.y, min mn.z v.z⟩, ⟨max mx.x v.x, max mx.y v.y, max mx.z v.z⟩) := by
  have hmin : ∀ a b : K, min a b = if b < a then b else a := by
    intro a b
    rw [← glm_min_eq_min]; rfl
  have hmax : ∀ a b : K, max a b = if b > a then b else a := by
    intro a b
    rw [← glm_max_eq_max]; rfl
  simp only [aabbStep, hmin, hmax]
  refine Prod.ext ?_ ?_
  · simp only
    split_ifs <;> rfl
  · simp only
    split_ifs <;> rfl

theorem aabbStep_tight (S : List (Vec3 K)) (acc : Vec3 K × Vec3 K) (v : Vec3 K)
    (h : EnclosesTightly S acc.1 acc.2) :
    EnclosesTightly (S ++ [v]) (aabbStep acc v).1 (aabbStep acc v).2 := by
  obtain ⟨mn, mx⟩ := acc
  obtain ⟨hb, ⟨a1, ha1, e1⟩, ⟨a2, ha2, e2⟩, ⟨a3, ha3, e3⟩, ⟨a4, ha4, e4⟩, ⟨a5, ha5, e5⟩,
    ⟨a6, ha6, e6⟩⟩ := h
  simp only at hb e1 e2 e3 e4 e5 e6
  rw [aabbStep_eq]
  refine ⟨?_, ?_, ?_, ?_, ?_, ?_, ?_⟩
  · intro w hw
    rcases List.mem_append.1 hw with hw | hw
    · obtain ⟨⟨b1, b2⟩, ⟨b3, b4⟩, b5, b6⟩ := hb w hw
      exact ⟨⟨(min_le_left _ _).trans b1, b2.trans (le_max_left _ _)⟩,
        ⟨(min_le_left _ _).trans b3, b4.trans (le_max_left _ _)⟩,
        (min_le_left _ _).trans b5, b6.trans (le_max_left _ _)⟩
    · have hwv : w = v := by simpa using hw
      subst hwv
      exact ⟨⟨min_le_right _ _, le_max_right _ _⟩, ⟨min_le_right _ _, le_max_right _ _⟩,
        min_le_right _ _, le_max_right _ _⟩
  · rcases min_choice mn.x v.x with c | c
    · exact ⟨a1, by simp [ha1], by simp only [c, e1]⟩
    · exact ⟨v, by simp, by simp only [c]⟩
  · rcases min_choice mn.y v.y with c | c
    · exact ⟨a2, by simp [ha2], by simp only [c, e2]⟩
    · exact ⟨v, by simp, by simp only [c]⟩
  · rcases min_choice mn.z v.z with c | c
    · exact ⟨a3, by simp [ha3], by simp only [c, e3]⟩
    · exact ⟨v, by simp, by simp only [c]⟩
  · rcases max_choice mx.x v.x with c | c
    · exact ⟨a4, by simp [ha4], by simp only [c, e4]⟩
    · exact ⟨v, by simp, by simp only [c]⟩
  · rcases max_choice mx.y v.y with c | c
    · exact ⟨a5, by simp [ha5], by simp only [c, e5]⟩
    · exact ⟨v, by simp, by simp only [c]⟩
  · rcases max_choice mx.z v.z with c | c
    · exact ⟨a6, by simp [ha6], by simp only [c, e6]⟩
    · exact ⟨v, by simp, by simp only [c]⟩

theorem foldl_aabbStep_tight (l S : List (Vec3 K)) (acc : Vec3 K × Vec3 K)
    (h : EnclosesTightly S acc.1 acc.2) :
    EnclosesTightly (S ++ l) (l.foldl aabbStep acc).1 (l.foldl aabbStep acc).2 := by
  induction l generalizing S acc with
  | nil => simpa using h
  | cons v l ih =>
    have h1 := ih (S ++ [v]) (aabbStep acc v) (aabbStep_tight S acc v h)
    simpa using h1

/-- C9: on a non-empty vertex array `CreateAabbBruteForce` returns a box that encloses every
vertex componentwise, and every component of `out_min` and of `out_max` is the component of
some vertex of the array. -/
theorem CreateAabbBruteForce_tight (vertices : List (Vec3 K)) (hne : vertices ≠ []) :
    ∃ out_min out_max, CreateAabbBruteForce vertices = some (out_min, out_max) ∧
      (∀ v ∈ vertices, (out_min.x ≤ v.x ∧ v.x ≤ out_max.x) ∧ (out_min.y ≤ v.y ∧ v.y ≤ out_max.y) ∧
        (out_min.z ≤ v.z ∧ v.z ≤ out_max.z)) ∧
      (∃ v ∈ vertices, v.x = out_min.x) ∧ (∃ v ∈ vertices, v.y = out_min.y) ∧
      (∃ v ∈ vertices, v.z = out_min.z) ∧ (∃ v ∈ vertices, v.x = out_max.x) ∧
      (∃ v ∈ vertices, v.y = out_max.y) ∧ (∃ v ∈ vertices, v.z = out_max.z) := by
  cases vertices with
  | nil => exact absurd rfl hne
  | cons v0 rest =>
    refine ⟨(rest.foldl aabbStep (v0, v0)).1, (rest.foldl aabbStep (v0, v0)).2, rfl, ?_⟩
    have h0 : EnclosesTightly [v0] (v0, v0).1 (v0, v0).2 := by
      refine ⟨?_, ?_, ?_, ?_, ?_, ?_, ?_⟩
      · intro w hw
        have : w = v0 := by simpa using hw
        subst this
        simp
      all_goals exact ⟨v0, by simp, rfl⟩
    have h1 := foldl_aabbStep_tight rest [v0] (v0, v0) h0
    exact h1

theorem CreateAabbBruteForce_tight_witness :
    ([⟨0, 5, 2⟩, ⟨3, 1, 7⟩] : List (Vec3 ℚ)) ≠ [] ∧
    ∃ out_min out_max,
      CreateAabbBruteForce ([⟨0, 5, 2⟩, ⟨3, 1, 7⟩] : List (Vec3 ℚ)) = some (out_min, out_max) ∧
      (∀ v ∈ ([⟨0, 5, 2⟩, ⟨3, 1, 7⟩] : List (Vec3 ℚ)),
        (out_min.x ≤ v.x ∧ v.x ≤ out_max.x) ∧ (out_min.y ≤ v.y ∧ v.y ≤ out_max.y) ∧
        (out_min.z ≤ v.z ∧ v.z ≤ out_max.z)) ∧
      (∃ v ∈ ([⟨0, 5, 2⟩, ⟨3, 1, 7⟩] : List (Vec3 ℚ)), v.x = out_min.x) ∧
      (∃ v ∈ ([⟨0, 5, 2⟩, ⟨3, 1, 7⟩] : List (Vec3 ℚ)), v.y = out_min.y) ∧
      (∃ v ∈ ([⟨0, 5, 2⟩, ⟨3, 1, 7⟩] : List (Vec3 ℚ)), v.z = out_min.z) ∧
      (∃ v ∈ ([⟨0, 5, 2⟩, ⟨3, 1, 7⟩] : List (Vec3 ℚ)), v.x = out_max.x) ∧
      (∃ v ∈ ([⟨0, 5, 2⟩, ⟨3, 1, 7⟩] : List (Vec3 ℚ)), v.y = out_max.y) ∧
      (∃ v ∈ ([⟨0, 5, 2⟩, ⟨3, 1, 7⟩] : List (Vec3 ℚ)), v.z = out_max.z) :=
  ⟨by simp, CreateAabbBruteForce_tight _ (by simp)⟩

/-! ## Geometry kernel: ray against box -/

/-- One slab: for a nonzero direction component the parameters that put the coordinate inside
`[m, M]` are those between the two plane times. -/
theorem slab_iff (m M s d t : K) (hd : d ≠ 0) (hmM : m ≤ M) :
    (m ≤ s + t * d ∧ s + t * d ≤ M) ↔
      (min ((m - s) / d) ((M - s) / d) ≤ t ∧ t ≤ max ((m - s) / d) ((M - s) / d)) := by
  rcases lt_or_gt_of_ne hd with hneg | hpos
  · have h12 : (M - s) / d ≤ (m - s) / d :=
      div_le_div_of_nonpos_of_le hneg.le (by linarith)
    rw [min_eq_right h12, max_eq_left h12, div_le_iff_of_neg hneg, le_div_iff_of_neg hneg]
    constructor
    · rintro ⟨h1, h2⟩; constructor <;> linarith
    · rintro ⟨h1, h2⟩; constructor <;> linarith
  · have h12 : (m - s) / d ≤ (M - s) / d :=
      div_le_div_of_nonneg_right (by linarith) hpos.le
    rw [min_eq_left h12, max_eq_right h12, div_le_iff₀ hpos, le_div_iff₀ hpos]
    constructor
    · rintro ⟨h1, h2⟩; constructor <;> linarith
    · rintro ⟨h1, h2⟩; constructor <;> linarith

end CS350

namespace CS350
variable {K : Type} [LinearOrderedField K]

theorem IntersectionTimeRayAabb_eq (s dir mn mx : Vec3 K) :
    IntersectionTimeRayAabb s dir mn mx =
      if slabFar s dir mn mx < 0 ∨ slabNear s dir mn mx > slabFar s dir mn mx then -1
      else if slabNear s dir mn mx > 0 then slabNear s dir mn mx else 0 := by
  simp only [IntersectionTimeRayAabb, glm_min_eq_min, glm_max_eq_max, slabNear, slabFar]

theorem rayPoint_in_box_iff (s dir mn mx : Vec3 K) (t : K)
    (hx : dir.x ≠ 0) (hy : dir.y ≠ 0) (hz : dir.z ≠ 0)
    (hbox : mn.x ≤ mx.x ∧ mn.y ≤ mx.y ∧ mn.z ≤ mx.z) :
    OverlapPointAabb (rayPoint s dir t) mn mx = true ↔
      slabNear s dir mn mx ≤ t ∧ t ≤ slabFar s dir mn mx := by
  rw [OverlapPointAabb_iff]
  simp only [rayPoint, Vec3.add, Vec3.smul]
  rw [slab_iff mn.x mx.x s.x dir.x t hx hbox.1, slab_iff mn.y mx.y s.y dir.y t hy hbox.2.1,
    slab_iff mn.z mx.z s.z dir.z t hz hbox.2.2]
  simp only [slabNear, slabFar, max_le_iff, le_min_iff]
  tauto

/-- C2: for a ray whose three direction components are nonzero and a box with `min <= max`,
`IntersectionTimeRayAabb` returns -1 exactly when no point `s + t * dir` with `t >= 0` lies in
the closed box, equivalently when `t_far < 0` or `t_near > t_far`; otherwise it returns the
least such `t`, which is 0 when the origin is inside the box. -/
theorem IntersectionTimeRayAabb_spec (s dir mn mx : Vec3 K)
    (hx : dir.x ≠ 0) (hy : dir.y ≠ 0) (hz : dir.z ≠ 0)
    (hbox : mn.x ≤ mx.x ∧ mn.y ≤ mx.y ∧ mn.z ≤ mx.z) :
    (IntersectionTimeRayAabb s dir mn mx = -1 ↔
        ¬ ∃ t, 0 ≤ t ∧ OverlapPointAabb (rayPoint s dir t) mn mx = true) ∧
    (IntersectionTimeRayAabb s dir mn mx = -1 ↔
        (slabFar s dir mn mx < 0 ∨ slabNear s dir mn mx > slabFar s dir mn mx)) ∧
    (IntersectionTimeRayAabb s dir mn mx ≠ -1 →
        IsLeast {t | 0 ≤ t ∧ OverlapPointAabb (rayPoint s dir t) mn mx = true}
          (IntersectionTimeRayAabb s dir mn mx)) ∧
    (OverlapPointAabb s mn mx = true → IntersectionTimeRayAabb s dir mn mx = 0) := by
  have hin := fun t => rayPoint_in_box_iff s dir mn mx t hx hy hz hbox
  have heq := IntersectionTimeRayAabb_eq s dir mn mx
  have hcode : IntersectionTimeRayAabb s dir mn mx = -1 ↔
      (slabFar s dir mn mx < 0 ∨ slabNear s dir mn mx > slabFar s dir mn mx) := by
    rw [heq]
    constructor
    · intro h
      by_contra hc
      rw [if_neg hc] at h
      split_ifs at h with h0
      · rw [h] at h0; linarith
      · linarith
    · intro h; rw [if_pos h]
  have hleast : IntersectionTimeRayAabb s dir mn mx ≠ -1 →
      IsLeast {t | 0 ≤ t ∧ OverlapPointAabb (rayPoint s dir t) mn mx = true}
        (IntersectionTimeRayAabb s dir mn mx) := by
    intro hne
    have hc : ¬ (slabFar s dir mn mx < 0 ∨ slabNear s dir mn mx > slabFar s dir mn mx) :=
      fun h => hne (hcode.2 h)
    push_neg at hc
    obtain ⟨hf, hnf⟩ := hc
    have hval : IntersectionTimeRayAabb s dir mn mx = max (slabNear s dir mn mx) 0 := by
      rw [heq, if_neg (by push_neg; exact ⟨hf, hnf⟩)]
      by_cases h0 : slabNear s dir mn mx > 0
      · rw [if_pos h0, max_eq_left h0.le]
      · rw [if_neg h0, max_eq_right (not_lt.1 h0)]
    rw [hval]
    constructor
    · exact ⟨le_max_right _ _, (hin _).2 ⟨le_max_left _ _, max_le hnf hf⟩⟩
    · rintro t ⟨ht0, htb⟩
      exact max_le ((hin t).1 htb).1 ht0
  refine ⟨?_, hcode, hleast, ?_⟩
  · rw [hcode]
    constructor
    · rintro h ⟨t, ht0, htb⟩
      obtain ⟨h1, h2⟩ := (hin t).1 htb
      rcases h with h | h
      · linarith
      · linarith
    · intro h
      by_contra hc
      push_neg at hc
      exact h ⟨max (slabNear s dir mn mx) 0, le_max_right _ _,
        (hin _).2 ⟨le_max_left _ _, max_le hc.2 hc.1⟩⟩
  · intro hs
    have hs0 : OverlapPointAabb (rayPoint s dir 0) mn mx = true := by
      have : rayPoint s dir 0 = s := by
        simp [rayPoint, Vec3.add, Vec3.smul]
      rw [this]; exact hs
    have hne : IntersectionTimeRayAabb s dir mn mx ≠ -1 := by
      intro h
      have := hcode.1 h
      obtain ⟨h1, h2⟩ := (hin 0).1 hs0
      rcases this with h | h <;> linarith
    obtain ⟨⟨hge, -⟩, hlb⟩ := hleast hne
    exact le_antisymm (hlb ⟨le_refl _, hs0⟩) hge

theorem IntersectionTimeRayAabb_spec_witness :
    ((1:ℚ) ≠ 0 ∧ (1:ℚ) ≠ 0 ∧ (2:ℚ) ≠ 0) ∧
    IntersectionTimeRayAabb (⟨-1, 0, 0⟩ : Vec3 ℚ) ⟨1, 1, 2⟩ ⟨0, 0, 0⟩ ⟨4, 4, 4⟩ = 1 ∧
    IsLeast {t | 0 ≤ t ∧ OverlapPointAabb (rayPoint (⟨-1, 0, 0⟩ : Vec3 ℚ) ⟨1, 1, 2⟩ t)
        ⟨0, 0, 0⟩ ⟨4, 4, 4⟩ = true}
      (IntersectionTimeRayAabb (⟨-1, 0, 0⟩ : Vec3 ℚ) ⟨1, 1, 2⟩ ⟨0, 0, 0⟩ ⟨4, 4, 4⟩) :=
  ⟨by decide!, by decide!,
    (IntersectionTimeRayAabb_spec (⟨-1, 0, 0⟩ : Vec3 ℚ) ⟨1, 1, 2⟩ ⟨0, 0, 0⟩ ⟨4, 4, 4⟩
      (by decide!) (by decide!) (by decide!) (by decide!)).2.2.1 (by decide!)⟩

end CS350

namespace CS350
variable {K : Type} [LinearOrderedField K]

/-! ## Geometry kernel: ray against triangle -/

theorem edgeSide_sum (p1 p2 p3 P : Vec3 K) :
    edgeSide p1 p2 P (cross (Vec3.sub p2 p1) (Vec3.sub p3 p1)) +
      edgeSide p2 p3 P (cross (Vec3.sub p2 p1) (Vec3.sub p3 p1)) +
      edgeSide p3 p1 P (cross (Vec3.sub p2 p1) (Vec3.sub p3 p1)) =
    dot (cross (Vec3.sub p2 p1) (Vec3.sub p3 p1)) (cross (Vec3.sub p2 p1) (Vec3.sub p3 p1)) := by
  simp only [edgeSide, dot, cross, Vec3.sub]
  ring

theorem bary_decomp (p1 p2 p3 P : Vec3 K) :
    Vec3.smul (dot (cross (Vec3.sub p2 p1) (Vec3.sub p3 p1))
        (cross (Vec3.sub p2 p1) (Vec3.sub p3 p1))) P =
      Vec3.add (Vec3.add (Vec3.add
        (Vec3.smul (edgeSide p2 p3 P (cross (Vec3.sub p2 p1) (Vec3.sub p3 p1))) p1)
        (Vec3.smul (edgeSide p3 p1 P (cross (Vec3.sub p2 p1) (Vec3.sub p3 p1))) p2))
        (Vec3.smul (edgeSide p1 p2 P (cross (Vec3.sub p2 p1) (Vec3.sub p3 p1))) p3))
        (Vec3.smul (dot (cross (Vec3.sub p2 p1) (Vec3.sub p3 p1)) (Vec3.sub P p1))
          (cross (Vec3.sub p2 p1) (Vec3.sub p3 p1))) := by
  simp only [edgeSide, dot, cross, Vec3.sub, Vec3.add, Vec3.smul, Vec3.mk.injEq]
  refine ⟨?_, ?_, ?_⟩ <;> ring

theorem edgeSide_of_bary (p1 p2 p3 : Vec3 K) (u v w : K) (h : u + v + w = 1) :
    let N := cross (Vec3.sub p2 p1) (Vec3.sub p3 p1)
    let P := Vec3.add (Vec3.add (Vec3.smul u p1) (Vec3.smul v p2)) (Vec3.smul w p3)
    edgeSide p1 p2 P N = w * dot N N ∧ edgeSide p2 p3 P N = u * dot N N ∧
      edgeSide p3 p1 P N = v * dot N N ∧ dot N (Vec3.sub P p1) = 0 := by
  have hu : u = 1 - v - w := by linarith
  subst hu
  simp only [edgeSide, dot, cross, Vec3.sub, Vec3.add, Vec3.smul]
  refine ⟨?_, ?_, ?_, ?_⟩ <;> ring

/-- A point is in the closed triangle exactly when it is on the triangle's plane and on the
inner side of the three edges (for a non-degenerate triangle). -/
theorem InTriangle_iff (p1 p2 p3 P : Vec3 K)
    (hN : 0 < dot (cross (Vec3.sub p2 p1) (Vec3.sub p3 p1))
      (cross (Vec3.sub p2 p1) (Vec3.sub p3 p1))) :
    InTriangle p1 p2 p3 P ↔
      dot (cross (Vec3.sub p2 p1) (Vec3.sub p3 p1)) (Vec3.sub P p1) = 0 ∧
      0 ≤ edgeSide p1 p2 P (cross (Vec3.sub p2 p1) (Vec3.sub p3 p1)) ∧
      0 ≤ edgeSide p2 p3 P (cross (Vec3.sub p2 p1) (Vec3.sub p3 p1)) ∧
      0 ≤ edgeSide p3 p1 P (cross (Vec3.sub p2 p1) (Vec3.sub p3 p1)) := by
  constructor
  · rintro ⟨u, v, w, hu, hv, hw, hsum, rfl⟩
    obtain ⟨e1, e2, e3, e4⟩ := edgeSide_of_bary p1 p2 p3 u v w hsum
    rw [e1, e2, e3, e4]
    exact ⟨rfl, mul_nonneg hw hN.le, mul_nonneg hu hN.le, mul_nonneg hv hN.le⟩
  · rintro ⟨hpl, h1, h2, h3⟩
    set N := cross (Vec3.sub p2 p1) (Vec3.sub p3 p1) with hNdef
    have hsum := edgeSide_sum p1 p2 p3 P
    have hdec := bary_decomp p1 p2 p3 P
    rw [← hNdef] at hsum hdec
    rw [hpl] at hdec
    refine ⟨edgeSide p2 p3 P N / dot N N, edgeSide p3 p1 P N / dot N N,
      edgeSide p1 p2 P N / dot N N, div_nonneg h2 hN.le, div_nonneg h3 hN.le,
      div_nonneg h1 hN.le, ?_, ?_⟩
    · rw [← add_div, ← add_div, div_eq_one_iff_eq hN.ne']
      linarith
    · have hne := hN.ne'
      simp only [Vec3.smul, Vec3.add, Vec3.mk.injEq] at hdec
      obtain ⟨dx, dy, dz⟩ := hdec
      cases P with
      | mk Px Py Pz =>
        simp only [Vec3.smul, Vec3.add, Vec3.mk.injEq]
        simp only at dx dy dz
        refine ⟨?_, ?_, ?_⟩
        · field_simp; linarith
        · field_simp; linarith
        · field_simp; linarith

end CS350

namespace CS350
variable {K : Type} [LinearOrderedField K]

theorem dot_self_pos (v : Vec3 K) (h : v ≠ ⟨0, 0, 0⟩) : 0 < dot v v := by
  cases v with
  | mk a b c =>
    simp only [dot]
    have hne : a ≠ 0 ∨ b ≠ 0 ∨ c ≠ 0 := by
      by_contra hc
      push_neg at hc
      obtain ⟨ha, hb, hc⟩ := hc
      subst ha hb hc
      exact h rfl
    rcases hne with h | h | h
    · have := mul_self_pos.2 h
      nlinarith [mul_self_nonneg b, mul_self_nonneg c]
    · have := mul_self_pos.2 h
      nlinarith [mul_self_nonneg a, mul_self_nonneg c]
    · have := mul_self_pos.2 h
      nlinarith [mul_self_nonneg a, mul_self_nonneg b]

theorem IntersectionTimeRayTriangle_eq (sqrt : K → K) (s dir p1 p2 p3 : Vec3 K) :
    IntersectionTimeRayTriangle sqrt s dir p1 p2 p3 =
      if glm_abs (dot dir (normalize sqrt (cross (Vec3.sub p2 p1) (Vec3.sub p3 p1)))) < cEpsilon
      then -1
      else if 0 < -(dot (normalize sqrt (cross (Vec3.sub p2 p1) (Vec3.sub p3 p1))) s -
            dot p1 (normalize sqrt (cross (Vec3.sub p2 p1) (Vec3.sub p3 p1)))) /
            dot (normalize sqrt (cross (Vec3.sub p2 p1) (Vec3.sub p3 p1))) dir ∧
          0 ≤ edgeSide p1 p2 (rayPoint s dir
            (-(dot (normalize sqrt (cross (Vec3.sub p2 p1) (Vec3.sub p3 p1))) s -
            dot p1 (normalize sqrt (cross (Vec3.sub p2 p1) (Vec3.sub p3 p1)))) /
            dot (normalize sqrt (cross (Vec3.sub p2 p1) (Vec3.sub p3 p1))) dir))
            (normalize sqrt (cross (Vec3.sub p2 p1) (Vec3.sub p3 p1))) ∧
          0 ≤ edgeSide p2 p3 (rayPoint s dir
            (-(dot (normalize sqrt (cross (Vec3.sub p2 p1) (Vec3.sub p3 p1))) s -
            dot p1 (normalize sqrt (cross (Vec3.sub p2 p1) (Vec3.sub p3 p1)))) /
            dot (normalize sqrt (cross (Vec3.sub p2 p1) (Vec3.sub p3 p1))) dir))
            (normalize sqrt (cross (Vec3.sub p2 p1) (Vec3.sub p3 p1))) ∧
          0 ≤ edgeSide p3 p1 (rayPoint s dir
            (-(dot (normalize sqrt (cross (Vec3.sub p2 p1) (Vec3.sub p3 p1))) s -
            dot p1 (normalize sqrt (cross (Vec3.sub p2 p1) (Vec3.sub p3 p1)))) /
            dot (normalize sqrt (cross (Vec3.sub p2 p1) (Vec3.sub p3 p1))) dir))
            (normalize sqrt (cross (Vec3.sub p2 p1) (Vec3.sub p3 p1)))
        then -(dot (normalize sqrt (cross (Vec3.sub p2 p1) (Vec3.sub p3 p1))) s -
            dot p1 (normalize sqrt (cross (Vec3.sub p2 p1) (Vec3.sub p3 p1)))) /
            dot (normalize sqrt (cross (Vec3.sub p2 p1) (Vec3.sub p3 p1))) dir
        else -1 := by
  set n := normalize sqrt (cross (Vec3.sub p2 p1) (Vec3.sub p3 p1)) with hn
  set t0 := -(dot n s - dot p1 n) / dot n dir with ht0
  simp only [IntersectionTimeRayTriangle, IntersectionTimeRayPlane, ← hn, ← ht0, edgeSide,
    rayPoint]
  by_cases hp : glm_abs (dot dir n) < cEpsilon
  · simp only [hp, if_true]
    rw [if_pos (by norm_num)]
  · simp only [hp, if_false]
    by_cases hpos : t0 > 0
    · simp only [hpos, if_true, gt_iff_lt, true_and]
      rw [if_neg (not_lt.2 hpos.le)]
      by_cases he : dot (cross (Vec3.sub p2 p1) (Vec3.sub (Vec3.add s (Vec3.smul t0 dir)) p1)) n < 0 ∨
          dot (cross (Vec3.sub p3 p2) (Vec3.sub (Vec3.add s (Vec3.smul t0 dir)) p2)) n < 0 ∨
          dot (cross (Vec3.sub p1 p3) (Vec3.sub (Vec3.add s (Vec3.smul t0 dir)) p3)) n < 0
      · rw [if_pos he, if_neg]
        intro hc
        rcases he with h | h | h
        · exact absurd hc.1 (not_le.2 h)
        · exact absurd hc.2.1 (not_le.2 h)
        · exact absurd hc.2.2 (not_le.2 h)
      · rw [if_neg he, if_pos]
        push_neg at he
        exact he
    · simp only [hpos, if_false]
      rw [if_pos (by norm_num), if_neg]
      intro hc
      exact hc.1.elim

end CS350

namespace CS350
variable {K : Type} [LinearOrderedField K]

theorem dot_normalize_right (sqrt : K → K) (a v : Vec3 K) :
    dot a (normalize sqrt v) = 1 / sqrt (dot v v) * dot a v := by
  simp only [dot, normalize, Vec3.smul]; ring

theorem dot_normalize_left (sqrt : K → K) (a v : Vec3 K) :
    dot (normalize sqrt v) a = 1 / sqrt (dot v v) * dot v a := by
  simp only [dot, normalize, Vec3.smul]; ring

theorem edgeSide_normalize (sqrt : K → K) (a b P v : Vec3 K) :
    edgeSide a b P (normalize sqrt v) = 1 / sqrt (dot v v) * edgeSide a b P v := by
  simp only [edgeSide, dot_normalize_right]

theorem dot_rayPoint_sub (n s dir p1 : Vec3 K) (t : K) :
    dot n (Vec3.sub (rayPoint s dir t) p1) = dot n s - dot p1 n + t * dot n dir := by
  simp only [dot, rayPoint, Vec3.sub, Vec3.add, Vec3.smul]; ring

theorem dot_rayPoint (n s dir : Vec3 K) (t : K) :
    dot n (rayPoint s dir t) = dot n s + t * dot n dir := by
  simp only [dot, rayPoint, Vec3.add, Vec3.smul]; ring

theorem dot_comm (a b : Vec3 K) : dot a b = dot b a := by
  simp only [dot]; ring

theorem cEpsilon_pos : (0 : K) < cEpsilon := by
  unfold cEpsilon; positivity

/-- C3: for a non-degenerate triangle, `IntersectionTimeRayTriangle` returns a value other
than -1 exactly when the ray is not near-parallel to the plane (`|dir . n| >= 1e-5` for the unit
normal `n`) and meets the closed triangle at a parameter `t > 0`; the value returned is then
that parameter, and the point `s + t * dir` is on the plane `n . x = p1 . n` and on the inner
side of the three edges. The square root is assumed right at the squared length of the
normal. -/
theorem IntersectionTimeRayTriangle_spec (sqrt : K → K) (s dir p1 p2 p3 : Vec3 K)
    (hnd : cross (Vec3.sub p2 p1) (Vec3.sub p3 p1) ≠ ⟨0, 0, 0⟩)
    (hsqrt : 0 ≤ sqrt (dot (cross (Vec3.sub p2 p1) (Vec3.sub p3 p1))
        (cross (Vec3.sub p2 p1) (Vec3.sub p3 p1))) ∧
      sqrt (dot (cross (Vec3.sub p2 p1) (Vec3.sub p3 p1))
        (cross (Vec3.sub p2 p1) (Vec3.sub p3 p1))) *
      sqrt (dot (cross (Vec3.sub p2 p1) (Vec3.sub p3 p1))
        (cross (Vec3.sub p2 p1) (Vec3.sub p3 p1))) =
      dot (cross (Vec3.sub p2 p1) (Vec3.sub p3 p1)) (cross (Vec3.sub p2 p1) (Vec3.sub p3 p1))) :
    (IntersectionTimeRayTriangle sqrt s dir p1 p2 p3 ≠ -1 ↔
      (cEpsilon ≤ |dot dir (normalize sqrt (cross (Vec3.sub p2 p1) (Vec3.sub p3 p1)))| ∧
        ∃ t, 0 < t ∧ InTriangle p1 p2 p3 (rayPoint s dir t))) ∧
    (∀ t, 0 < t → InTriangle p1 p2 p3 (rayPoint s dir t) →
      IntersectionTimeRayTriangle sqrt s dir p1 p2 p3 ≠ -1 →
      IntersectionTimeRayTriangle sqrt s dir p1 p2 p3 = t) ∧
    (IntersectionTimeRayTriangle sqrt s dir p1 p2 p3 ≠ -1 →
      0 < IntersectionTimeRayTriangle sqrt s dir p1 p2 p3 ∧
      InTriangle p1 p2 p3 (rayPoint s dir (IntersectionTimeRayTriangle sqrt s dir p1 p2 p3)) ∧
      dot (normalize sqrt (cross (Vec3.sub p2 p1) (Vec3.sub p3 p1)))
          (rayPoint s dir (IntersectionTimeRayTriangle sqrt s dir p1 p2 p3)) =
        dot p1 (normalize sqrt (cross (Vec3.sub p2 p1) (Vec3.sub p3 p1))) ∧
      0 ≤ edgeSide p1 p2 (rayPoint s dir (IntersectionTimeRayTriangle sqrt s dir p1 p2 p3))
          (normalize sqrt (cross (Vec3.sub p2 p1) (Vec3.sub p3 p1))) ∧
      0 ≤ edgeSide p2 p3 (rayPoint s dir (IntersectionTimeRayTriangle sqrt s dir p1 p2 p3))
          (normalize sqrt (cross (Vec3.sub p2 p1) (Vec3.sub p3 p1))) ∧
      0 ≤ edgeSide p3 p1 (rayPoint s dir (IntersectionTimeRayTriangle sqrt s dir p1 p2 p3))
          (normalize sqrt (cross (Vec3.sub p2 p1) (Vec3.sub p3 p1)))) := by
  have heq := IntersectionTimeRayTriangle_eq sqrt s dir p1 p2 p3
  have hNN := dot_self_pos _ hnd
  set N := cross (Vec3.sub p2 p1) (Vec3.sub p3 p1) with hNdef
  set L := sqrt (dot N N) with hLdef
  have hL : 0 < L := by
    rcases hsqrt.1.lt_or_eq with h | h
    · exact h
    · rw [← h] at hsqrt; linarith [hsqrt.2]
  have hc : 0 < 1 / L := by positivity
  set n := normalize sqrt N with hndef
  set t0 := -(dot n s - dot p1 n) / dot n dir with ht0
  -- edge tests and plane membership do not depend on the length of the normal
  have hedge : ∀ a b P, 0 ≤ edgeSide a b P n ↔ 0 ≤ edgeSide a b P N := by
    intro a b P
    rw [hndef, edgeSide_normalize, ← hLdef]
    constructor
    · intro h; exact nonneg_of_mul_nonneg_right h hc
    · intro h; exact mul_nonneg hc.le h
  have hplane : ∀ P, dot N (Vec3.sub P p1) = 0 ↔ dot n (Vec3.sub P p1) = 0 := by
    intro P
    rw [hndef, dot_normalize_left, ← hLdef]
    constructor
    · intro h; rw [h, mul_zero]
    · intro h
      rcases mul_eq_zero.1 h with h | h
      · exact absurd h hc.ne'
      · exact h
  have htri : ∀ t, InTriangle p1 p2 p3 (rayPoint s dir t) ↔
      (dot n s - dot p1 n + t * dot n dir = 0 ∧ 0 ≤ edgeSide p1 p2 (rayPoint s dir t) n ∧
        0 ≤ edgeSide p2 p3 (rayPoint s dir t) n ∧ 0 ≤ edgeSide p3 p1 (rayPoint s dir t) n) := by
    intro t
    rw [InTriangle_iff p1 p2 p3 _ hNN, ← hNdef, hplane, dot_rayPoint_sub, hedge, hedge, hedge]
  have hpar : glm_abs (dot dir n) < cEpsilon ↔ ¬ cEpsilon ≤ |dot dir n| := by
    rw [glm_abs_eq_abs, not_le]
  -- on a ray that is not near-parallel the plane is met at `t0` only
  have huniq : cEpsilon ≤ |dot dir n| → ∀ t, dot n s - dot p1 n + t * dot n dir = 0 ↔ t = t0 := by
    intro hnp t
    have hdn : dot n dir ≠ 0 := by
      intro h0
      rw [dot_comm, h0, abs_zero] at hnp
      exact absurd hnp (not_le.2 cEpsilon_pos)
    rw [ht0, eq_div_iff hdn]
    constructor <;> intro h <;> linarith
  by_cases hp : cEpsilon ≤ |dot dir n|
  · have hu := huniq hp
    by_cases hgood : 0 < t0 ∧ 0 ≤ edgeSide p1 p2 (rayPoint s dir t0) n ∧
        0 ≤ edgeSide p2 p3 (rayPoint s dir t0) n ∧ 0 ≤ edgeSide p3 p1 (rayPoint s dir t0) n
    · have hval : IntersectionTimeRayTriangle sqrt s dir p1 p2 p3 = t0 := by
        rw [heq, if_neg (by rw [hpar]; exact not_not.2 hp), if_pos hgood]
      have hin : InTriangle p1 p2 p3 (rayPoint s dir t0) :=
        (htri t0).2 ⟨(hu t0).2 rfl, hgood.2⟩
      have hne : t0 ≠ -1 := by linarith [hgood.1]
      rw [hval]
      refine ⟨⟨fun _ => ⟨hp, t0, hgood.1, hin⟩, fun _ => hne⟩, ?_, ?_⟩
      · intro t _ ht _
        exact ((hu t).1 ((htri t).1 ht).1).symm
      · intro _
        refine ⟨hgood.1, hin, ?_, hgood.2⟩
        rw [dot_rayPoint]
        have := (hu t0).2 rfl
        linarith
    · have hval : IntersectionTimeRayTriangle sqrt s dir p1 p2 p3 = -1 := by
        rw [heq, if_neg (by rw [hpar]; exact not_not.2 hp), if_neg hgood]
      rw [hval]
      refine ⟨⟨fun h => absurd rfl h, ?_⟩, ?_, fun h => absurd rfl h⟩
      · rintro ⟨-, t, ht0', ht⟩
        exfalso
        have h1 := (htri t).1 ht
        have h2 := (hu t).1 h1.1
        subst h2
        exact hgood ⟨ht0', h1.2⟩
      · intro t _ _ h
        exact absurd rfl h
  · have hval : IntersectionTimeRayTriangle sqrt s dir p1 p2 p3 = -1 := by
      rw [heq, if_pos (hpar.2 hp)]
    rw [hval]
    refine ⟨⟨fun h => absurd rfl h, fun h => absurd h.1 hp⟩, ?_, fun h => absurd rfl h⟩
    intro t _ _ h
    exact absurd rfl h

end CS350

namespace CS350

theorem IntersectionTimeRayTriangle_spec_witness :
    cross (Vec3.sub (⟨1, 0, 0⟩ : Vec3 ℚ) ⟨0, 0, 0⟩) (Vec3.sub ⟨0, 1, 0⟩ ⟨0, 0, 0⟩) ≠ ⟨0, 0, 0⟩ ∧
    IntersectionTimeRayTriangle Rat.sqrt (⟨1/4, 1/4, 1⟩ : Vec3 ℚ) ⟨0, 0, -1⟩
      ⟨0, 0, 0⟩ ⟨1, 0, 0⟩ ⟨0, 1, 0⟩ = 1 ∧
    (IntersectionTimeRayTriangle Rat.sqrt (⟨1/4, 1/4, 1⟩ : Vec3 ℚ) ⟨0, 0, -1⟩
        ⟨0, 0, 0⟩ ⟨1, 0, 0⟩ ⟨0, 1, 0⟩ ≠ -1 ↔
      (cEpsilon ≤ |dot (⟨0, 0, -1⟩ : Vec3 ℚ) (normalize Rat.sqrt
          (cross (Vec3.sub (⟨1, 0, 0⟩ : Vec3 ℚ) ⟨0, 0, 0⟩) (Vec3.sub ⟨0, 1, 0⟩ ⟨0, 0, 0⟩)))| ∧
        ∃ t, 0 < t ∧ InTriangle (⟨0, 0, 0⟩ : Vec3 ℚ) ⟨1, 0, 0⟩ ⟨0, 1, 0⟩
          (rayPoint ⟨1/4, 1/4, 1⟩ ⟨0, 0, -1⟩ t))) :=
  ⟨by decide!, by decide!,
    (IntersectionTimeRayTriangle_spec Rat.sqrt (⟨1/4, 1/4, 1⟩ : Vec3 ℚ) ⟨0, 0, -1⟩
      ⟨0, 0, 0⟩ ⟨1, 0, 0⟩ ⟨0, 1, 0⟩ (by decide!) (by decide!)).1⟩

/-! ## Tree store -/

/-- `KdTree::empty()` reads the index pool: it returns true exactly when `indices()` is
empty. -/
theorem empty_iff_indices_empty {K : Type} [LinearOrderedField K] (kd : KdTreeStore K) :
    kd.empty = true ↔ kd.indices = [] := by
  simp [KdTreeStore.empty, KdTreeStore.indices, List.isEmpty_iff]

end CS350

namespace CS350
variable {K : Type} [LinearOrderedField K]

namespace KdTree

/-! ## Pre-order layout of a built tree -/

theorem BuildTree.size_pos (t : BuildTree K) : 0 < t.size := by
  cases t <;> simp [BuildTree.size]

theorem BuildTree.flattenNodes_length (t : BuildTree K) (nb pb : Nat) :
    (t.flattenNodes nb pb).length = t.size := by
  induction t generalizing nb pb with
  | leaf b T => simp [BuildTree.flattenNodes, BuildTree.size]
  | inner b a s l r ihl ihr =>
    simp [BuildTree.flattenNodes, BuildTree.size, ihl, ihr]; omega

theorem BuildTree.flattenAabbs_length (t : BuildTree K) : t.flattenAabbs.length = t.size := by
  induction t with
  | leaf b T => simp [BuildTree.flattenAabbs, BuildTree.size]
  | inner b a s l r ihl ihr =>
    simp [BuildTree.flattenAabbs, BuildTree.size, ihl, ihr]; omega

theorem get?_append_cons {α : Type} (p s : List α) (x : α) :
    (p ++ x :: s).get? p.length = some x := by
  rw [List.get?_eq_getElem?, List.getElem?_append_right (le_refl _)]
  simp

theorem BuildTree.self_mem_subtrees (t : BuildTree K) : t ∈ t.subtrees := by
  cases t <;> simp [BuildTree.subtrees]

/-- Every node index of the written tree holds a subtree of it, laid out there; the root index
holds the tree itself. -/
theorem laid_at (t : BuildTree K) :
    ∀ (pn : List (Node K)) (pa : List (Aabb K)) (pi : List Nat)
      (sn : List (Node K)) (sa : List (Aabb K)) (si : List Nat),
      pn.length = pa.length →
      ∀ i, pn.length ≤ i → i < pn.length + t.size →
        ∃ st ∈ t.subtrees,
          Laid (pn ++ t.flattenNodes pn.length pi.length ++ sn) (pa ++ t.flattenAabbs ++ sa)
            (pi ++ t.flattenIndices ++ si) st i ∧ (i = pn.length → st = t) := by
  induction t with
  | leaf b T =>
    intro pn pa pi sn sa si hlen i h1 h2
    have hi : i = pn.length := by simp [BuildTree.size] at h2; omega
    subst hi
    refine ⟨BuildTree.leaf b T, by simp [BuildTree.subtrees], ?_, fun _ => rfl⟩
    refine ⟨?_, pi.length, ?_, ?_⟩
    · rw [hlen]
      simpa [BuildTree.flattenAabbs] using get?_append_cons pa sa b
    · simpa [BuildTree.flattenNodes] using
        get?_append_cons pn sn (Node.leaf pi.length T.length : Node K)
    · simp [BuildTree.flattenIndices]
  | inner b a s l r ihl ihr =>
    intro pn pa pi sn sa si hlen i h1 h2
    -- the arrays, re-bracketed around the left and the right subtree
    have hnL : pn ++ (BuildTree.inner b a s l r).flattenNodes pn.length pi.length ++ sn =
        (pn ++ [Node.internal a s (pn.length + 1 + l.size)]) ++
          l.flattenNodes (pn ++ [Node.internal a s (pn.length + 1 + l.size)]).length pi.length ++
          (r.flattenNodes (pn.length + 1 + l.size) (pi.length + l.flattenIndices.length) ++ sn) := by
      simp [BuildTree.flattenNodes]
    have haL : pa ++ (BuildTree.inner b a s l r).flattenAabbs ++ sa =
        (pa ++ [b]) ++ l.flattenAabbs ++ (r.flattenAabbs ++ sa) := by
      simp [BuildTree.flattenAabbs]
    have hiL : pi ++ (BuildTree.inner b a s l r).flattenIndices ++ si =
        pi ++ l.flattenIndices ++ (r.flattenIndices ++ si) := by
      simp [BuildTree.flattenIndices]
    have hnR : pn ++ (BuildTree.inner b a s l r).flattenNodes pn.length pi.length ++ sn =
        (pn ++ [Node.internal a s (pn.length + 1 + l.size)] ++
            l.flattenNodes (pn.length + 1) pi.length) ++
          r.flattenNodes (pn ++ [Node.internal a s (pn.length + 1 + l.size)] ++
            l.flattenNodes (pn.length + 1) pi.length).length (pi ++ l.flattenIndices).length ++
          sn := by
      simp [BuildTree.flattenNodes, BuildTree.flattenNodes_length]
      congr 1
      omega
    have haR : pa ++ (BuildTree.inner b a s l r).flattenAabbs ++ sa =
        (pa ++ [b] ++ l.flattenAabbs) ++ r.flattenAabbs ++ sa := by
      simp [BuildTree.flattenAabbs]
    have hiR : pi ++ (BuildTree.inner b a s l r).flattenIndices ++ si =
        (pi ++ l.flattenIndices) ++ r.flattenIndices ++ si := by
      simp [BuildTree.flattenIndices]
    have hL := ihl (pn ++ [Node.internal a s (pn.length + 1 + l.size)]) (pa ++ [b]) pi
      (r.flattenNodes (pn.length + 1 + l.size) (pi.length + l.flattenIndices.length) ++ sn)
      (r.flattenAabbs ++ sa) (r.flattenIndices ++ si) (by simp [hlen])
    have hR := ihr (pn ++ [Node.internal a s (pn.length + 1 + l.size)] ++
        l.flattenNodes (pn.length + 1) pi.length) (pa ++ [b] ++ l.flattenAabbs)
      (pi ++ l.flattenIndices) sn sa si
      (by simp [hlen, BuildTree.flattenNodes_length, BuildTree.flattenAabbs_length])
    rw [← hnL, ← haL, ← hiL] at hL
    rw [← hnR, ← haR, ← hiR] at hR
    have hlenL : (pn ++ [Node.internal a s (pn.length + 1 + l.size)]).length = pn.length + 1 := by
      simp
    have hlenR : (pn ++ [Node.internal a s (pn.length + 1 + l.size)] ++
        l.flattenNodes (pn.length + 1) pi.length).length = pn.length + 1 + l.size := by
      simp [BuildTree.flattenNodes_length]
      omega
    rw [hlenL] at hL
    rw [hlenR] at hR
    have hsz : (BuildTree.inner b a s l r).size = 1 + l.size + r.size := rfl
    by_cases h0 : i = pn.length
    · subst h0
      refine ⟨BuildTree.inner b a s l r, BuildTree.self_mem_subtrees _, ?_, fun _ => rfl⟩
      obtain ⟨stl, -, hlaidl, heql⟩ := hL (pn.length + 1) (le_refl _) (by have := l.size_pos; omega)
      obtain ⟨str, -, hlaidr, heqr⟩ := hR (pn.length + 1 + l.size) (le_refl _)
        (by have := r.size_pos; omega)
      rw [heql rfl] at hlaidl
      rw [heqr rfl] at hlaidr
      refine ⟨?_, pn.length + 1 + l.size, ?_, hlaidl, hlaidr⟩
      · rw [hlen]
        simpa [BuildTree.flattenAabbs] using
          get?_append_cons pa (l.flattenAabbs ++ r.flattenAabbs ++ sa) b
      · simpa [BuildTree.flattenNodes] using
          get?_append_cons pn (l.flattenNodes (pn.length + 1) pi.length ++
            r.flattenNodes (pn.length + 1 + l.size) (pi.length + l.flattenIndices.length) ++ sn)
            (Node.internal a s (pn.length + 1 + l.size) : Node K)
    · by_cases hleft : i < pn.length + 1 + l.size
      · obtain ⟨st, hst, hlaid, -⟩ := hL i (by omega) (by omega)
        refine ⟨st, ?_, hlaid, fun h => absurd h h0⟩
        simp [BuildTree.subtrees, hst]
      · obtain ⟨st, hst, hlaid, -⟩ := hR i (by omega) (by omega)
        refine ⟨st, ?_, hlaid, fun h => absurd h h0⟩
        simp [BuildTree.subtrees, hst]

/-- On a laid-out tree the descent of `collectTriangles` returns the triangle lists of the
leaves, left to right, as soon as the fuel covers the size of the tree. -/
theorem collectTriangles_of_laid (nodes : List (Node K)) (aabbs : List (Aabb K))
    (indices : List Nat) (t : BuildTree K) :
    ∀ fuel i, t.size ≤ fuel → Laid nodes aabbs indices t i →
      collectTriangles nodes indices fuel i = t.flattenIndices := by
  induction t with
  | leaf b T =>
    intro fuel i hf hl
    obtain ⟨-, start, hn, hslice⟩ := hl
    cases fuel with
    | zero => simp [BuildTree.size] at hf
    | succ f =>
      simp only [collectTriangles, hn, BuildTree.flattenIndices]
      exact hslice
  | inner b a s l r ihl ihr =>
    intro fuel i hf hl
    obtain ⟨-, next, hn, hll, hlr⟩ := hl
    cases fuel with
    | zero => simp [BuildTree.size] at hf
    | succ f =>
      simp only [BuildTree.size] at hf
      simp only [collectTriangles, hn, BuildTree.flattenIndices]
      rw [ihl f (i + 1) (by omega) hll, ihr f next (by omega) hlr]

end KdTree

end CS350

namespace CS350
variable {K : Type} [LinearOrderedField K]

namespace KdTree

/-! ## The recursive build -/

theorem foldl_best_mem (p : Split K → Split K → Bool) (l : List (Split K)) :
    ∀ (init : Option (Split K)) (x : Split K),
      l.foldl (fun best c =>
        match best with
        | none => some c
        | some b => if p c b then some c else some b) init = some x →
      x ∈ l ∨ init = some x := by
  induction l with
  | nil => intro init x h; right; simpa using h
  | cons c l ih =>
    intro init x h
    simp only [List.foldl_cons] at h
    rcases ih _ x h with h1 | h1
    · left; exact List.mem_cons_of_mem _ h1
    · cases init with
      | none =>
        simp only [Option.some.injEq] at h1
        left; rw [← h1]; exact List.mem_cons_self _ _
      | some b =>
        simp only at h1
        split_ifs at h1
        · simp only [Option.some.injEq] at h1
          left; rw [← h1]; exact List.mem_cons_self _ _
        · right; exact h1

/-- The best split is one of the trial splits: its axis is 0, 1 or 2 and its position is a
candidate of that axis, strictly inside the box. -/
theorem bestSplit_spec (tris : List (Triangle K)) (cfg : Config K) (box : Aabb K)
    (T : List Nat) (sp : Split K) (h : bestSplit tris cfg box T = some sp) :
    (sp.axis = 0 ∨ sp.axis = 1 ∨ sp.axis = 2) ∧ sp.pos ∈ candidates tris box T sp.axis ∧
      box.min.get sp.axis < sp.pos ∧ sp.pos < box.max.get sp.axis := by
  have hmem : sp ∈ trials tris cfg box T := by
    rcases foldl_best_mem betterSplit _ none sp h with h1 | h1
    · exact h1
    · cases h1
  simp only [trials, List.mem_flatMap, List.mem_map] at hmem
  obtain ⟨a, ha, s, hs, rfl⟩ := hmem
  have hs' := hs
  simp only [candidates, List.mem_filter, decide_eq_true_eq] at hs'
  refine ⟨?_, hs, hs'.2.1, hs'.2.2⟩
  simpa using ha

theorem buildNode_box (tris : List (Triangle K)) (cfg : Config K) (fuel : Nat) (box : Aabb K)
    (T : List Nat) (depth : Int) : (buildNode tris cfg fuel box T depth).box = box := by
  cases fuel with
  | zero => rfl
  | succ f =>
    simp only [buildNode]
    split_ifs <;> try rfl
    split
    · rfl
    · split_ifs <;> rfl

theorem get_set_self (v : Vec3 K) (a : Nat) (c : K) : (v.set a c).get a = c := by
  rcases a with _ | _ | a <;> rfl

/-- The extent of the triangle `j` overlaps the box on every axis. -/
theorem triOverlaps_iff (tris : List (Triangle K)) (box : Aabb K) (j : Nat) :
    TriOverlaps tris box j ↔
      ∃ tri, tris.get? j = some tri ∧
        ∀ a, (a = 0 ∨ a = 1 ∨ a = 2) →
          triMin tri a ≤ box.max.get a ∧ box.min.get a ≤ triMax tri a := by
  unfold TriOverlaps
  constructor
  · rintro ⟨tri, h1, h2⟩
    refine ⟨tri, h1, ?_⟩
    simp only [OverlapAabbAabb, Bool.and_eq_true, decide_eq_true_eq, triMinVec, triMaxVec,
      ge_iff_le] at h2
    rintro a (rfl | rfl | rfl)
    · exact ⟨h2.1.1.1.1.1, h2.1.1.1.1.2⟩
    · exact ⟨h2.1.1.1.2, h2.1.1.2⟩
    · exact ⟨h2.1.2, h2.2⟩
  · rintro ⟨tri, h1, h2⟩
    refine ⟨tri, h1, ?_⟩
    simp only [OverlapAabbAabb, Bool.and_eq_true, decide_eq_true_eq, triMinVec, triMaxVec,
      ge_iff_le]
    have h0 := h2 0 (Or.inl rfl)
    have h1 := h2 1 (Or.inr (Or.inl rfl))
    have h2 := h2 2 (Or.inr (Or.inr rfl))
    exact ⟨⟨⟨⟨⟨h0.1, h0.2⟩, h1.1⟩, h1.2⟩, h2.1⟩, h2.2⟩

theorem get_set_of_ne (v : Vec3 K) (a b : Nat) (c : K)
    (ha : a = 0 ∨ a = 1 ∨ a = 2) (hb : b = 0 ∨ b = 1 ∨ b = 2) (hab : b ≠ a) :
    (v.set a c).get b = v.get b := by
  rcases ha with rfl | rfl | rfl <;> rcases hb with rfl | rfl | rfl <;>
    first | exact absurd rfl hab | rfl

theorem triOverlaps_clipLeft (tris : List (Triangle K)) (box : Aabb K) (T : List Nat)
    (a : Nat) (s : K) (ha : a = 0 ∨ a = 1 ∨ a = 2) (j : Nat)
    (hj : j ∈ partL tris T a s) (ho : TriOverlaps tris box j) :
    TriOverlaps tris (clipLeft box a s) j := by
  rw [triOverlaps_iff] at ho ⊢
  obtain ⟨tri, htri, hov⟩ := ho
  refine ⟨tri, htri, ?_⟩
  simp only [partL, List.mem_filter, htri, decide_eq_true_eq] at hj
  intro b hb
  by_cases hab : b = a
  · subst hab
    simp only [clipLeft, get_set_self]
    exact ⟨hj.2.le, (hov b hb).2⟩
  · simp only [clipLeft, get_set_of_ne _ a b s ha hb hab]
    exact hov b hb

theorem triOverlaps_clipRight (tris : List (Triangle K)) (box : Aabb K) (T : List Nat)
    (a : Nat) (s : K) (ha : a = 0 ∨ a = 1 ∨ a = 2) (j : Nat)
    (hj : j ∈ partR tris T a s) (ho : TriOverlaps tris box j) :
    TriOverlaps tris (clipRight box a s) j := by
  rw [triOverlaps_iff] at ho ⊢
  obtain ⟨tri, htri, hov⟩ := ho
  refine ⟨tri, htri, ?_⟩
  simp only [partR, List.mem_filter, htri, decide_eq_true_eq] at hj
  intro b hb
  by_cases hab : b = a
  · subst hab
    simp only [clipRight, get_set_self]
    exact ⟨(hov b hb).1, hj.2.le⟩
  · simp only [clipRight, get_set_of_ne _ a b s ha hb hab]
    exact hov b hb

/-- Every subtree of a built node holds at least one triangle, and only triangles of the
node's set whose extent overlaps the subtree's box. -/
theorem buildNode_subtrees (tris : List (Triangle K)) (cfg : Config K) :
    ∀ (fuel : Nat) (box : Aabb K) (T : List Nat) (depth : Int),
      T ≠ [] → (∀ j ∈ T, TriOverlaps tris box j) →
      ∀ st ∈ (buildNode tris cfg fuel box T depth).subtrees,
        st.flattenIndices ≠ [] ∧
          ∀ j ∈ st.flattenIndices, j ∈ T ∧ TriOverlaps tris st.box j := by
  have hleaf : ∀ (box : Aabb K) (T : List Nat), T ≠ [] → (∀ j ∈ T, TriOverlaps tris box j) →
      ∀ st ∈ (BuildTree.leaf box T.dedup).subtrees,
        st.flattenIndices ≠ [] ∧ ∀ j ∈ st.flattenIndices, j ∈ T ∧ TriOverlaps tris st.box j := by
    intro box T hT hov st hst
    simp only [BuildTree.subtrees, List.mem_singleton] at hst
    subst hst
    simp only [BuildTree.flattenIndices, BuildTree.box]
    refine ⟨?_, ?_⟩
    · intro h
      cases T with
      | nil => exact hT rfl
      | cons x xs =>
        have : x ∈ (x :: xs).dedup := List.mem_dedup.2 (List.mem_cons_self _ _)
        rw [h] at this
        cases this
    · intro j hj
      have := List.mem_dedup.1 hj
      exact ⟨this, hov j this⟩
  intro fuel
  induction fuel with
  | zero =>
    intro box T depth hT hov st hst
    exact hleaf box T hT hov st hst
  | succ f ih =>
    intro box T depth hT hov st hst
    simp only [buildNode] at hst
    split_ifs at hst with h1 h2 h3
    · exact hleaf box T hT hov st hst
    · exact hleaf box T hT hov st hst
    · exact hleaf box T hT hov st hst
    · split at hst
      · exact hleaf box T hT hov st hst
      · rename_i sp hsp
        split_ifs at hst with h4 h5
        · exact hleaf box T hT hov st hst
        · exact hleaf box T hT hov st hst
        · obtain ⟨hax, -, -, -⟩ := bestSplit_spec tris cfg box T sp hsp
          push_neg at h5
          have hLne : partL tris T sp.axis sp.pos ≠ [] := by
            intro h; exact h5.1 (by rw [h]; rfl)
          have hRne : partR tris T sp.axis sp.pos ≠ [] := by
            intro h; exact h5.2 (by rw [h]; rfl)
          have hLsub : ∀ j ∈ partL tris T sp.axis sp.pos, j ∈ T := by
            intro j hj; exact (List.mem_filter.1 hj).1
          have hRsub : ∀ j ∈ partR tris T sp.axis sp.pos, j ∈ T := by
            intro j hj; exact (List.mem_filter.1 hj).1
          have ihL := ih (clipLeft box sp.axis sp.pos) (partL tris T sp.axis sp.pos) (depth + 1)
            hLne (fun j hj => triOverlaps_clipLeft tris box T sp.axis sp.pos hax j hj
              (hov j (hLsub j hj)))
          have ihR := ih (clipRight box sp.axis sp.pos) (partR tris T sp.axis sp.pos) (depth + 1)
            hRne (fun j hj => triOverlaps_clipRight tris box T sp.axis sp.pos hax j hj
              (hov j (hRsub j hj)))
          simp only [BuildTree.subtrees, List.mem_cons, List.mem_append] at hst
          rcases hst with hst | hst | hst
          · subst hst
            simp only [BuildTree.flattenIndices, BuildTree.box]
            have hl := ihL _ (BuildTree.self_mem_subtrees _)
            have hr := ihR _ (BuildTree.self_mem_subtrees _)
            refine ⟨?_, ?_⟩
            · intro h
              exact hl.1 (List.append_eq_nil.1 h).1
            · intro j hj
              rcases List.mem_append.1 hj with hj | hj
              · have := hLsub j (hl.2 j hj).1
                exact ⟨this, hov j this⟩
              · have := hRsub j (hr.2 j hj).1
                exact ⟨this, hov j this⟩
          · have := ihL st hst
            exact ⟨this.1, fun j hj => ⟨hLsub j (this.2 j hj).1, (this.2 j hj).2⟩⟩
          · have := ihR st hst
            exact ⟨this.1, fun j hj => ⟨hRsub j (this.2 j hj).1, (this.2 j hj).2⟩⟩

end KdTree

end CS350

namespace CS350
variable {K : Type} [LinearOrderedField K]

namespace KdTree

/-! ## The built store -/

theorem BuildTree.subtrees_trans (t : BuildTree K) :
    ∀ st ∈ t.subtrees, ∀ u ∈ st.subtrees, u ∈ t.subtrees := by
  induction t with
  | leaf b T =>
    intro st hst u hu
    simp only [BuildTree.subtrees, List.mem_singleton] at hst
    subst hst
    exact hu
  | inner b a s l r ihl ihr =>
    intro st hst u hu
    simp only [BuildTree.subtrees, List.mem_cons, List.mem_append] at hst
    rcases hst with hst | hst | hst
    · subst hst; exact hu
    · simp only [BuildTree.subtrees, List.mem_cons, List.mem_append]
      exact Or.inr (Or.inl (ihl st hst u hu))
    · simp only [BuildTree.subtrees, List.mem_cons, List.mem_append]
      exact Or.inr (Or.inr (ihr st hst u hu))

theorem BuildTree.size_le_of_mem_subtrees (t : BuildTree K) :
    ∀ st ∈ t.subtrees, st.size ≤ t.size := by
  induction t with
  | leaf b T =>
    intro st hst
    simp only [BuildTree.subtrees, List.mem_singleton] at hst
    subst hst
    exact le_refl _
  | inner b a s l r ihl ihr =>
    intro st hst
    simp only [BuildTree.subtrees, List.mem_cons, List.mem_append] at hst
    rcases hst with hst | hst | hst
    · subst hst; exact le_refl _
    · have := ihl st hst
      simp only [BuildTree.size]; omega
    · have := ihr st hst
      simp only [BuildTree.size]; omega

theorem Laid.aabb (nodes : List (Node K)) (aabbs : List (Aabb K)) (indices : List Nat)
    (t : BuildTree K) (i : Nat) (h : Laid nodes aabbs indices t i) :
    aabbs.get? i = some t.box := by
  cases t with
  | leaf b T => exact h.1
  | inner b a s l r => exact h.1

theorem allVertices_ne_nil (tris : List (Triangle K)) (h : tris ≠ []) :
    allVertices tris ≠ [] := by
  cases tris with
  | nil => exact absurd rfl h
  | cons t ts => simp [allVertices]

theorem mem_allVertices (tris : List (Triangle K)) (j : Nat) (tri : Triangle K)
    (h : tris.get? j = some tri) :
    tri.v0 ∈ allVertices tris ∧ tri.v1 ∈ allVertices tris ∧ tri.v2 ∈ allVertices tris := by
  have hmem : tri ∈ tris := List.get?_mem h
  simp only [allVertices, List.mem_flatMap]
  exact ⟨⟨tri, hmem, by simp⟩, ⟨tri, hmem, by simp⟩, ⟨tri, hmem, by simp⟩⟩

end KdTree

/-- On a non-empty array `CreateAabbBruteForce` returns a box that encloses the array
tightly. -/
theorem CreateAabbBruteForce_encloses (vertices : List (Vec3 K)) (hne : vertices ≠ []) :
    ∃ out_min out_max, CreateAabbBruteForce vertices = some (out_min, out_max) ∧
      EnclosesTightly vertices out_min out_max := by
  cases vertices with
  | nil => exact absurd rfl hne
  | cons v0 rest =>
    refine ⟨(rest.foldl aabbStep (v0, v0)).1, (rest.foldl aabbStep (v0, v0)).2, rfl, ?_⟩
    have h0 : EnclosesTightly [v0] (v0, v0).1 (v0, v0).2 := by
      refine ⟨?_, ?_, ?_, ?_, ?_, ?_, ?_⟩
      · intro w hw
        have : w = v0 := by simpa using hw
        subst this
        simp
      all_goals exact ⟨v0, by simp, rfl⟩
    exact foldl_aabbStep_tight rest [v0] (v0, v0) h0

namespace KdTree

/-- The store written by `build`: empty for an empty array, else the pre-order image of the
tree grown from the root box over the indices `0 .. N-1`. -/
theorem build_cases (tris : List (Triangle K)) (cfg : Config K) :
    (tris = [] ∧ KdTreeStore.build tris cfg = ⟨[], [], [], cfg⟩) ∨
    (tris ≠ [] ∧ ∃ box : Aabb K,
      (∀ v ∈ allVertices tris, OverlapPointAabb v box.min box.max = true) ∧
      KdTreeStore.build tris cfg =
        ⟨(buildNode tris cfg (9 * tris.length + 1) box (List.range tris.length) 1).flattenIndices,
         (buildNode tris cfg (9 * tris.length + 1) box (List.range tris.length) 1).flattenNodes 0 0,
         (buildNode tris cfg (9 * tris.length + 1) box (List.range tris.length) 1).flattenAabbs,
         cfg⟩) := by
  by_cases h : tris = []
  · left
    subst h
    exact ⟨rfl, rfl⟩
  · right
    refine ⟨h, ?_⟩
    obtain ⟨mn, mx, hc, ht⟩ := CreateAabbBruteForce_encloses (allVertices tris)
      (allVertices_ne_nil tris h)
    refine ⟨⟨mn, mx⟩, ?_, ?_⟩
    · intro v hv
      rw [OverlapPointAabb_iff]
      exact ht.1 v hv
    · simp only [KdTreeStore.build, hc]

theorem triOverlaps_root (tris : List (Triangle K)) (box : Aabb K)
    (hbox : ∀ v ∈ allVertices tris, OverlapPointAabb v box.min box.max = true) :
    ∀ j ∈ List.range tris.length, TriOverlaps tris box j := by
  intro j hj
  have hlt : j < tris.length := List.mem_range.1 hj
  obtain ⟨tri, htri⟩ : ∃ tri, tris.get? j = some tri := ⟨tris.get ⟨j, hlt⟩, List.get?_eq_get hlt⟩
  obtain ⟨m0, m1, m2⟩ := mem_allVertices tris j tri htri
  have b0 := (OverlapPointAabb_iff _ _ _).1 (hbox _ m0)
  rw [triOverlaps_iff]
  refine ⟨tri, htri, ?_⟩
  rintro a (rfl | rfl | rfl)
  · exact ⟨(min_le_left _ _).trans ((min_le_left _ _).trans b0.1.2),
      b0.1.1.trans ((le_max_left _ _).trans (le_max_left _ _))⟩
  · exact ⟨(min_le_left _ _).trans ((min_le_left _ _).trans b0.2.1.2),
      b0.2.1.1.trans ((le_max_left _ _).trans (le_max_left _ _))⟩
  · exact ⟨(min_le_left _ _).trans ((min_le_left _ _).trans b0.2.2.2),
      b0.2.2.1.trans ((le_max_left _ _).trans (le_max_left _ _))⟩

theorem mem_get_triangles (kd : KdTreeStore K) (i j : Nat) :
    j ∈ kd.get_triangles i ↔
      j ∈ collectTriangles kd.m_nodes kd.m_indices kd.m_nodes.length i := by
  unfold KdTreeStore.get_triangles
  rw [(List.perm_insertionSort _ _).mem_iff, List.mem_dedup]

theorem nodup_get_triangles (kd : KdTreeStore K) (i : Nat) : (kd.get_triangles i).Nodup := by
  unfold KdTreeStore.get_triangles
  rw [(List.perm_insertionSort _ _).nodup_iff]
  exact List.nodup_dedup _

/-- Every node of a built store is the root of a subtree of the built tree, written at that
index; the triangles of a node at which a subtree is written are the triangles of the leaves of
that subtree. -/
theorem build_node_at (tris : List (Triangle K)) (cfg : Config K) (i : Nat)
    (hi : i < (KdTreeStore.build tris cfg).nodes.length) :
    tris ≠ [] ∧ ∃ box : Aabb K,
      (∀ v ∈ allVertices tris, OverlapPointAabb v box.min box.max = true) ∧
      (∀ u ∈ (buildNode tris cfg (9 * tris.length + 1) box (List.range tris.length) 1).subtrees,
        ∀ k, Laid (KdTreeStore.build tris cfg).m_nodes (KdTreeStore.build tris cfg).m_aabbs
            (KdTreeStore.build tris cfg).m_indices u k →
          ∀ j, j ∈ (KdTreeStore.build tris cfg).get_triangles k ↔ j ∈ u.flattenIndices) ∧
      ∃ st ∈ (buildNode tris cfg (9 * tris.length + 1) box (List.range tris.length) 1).subtrees,
        Laid (KdTreeStore.build tris cfg).m_nodes (KdTreeStore.build tris cfg).m_aabbs
          (KdTreeStore.build tris cfg).m_indices st i ∧
        (i = 0 → st = buildNode tris cfg (9 * tris.length + 1) box (List.range tris.length) 1) := by
  rcases build_cases tris cfg with ⟨-, h⟩ | ⟨hne, box, hbox, h⟩
  · rw [h] at hi
    simp [KdTreeStore.nodes] at hi
  · refine ⟨hne, box, hbox, ?_⟩
    set t := buildNode tris cfg (9 * tris.length + 1) box (List.range tris.length) 1 with ht
    rw [h] at hi ⊢
    simp only [KdTreeStore.nodes, BuildTree.flattenNodes_length] at hi
    obtain ⟨st, hst, hlaid, hroot⟩ := laid_at t [] [] [] [] [] [] rfl i (Nat.zero_le _)
      (by simpa using hi)
    simp only [List.nil_append, List.append_nil, List.length_nil] at hlaid hroot
    refine ⟨?_, st, hst, hlaid, hroot⟩
    intro u hu k hk j
    rw [mem_get_triangles]
    simp only
    rw [collectTriangles_of_laid _ _ _ u _ k _ hk]
    rw [BuildTree.flattenNodes_length]
    exact BuildTree.size_le_of_mem_subtrees t u hu

end KdTree

end CS350

namespace CS350
variable {K : Type} [LinearOrderedField K]

theorem ClassifyPointAabb_le_zero_of_overlap (p mn mx : Vec3 K)
    (h : OverlapPointAabb p mn mx = true) : (ClassifyPointAabb p mn mx).toInt ≤ 0 := by
  simp only [ClassifyPointAabb, h, if_true]
  split_ifs <;> simp [SideResult.toInt]

namespace KdTree

/-! ## Invariants of a built store -/

/-- What the modelled `build` keeps of the containment of triangles in node boxes: for every
node index `i` and every triangle index `j` in `get_triangles(i)`, the bounding box of
`triangles[j]` overlaps `aabbs[i]` (`OverlapAabbAabb`); for the root (`i = 0`) each of the three
vertices classifies as inside or on the boundary of the box (`ClassifyPointAabb <= 0`). -/
theorem build_triangles_overlap_box (tris : List (Triangle K)) (cfg : Config K) (i j : Nat)
    (hi : i < (KdTreeStore.build tris cfg).nodes.length)
    (hj : j ∈ (KdTreeStore.build tris cfg).get_triangles i) :
    ∃ tri box, tris.get? j = some tri ∧ (KdTreeStore.build tris cfg).aabbs.get? i = some box ∧
      OverlapAabbAabb (triMinVec tri) (triMaxVec tri) box.min box.max = true ∧
      (i = 0 →
        (ClassifyPointAabb tri.v0 box.min box.max).toInt ≤ 0 ∧
        (ClassifyPointAabb tri.v1 box.min box.max).toInt ≤ 0 ∧
        (ClassifyPointAabb tri.v2 box.min box.max).toInt ≤ 0) := by
  obtain ⟨hne, box, hbox, hmemAll, st, hst, hlaid, hroot⟩ := build_node_at tris cfg i hi
  have hmem := hmemAll st hst i hlaid
  have hinv := buildNode_subtrees tris cfg (9 * tris.length + 1) box (List.range tris.length) 1
    (by
      intro h
      have := congrArg List.length h
      simp only [List.length_range, List.length_nil] at this
      exact hne (List.length_eq_zero.1 this))
    (triOverlaps_root tris box hbox) st hst
  obtain ⟨-, hov⟩ := hinv.2 j ((hmem j).1 hj)
  obtain ⟨tri, htri, hto⟩ := hov
  refine ⟨tri, st.box, htri, Laid.aabb _ _ _ st i hlaid, hto, ?_⟩
  intro h0
  rw [hroot h0, buildNode_box]
  obtain ⟨m0, m1, m2⟩ := mem_allVertices tris j tri htri
  exact ⟨ClassifyPointAabb_le_zero_of_overlap _ _ _ (hbox _ m0),
    ClassifyPointAabb_le_zero_of_overlap _ _ _ (hbox _ m1),
    ClassifyPointAabb_le_zero_of_overlap _ _ _ (hbox _ m2)⟩

theorem build_triangles_overlap_box_witness :
    ∃ tri box,
      ([⟨⟨0, 0, 0⟩, ⟨4, 1, 0⟩, ⟨4, 0, 1⟩⟩, ⟨⟨0, 0, 0⟩, ⟨3, 1, 0⟩, ⟨3, 0, 1⟩⟩] :
        List (Triangle ℚ)).get? 0 = some tri ∧
      (KdTreeStore.build
        ([⟨⟨0, 0, 0⟩, ⟨4, 1, 0⟩, ⟨4, 0, 1⟩⟩, ⟨⟨0, 0, 0⟩, ⟨3, 1, 0⟩, ⟨3, 0, 1⟩⟩] : List (Triangle ℚ))
        { min_triangles := 1 }).aabbs.get? 2 = some box ∧
      OverlapAabbAabb (triMinVec tri) (triMaxVec tri) box.min box.max = true ∧
      (2 = 0 →
        (ClassifyPointAabb tri.v0 box.min box.max).toInt ≤ 0 ∧
        (ClassifyPointAabb tri.v1 box.min box.max).toInt ≤ 0 ∧
        (ClassifyPointAabb tri.v2 box.min box.max).toInt ≤ 0) :=
  build_triangles_overlap_box
    ([⟨⟨0, 0, 0⟩, ⟨4, 1, 0⟩, ⟨4, 0, 1⟩⟩, ⟨⟨0, 0, 0⟩, ⟨3, 1, 0⟩, ⟨3, 0, 1⟩⟩] : List (Triangle ℚ))
    { min_triangles := 1 } 2 0 (by decide!) (by decide!)

/-- What the modelled `build` keeps of the sanity of child sets: for every internal node `i`,
the triangle sets of its left child (`i+1`) and of its right child (`next_child`) are both
non-empty and free of duplicates, each is contained in `get_triangles(i)` and so no larger, and
together they make up `get_triangles(i)`. -/
theorem build_children_sets (tris : List (Triangle K)) (cfg : Config K) (i : Nat)
    (node : Node K) (hnode : (KdTreeStore.build tris cfg).nodes.get? i = some node)
    (hint : node.is_internal = true) :
    (KdTreeStore.build tris cfg).get_triangles (i + 1) ≠ [] ∧
    (KdTreeStore.build tris cfg).get_triangles node.next_child ≠ [] ∧
    ((KdTreeStore.build tris cfg).get_triangles (i + 1)).Nodup ∧
    ((KdTreeStore.build tris cfg).get_triangles node.next_child).Nodup ∧
    (∀ j, j ∈ (KdTreeStore.build tris cfg).get_triangles i ↔
      (j ∈ (KdTreeStore.build tris cfg).get_triangles (i + 1) ∨
        j ∈ (KdTreeStore.build tris cfg).get_triangles node.next_child)) ∧
    ((KdTreeStore.build tris cfg).get_triangles (i + 1)).length ≤
      ((KdTreeStore.build tris cfg).get_triangles i).length ∧
    ((KdTreeStore.build tris cfg).get_triangles node.next_child).length ≤
      ((KdTreeStore.build tris cfg).get_triangles i).length := by
  have hi : i < (KdTreeStore.build tris cfg).nodes.length := by
    rcases Nat.lt_or_ge i (KdTreeStore.build tris cfg).nodes.length with h | h
    · exact h
    · rw [List.get?_eq_none.2 h] at hnode
      cases hnode
  obtain ⟨hne, box, hbox, hmemAll, st, hst, hlaid, -⟩ := build_node_at tris cfg i hi
  have hTne : List.range tris.length ≠ [] := by
    intro h
    have := congrArg List.length h
    simp only [List.length_range, List.length_nil] at this
    exact hne (List.length_eq_zero.1 this)
  have hinv := buildNode_subtrees tris cfg (9 * tris.length + 1) box (List.range tris.length) 1
    hTne (triOverlaps_root tris box hbox)
  have hmem := hmemAll st hst i hlaid
  -- the subtree written at `i` is internal, with its children written at `i+1` and `next`
  cases st with
  | leaf b T =>
    obtain ⟨-, start, hn, -⟩ := hlaid
    simp only [KdTreeStore.nodes] at hnode
    rw [hn] at hnode
    cases hnode
    cases hint
  | inner b a s l r =>
    obtain ⟨-, next, hn, hll, hlr⟩ := hlaid
    simp only [KdTreeStore.nodes] at hnode
    rw [hn] at hnode
    cases hnode
    simp only [Node.next_child]
    have hl_mem : l ∈ (buildNode tris cfg (9 * tris.length + 1) box
        (List.range tris.length) 1).subtrees :=
      BuildTree.subtrees_trans _ _ hst l (by
        simp only [BuildTree.subtrees, List.mem_cons, List.mem_append]
        exact Or.inr (Or.inl (BuildTree.self_mem_subtrees l)))
    have hr_mem : r ∈ (buildNode tris cfg (9 * tris.length + 1) box
        (List.range tris.length) 1).subtrees :=
      BuildTree.subtrees_trans _ _ hst r (by
        simp only [BuildTree.subtrees, List.mem_cons, List.mem_append]
        exact Or.inr (Or.inr (BuildTree.self_mem_subtrees r)))
    have hmemL := hmemAll l hl_mem (i + 1) hll
    have hmemR := hmemAll r hr_mem next hlr
    have hsplit : ∀ j, j ∈ (KdTreeStore.build tris cfg).get_triangles i ↔
        (j ∈ (KdTreeStore.build tris cfg).get_triangles (i + 1) ∨
          j ∈ (KdTreeStore.build tris cfg).get_triangles next) := by
      intro j
      rw [hmem j, hmemL j, hmemR j]
      simp only [BuildTree.flattenIndices, List.mem_append]
    have hneL : (KdTreeStore.build tris cfg).get_triangles (i + 1) ≠ [] := by
      intro h
      obtain ⟨x, hx⟩ := List.exists_mem_of_ne_nil _ (hinv l hl_mem).1
      have := (hmemL x).2 hx
      rw [h] at this
      cases this
    have hneR : (KdTreeStore.build tris cfg).get_triangles next ≠ [] := by
      intro h
      obtain ⟨x, hx⟩ := List.exists_mem_of_ne_nil _ (hinv r hr_mem).1
      have := (hmemR x).2 hx
      rw [h] at this
      cases this
    have hndL := nodup_get_triangles (KdTreeStore.build tris cfg) (i + 1)
    have hndR := nodup_get_triangles (KdTreeStore.build tris cfg) next
    refine ⟨hneL, hneR, hndL, hndR, hsplit, ?_, ?_⟩
    · exact (List.subperm_of_subset hndL (fun j hj => (hsplit j).2 (Or.inl hj))).length_le
    · exact (List.subperm_of_subset hndR (fun j hj => (hsplit j).2 (Or.inr hj))).length_le

theorem build_children_sets_witness :
    (KdTreeStore.build
        ([⟨⟨0, 0, 0⟩, ⟨1, 0, 0⟩, ⟨0, 1, 0⟩⟩, ⟨⟨10, 0, 0⟩, ⟨11, 0, 0⟩, ⟨10, 1, 0⟩⟩] :
          List (Triangle ℚ)) { min_triangles := 1 }).nodes.get? 0 =
      some (Node.internal 0 1 2) ∧
    (KdTreeStore.build
        ([⟨⟨0, 0, 0⟩, ⟨1, 0, 0⟩, ⟨0, 1, 0⟩⟩, ⟨⟨10, 0, 0⟩, ⟨11, 0, 0⟩, ⟨10, 1, 0⟩⟩] :
          List (Triangle ℚ)) { min_triangles := 1 }).get_triangles (0 + 1) ≠ [] :=
  ⟨by decide!, (build_children_sets
    ([⟨⟨0, 0, 0⟩, ⟨1, 0, 0⟩, ⟨0, 1, 0⟩⟩, ⟨⟨10, 0, 0⟩, ⟨11, 0, 0⟩, ⟨10, 1, 0⟩⟩] : List (Triangle ℚ))
    { min_triangles := 1 } 0 (Node.internal 0 1 2) (by decide!) (by decide!)).1⟩

end KdTree

end CS350

namespace CS350
variable {K : Type} [LinearOrderedField K]

namespace KdTree

/-! ## Queries against a built store -/

/-- With `max_depth = 1` the root is not split: the built tree is one leaf holding the indices
`0 .. N-1`. -/
theorem buildNode_max_depth_one (tris : List (Triangle K)) (cfg : Config K) (fuel : Nat)
    (box : Aabb K) (hd : cfg.max_depth = 1) :
    buildNode tris cfg (fuel + 1) box (List.range tris.length) 1 =
      BuildTree.leaf box (List.range tris.length) := by
  have hdd : (List.range tris.length).dedup = List.range tris.length :=
    List.Nodup.dedup (List.nodup_range _)
  simp only [buildNode, hdd]
  split_ifs with h1 h2
  · rfl
  · rfl
  · exact absurd ⟨by rw [hd]; exact Int.one_pos, hd.symm⟩ h2
  · exact absurd ⟨by rw [hd]; exact Int.one_pos, hd.symm⟩ h2

/-- C6, as stated, fails: against the one-node tree built with `max_depth = 1` from a single
triangle, the ray constructed from the origin `(5,5,5)` and the direction `(2,2,1)` points away
from the root box, misses it and tests no triangle, although the array holds one. -/
theorem ray_missing_root_tests_nothing :
    (KdTreeStore.build ([⟨⟨0, 0, 0⟩, ⟨1, 0, 0⟩, ⟨0, 1, 0⟩⟩] : List (Triangle ℚ))
        { max_depth := 1, min_triangles := 100 }).nodes.length = 1 ∧
    ((KdTreeStore.build ([⟨⟨0, 0, 0⟩, ⟨1, 0, 0⟩, ⟨0, 1, 0⟩⟩] : List (Triangle ℚ))
        { max_depth := 1, min_triangles := 100 }).get_closest Rat.sqrt
      [⟨⟨0, 0, 0⟩, ⟨1, 0, 0⟩, ⟨0, 1, 0⟩⟩] (Ray.ctor Rat.sqrt ⟨5, 5, 5⟩ ⟨2, 2, 1⟩)
      ⟨[], []⟩).2.tested_triangles = [] := by
  refine ⟨by decide!, by decide!⟩

/-- C6, amended: for a non-empty triangle array, a tree built with `max_depth = 1` has exactly
one node; a query whose ray passes the clip against the root box tests every triangle, the
indices `0 .. N-1` in order (`N` tests), and a query whose ray misses the root box tests none. -/
theorem build_max_depth_one (tris : List (Triangle K)) (cfg : Config K)
    (hne : tris ≠ []) (hd : cfg.max_depth = 1) :
    (KdTreeStore.build tris cfg).nodes.length = 1 ∧
    ∃ box, (KdTreeStore.build tris cfg).aabbs = [box] ∧
      ∀ (sqrt : K → K) (r : Ray K) (stats : DebugStats),
        (slabClip r box ≠ none →
          ((KdTreeStore.build tris cfg).get_closest sqrt tris r stats).2.tested_triangles =
            stats.tested_triangles ++ List.range tris.length ∧
          (((KdTreeStore.build tris cfg).get_closest sqrt tris r ⟨[], []⟩).2.tested_triangles).length
            = tris.length) ∧
        (slabClip r box = none →
          ((KdTreeStore.build tris cfg).get_closest sqrt tris r stats).2.tested_triangles =
            stats.tested_triangles) := by
  rcases build_cases tris cfg with ⟨h0, -⟩ | ⟨-, box, -, h⟩
  · exact absurd h0 hne
  · rw [buildNode_max_depth_one tris cfg _ box hd] at h
    simp only [BuildTree.flattenIndices, BuildTree.flattenNodes, BuildTree.flattenAabbs,
      List.length_range] at h
    rw [h]
    refine ⟨rfl, box, rfl, ?_⟩
    intro sqrt r stats
    have hslice : (List.drop 0 (List.range tris.length)).take tris.length =
        List.range tris.length := by
      rw [List.drop_zero, List.take_of_length_le (by simp)]
    have hq : ∀ st : DebugStats, ∀ tn tf, slabClip r box = some (tn, tf) →
        (KdTreeStore.get_closest sqrt
          (⟨List.range tris.length, [Node.leaf 0 tris.length], [box], cfg⟩ : KdTreeStore K)
          tris r st).2.tested_triangles = st.tested_triangles ++ List.range tris.length := by
      intro st tn tf hc
      simp only [KdTreeStore.get_closest, List.head?_cons, hc, List.length_singleton, traverse,
        List.get?_cons_zero, testLeaf, hslice]
    constructor
    · intro hc
      obtain ⟨⟨tn, tf⟩, hc'⟩ := Option.ne_none_iff_exists'.1 hc
      refine ⟨hq stats tn tf hc', ?_⟩
      rw [hq ⟨[], []⟩ tn tf hc']
      simp
    · intro hc
      simp only [KdTreeStore.get_closest, List.head?_cons, hc]

theorem build_max_depth_one_witness :
    (KdTreeStore.build ([⟨⟨0, 0, 0⟩, ⟨1, 0, 0⟩, ⟨0, 1, 0⟩⟩, ⟨⟨0, 0, 1⟩, ⟨1, 0, 1⟩, ⟨0, 1, 1⟩⟩] :
        List (Triangle ℚ)) { max_depth := 1, min_triangles := 1 }).nodes.length = 1 :=
  (build_max_depth_one
    ([⟨⟨0, 0, 0⟩, ⟨1, 0, 0⟩, ⟨0, 1, 0⟩⟩, ⟨⟨0, 0, 1⟩, ⟨1, 0, 1⟩, ⟨0, 1, 1⟩⟩] : List (Triangle ℚ))
    { max_depth := 1, min_triangles := 1 } (by simp) rfl).1

end KdTree

end CS350

namespace CS350
variable {K : Type} [LinearOrderedField K]

namespace KdTree

/-! ## The fuel of the build is never exhausted -/

/-- Filtering a sub-selection of the triangles by a stronger test keeps fewer candidates. -/
theorem length_filter_flatMap_filter_le {β : Type} (f : Nat → List β) (q : Nat → Bool)
    (p p' : β → Bool) (hpp : ∀ c, p' c = true → p c = true) (T : List Nat) :
    (((T.filter q).flatMap f).filter p').length ≤ ((T.flatMap f).filter p).length := by
  induction T with
  | nil => simp
  | cons x xs ih =>
    have hmono : ((f x).filter p').length ≤ ((f x).filter p).length :=
      (List.monotone_filter_right (f x) (fun c hc => hpp c hc)).length_le
    by_cases hq : q x = true
    · simp only [List.filter_cons_of_pos hq, List.flatMap_cons, List.filter_append,
        List.length_append]
      omega
    · simp only [List.filter_cons_of_neg hq, List.flatMap_cons, List.filter_append,
        List.length_append]
      omega

/-- The candidates of a child on an axis are no more than those of its parent, and fewer on
the split axis: the split position itself is no longer strictly inside. -/
theorem candidates_child_le (tris : List (Triangle K)) (box box' : Aabb K) (T : List Nat)
    (q : Nat → Bool) (b : Nat)
    (hbox : ∀ c : K, box'.min.get b < c ∧ c < box'.max.get b →
      box.min.get b < c ∧ c < box.max.get b) :
    (candidates tris box' (T.filter q) b).length ≤ (candidates tris box T b).length := by
  unfold candidates
  apply length_filter_flatMap_filter_le
  intro c hc
  simp only [decide_eq_true_eq] at hc ⊢
  exact hbox c hc

theorem candidates_child_lt (tris : List (Triangle K)) (box box' : Aabb K) (T : List Nat)
    (q : Nat → Bool) (a : Nat) (s : K) (hs : s ∈ candidates tris box T a)
    (hbox : ∀ c : K, box'.min.get a < c ∧ c < box'.max.get a →
      (box.min.get a < c ∧ c < box.max.get a) ∧ c ≠ s) :
    (candidates tris box' (T.filter q) a).length < (candidates tris box T a).length := by
  have h1 : (candidates tris box' (T.filter q) a).length ≤
      ((candidates tris box T a).filter (fun c => decide (c ≠ s))).length := by
    unfold candidates
    rw [List.filter_filter]
    apply length_filter_flatMap_filter_le
    intro c hc
    simp only [decide_eq_true_eq] at hc
    have := hbox c hc
    simp only [Bool.and_eq_true, decide_eq_true_eq]
    exact ⟨this.2, this.1⟩
  have h2 : ((candidates tris box T a).filter (fun c => decide (c ≠ s))).length <
      (candidates tris box T a).length := by
    rw [List.length_filter_lt_length_iff_exists]
    exact ⟨s, hs, by simp⟩
  omega

theorem candidateCount_left_lt (tris : List (Triangle K)) (cfg : Config K) (box : Aabb K)
    (T : List Nat) (sp : Split K) (h : bestSplit tris cfg box T = some sp) :
    candidateCount tris (clipLeft box sp.axis sp.pos) (partL tris T sp.axis sp.pos) <
      candidateCount tris box T := by
  obtain ⟨hax, hcand, hlo, hhi⟩ := bestSplit_spec tris cfg box T sp h
  have hle : ∀ b, (b = 0 ∨ b = 1 ∨ b = 2) →
      (candidates tris (clipLeft box sp.axis sp.pos) (partL tris T sp.axis sp.pos) b).length ≤
        (candidates tris box T b).length := by
    intro b hb
    apply candidates_child_le
    intro c hc
    by_cases hab : b = sp.axis
    · subst hab
      simp only [clipLeft, get_set_self] at hc
      exact ⟨hc.1, hc.2.trans hhi⟩
    · simp only [clipLeft, get_set_of_ne _ sp.axis b sp.pos hax hb hab] at hc
      exact hc
  have hlt : ∀ b, b = sp.axis → (candidates tris (clipLeft box sp.axis sp.pos)
      (partL tris T sp.axis sp.pos) b).length < (candidates tris box T b).length := by
    intro b hb
    subst hb
    apply candidates_child_lt tris box _ T _ sp.axis sp.pos hcand
    intro c hc
    simp only [clipLeft, get_set_self] at hc
    exact ⟨⟨hc.1, hc.2.trans hhi⟩, hc.2.ne⟩
  have h0 := hle 0 (Or.inl rfl)
  have h1 := hle 1 (Or.inr (Or.inl rfl))
  have h2 := hle 2 (Or.inr (Or.inr rfl))
  unfold candidateCount
  rcases hax with e | e | e
  · have := hlt 0 e.symm; omega
  · have := hlt 1 e.symm; omega
  · have := hlt 2 e.symm; omega

theorem candidateCount_right_lt (tris : List (Triangle K)) (cfg : Config K) (box : Aabb K)
    (T : List Nat) (sp : Split K) (h : bestSplit tris cfg box T = some sp) :
    candidateCount tris (clipRight box sp.axis sp.pos) (partR tris T sp.axis sp.pos) <
      candidateCount tris box T := by
  obtain ⟨hax, hcand, hlo, hhi⟩ := bestSplit_spec tris cfg box T sp h
  have hle : ∀ b, (b = 0 ∨ b = 1 ∨ b = 2) →
      (candidates tris (clipRight box sp.axis sp.pos) (partR tris T sp.axis sp.pos) b).length ≤
        (candidates tris box T b).length := by
    intro b hb
    apply candidates_child_le
    intro c hc
    by_cases hab : b = sp.axis
    · subst hab
      simp only [clipRight, get_set_self] at hc
      exact ⟨hlo.trans hc.1, hc.2⟩
    · simp only [clipRight, get_set_of_ne _ sp.axis b sp.pos hax hb hab] at hc
      exact hc
  have hlt : ∀ b, b = sp.axis → (candidates tris (clipRight box sp.axis sp.pos)
      (partR tris T sp.axis sp.pos) b).length < (candidates tris box T b).length := by
    intro b hb
    subst hb
    apply candidates_child_lt tris box _ T _ sp.axis sp.pos hcand
    intro c hc
    simp only [clipRight, get_set_self] at hc
    exact ⟨⟨hlo.trans hc.1, hc.2⟩, hc.1.ne'⟩
  have h0 := hle 0 (Or.inl rfl)
  have h1 := hle 1 (Or.inr (Or.inl rfl))
  have h2 := hle 2 (Or.inr (Or.inr rfl))
  unfold candidateCount
  rcases hax with e | e | e
  · have := hlt 0 e.symm; omega
  · have := hlt 1 e.symm; omega
  · have := hlt 2 e.symm; omega

/-- Once the fuel exceeds the number of candidates of a node, the build of the node does not
depend on it: the recursion ends by itself, each split using up a candidate. -/
theorem buildNode_fuel (tris : List (Triangle K)) (cfg : Config K) :
    ∀ (fuel fuel' : Nat) (box : Aabb K) (T : List Nat) (depth : Int),
      candidateCount tris box T < fuel → candidateCount tris box T < fuel' →
      buildNode tris cfg fuel box T depth = buildNode tris cfg fuel' box T depth := by
  intro fuel
  induction fuel with
  | zero => intro fuel' box T depth h; exact absurd h (Nat.not_lt_zero _)
  | succ f ih =>
    intro fuel' box T depth h h'
    cases fuel' with
    | zero => exact absurd h' (Nat.not_lt_zero _)
    | succ f' =>
      simp only [buildNode]
      split_ifs with h1 h2 h3
      · rfl
      · rfl
      · rfl
      · cases hb : bestSplit tris cfg box T with
        | none => rfl
        | some sp =>
          simp only
          have hl := candidateCount_left_lt tris cfg box T sp hb
          have hr := candidateCount_right_lt tris cfg box T sp hb
          split_ifs with h4 h5
          · rfl
          · rfl
          · rw [ih f' _ _ _ (by omega) (by omega), ih f' _ _ _ (by omega) (by omega)]

theorem length_flatMap_le_three {β : Type} (f : Nat → List β) (hf : ∀ x, (f x).length ≤ 3)
    (T : List Nat) : (T.flatMap f).length ≤ 3 * T.length := by
  induction T with
  | nil => simp
  | cons x xs ih =>
    simp only [List.flatMap_cons, List.length_append, List.length_cons]
    have := hf x
    omega

theorem candidates_length_le (tris : List (Triangle K)) (box : Aabb K) (T : List Nat) (a : Nat) :
    (candidates tris box T a).length ≤ 3 * T.length := by
  unfold candidates
  refine (List.length_filter_le _ _).trans ?_
  apply length_flatMap_le_three
  intro x
  cases tris.get? x <;> simp

/-- The fuel `9 * N + 1` given to the build of the root is enough: any larger fuel builds the
same tree. -/
theorem build_fuel_enough (tris : List (Triangle K)) (cfg : Config K) (box : Aabb K)
    (fuel : Nat) (hf : 9 * tris.length + 1 ≤ fuel) :
    buildNode tris cfg fuel box (List.range tris.length) 1 =
      buildNode tris cfg (9 * tris.length + 1) box (List.range tris.length) 1 := by
  have h0 := candidates_length_le tris box (List.range tris.length) 0
  have h1 := candidates_length_le tris box (List.range tris.length) 1
  have h2 := candidates_length_le tris box (List.range tris.length) 2
  simp only [List.length_range] at h0 h1 h2
  apply buildNode_fuel <;> unfold candidateCount <;> omega

end KdTree

end CS350

namespace CS350
variable {K : Type} [LinearOrderedField K]

/-! ## Closest hit over a list of triangles -/

theorem IntersectionTimeRayTriangle_neg_or_pos (sqrt : K → K) (s dir p1 p2 p3 : Vec3 K) :
    IntersectionTimeRayTriangle sqrt s dir p1 p2 p3 = -1 ∨
      0 < IntersectionTimeRayTriangle sqrt s dir p1 p2 p3 := by
  rw [IntersectionTimeRayTriangle_eq]
  split_ifs with h1 h2
  · left; rfl
  · right; exact h2.1
  · left; rfl

theorem hitTime_neg_or_pos (sqrt : K → K) (tris : List (Triangle K)) (ray : Ray K) (j : Nat) :
    hitTime sqrt tris ray j = -1 ∨ 0 < hitTime sqrt tris ray j := by
  unfold hitTime
  cases tris.get? j with
  | none => left; rfl
  | some tri => exact IntersectionTimeRayTriangle_neg_or_pos _ _ _ _ _ _

theorem closestStep_eq (sqrt : K → K) (ray : Ray K) (tris : List (Triangle K))
    (acc : KdTree.Intersection K) (i : Nat) :
    closestStep sqrt ray tris acc i =
      if hitTime sqrt tris ray i ≥ 0 then
        if hitTime sqrt tris ray i < acc.t ∨ acc.t < 0 then ⟨i, hitTime sqrt tris ray i⟩ else acc
      else acc := by
  unfold closestStep hitTime
  cases tris.get? i with
  | none =>
    simp only
    rw [if_neg (by norm_num)]
  | some tri => rfl

theorem isClosestAmong_step (sqrt : K → K) (ray : Ray K) (tris : List (Triangle K))
    (pre : List Nat) (acc : KdTree.Intersection K) (i : Nat)
    (h : IsClosestAmong sqrt tris ray pre acc) :
    IsClosestAmong sqrt tris ray (pre ++ [i]) (closestStep sqrt ray tris acc i) := by
  rw [closestStep_eq]
  by_cases hi : hitTime sqrt tris ray i ≥ 0
  · rw [if_pos hi]
    by_cases hc : hitTime sqrt tris ray i < acc.t ∨ acc.t < 0
    · rw [if_pos hc]
      right
      refine ⟨hi, by simp, rfl, ?_⟩
      intro j hj hj0
      simp only
      rcases List.mem_append.1 hj with hj | hj
      · rcases h with ⟨-, hall⟩ | ⟨h0, -, -, hmin⟩
        · exact absurd hj0 (not_le.2 (hall j hj))
        · rcases hc with hc | hc
          · exact hc.le.trans (hmin j hj hj0)
          · exact absurd h0 (not_le.2 hc)
      · have : j = i := by simpa using hj
        rw [this]
    · rw [if_neg hc]
      push_neg at hc
      rcases h with ⟨ht, -⟩ | ⟨h0, hm, ht, hmin⟩
      · rw [ht] at hc
        exact absurd hc.2 (by norm_num)
      · right
        refine ⟨h0, List.mem_append_left _ hm, ht, ?_⟩
        intro j hj hj0
        rcases List.mem_append.1 hj with hj | hj
        · exact hmin j hj hj0
        · have : j = i := by simpa using hj
          rw [this]; exact hc.1
  · rw [if_neg hi]
    push_neg at hi
    rcases h with ⟨ht, hall⟩ | ⟨h0, hm, ht, hmin⟩
    · left
      refine ⟨ht, ?_⟩
      intro j hj
      rcases List.mem_append.1 hj with hj | hj
      · exact hall j hj
      · have : j = i := by simpa using hj
        rw [this]; exact hi
    · right
      refine ⟨h0, List.mem_append_left _ hm, ht, ?_⟩
      intro j hj hj0
      rcases List.mem_append.1 hj with hj | hj
      · exact hmin j hj hj0
      · have : j = i := by simpa using hj
        rw [this] at hj0
        exact absurd hj0 (not_le.2 hi)

theorem isClosestAmong_foldl (sqrt : K → K) (ray : Ray K) (tris : List (Triangle K))
    (S : List Nat) :
    ∀ (pre : List Nat) (acc : KdTree.Intersection K), IsClosestAmong sqrt tris ray pre acc →
      IsClosestAmong sqrt tris ray (pre ++ S) (S.foldl (closestStep sqrt ray tris) acc) := by
  induction S with
  | nil => intro pre acc h; simpa using h
  | cons i S ih =>
    intro pre acc h
    have := ih (pre ++ [i]) _ (isClosestAmong_step sqrt ray tris pre acc i h)
    simpa using this

/-- The fold of `closestStep` from a miss over a list of triangle indices returns the closest
hit among them. -/
theorem isClosestAmong_fold (sqrt : K → K) (ray : Ray K) (tris : List (Triangle K))
    (S : List Nat) :
    IsClosestAmong sqrt tris ray S (S.foldl (closestStep sqrt ray tris) ⟨0, -1⟩) := by
  have h0 : IsClosestAmong sqrt tris ray [] (⟨0, -1⟩ : KdTree.Intersection K) :=
    Or.inl ⟨rfl, by simp⟩
  simpa using isClosestAmong_foldl sqrt ray tris S [] _ h0

/-- Two closest hits among lists with the same members have the same `t`. -/
theorem isClosestAmong_t_unique (sqrt : K → K) (ray : Ray K) (tris : List (Triangle K))
    (S S' : List Nat) (hS : ∀ j, j ∈ S ↔ j ∈ S') (r r' : KdTree.Intersection K)
    (h : IsClosestAmong sqrt tris ray S r) (h' : IsClosestAmong sqrt tris ray S' r') :
    r.t = r'.t := by
  rcases h with ⟨ht, hall⟩ | ⟨h0, hm, ht, hmin⟩
  · rcases h' with ⟨ht', -⟩ | ⟨h0', hm', ht', -⟩
    · rw [ht, ht']
    · have := hall _ ((hS _).2 hm')
      rw [ht'] at this
      exact absurd h0' (not_le.2 this)
  · rcases h' with ⟨-, hall'⟩ | ⟨h0', hm', ht', hmin'⟩
    · have := hall' _ ((hS _).1 hm)
      rw [ht] at this
      exact absurd h0 (not_le.2 this)
    · have a := hmin _ ((hS _).2 hm') (by rw [ht']; exact h0')
      have b := hmin' _ ((hS _).1 hm) (by rw [ht]; exact h0)
      rw [ht'] at a
      rw [ht] at b
      exact le_antisymm a b

/-! ## Where a hit lies -/

/-- Whatever the square root is, a time other than -1 is positive and puts the point of the
ray in the closed triangle. -/
theorem hit_in_triangle (sqrt : K → K) (s dir p1 p2 p3 : Vec3 K)
    (h : IntersectionTimeRayTriangle sqrt s dir p1 p2 p3 ≠ -1) :
    0 < IntersectionTimeRayTriangle sqrt s dir p1 p2 p3 ∧
      InTriangle p1 p2 p3 (rayPoint s dir (IntersectionTimeRayTriangle sqrt s dir p1 p2 p3)) := by
  have heq := IntersectionTimeRayTriangle_eq sqrt s dir p1 p2 p3
  set N := cross (Vec3.sub p2 p1) (Vec3.sub p3 p1) with hNdef
  set c := 1 / sqrt (dot N N) with hc
  set n := normalize sqrt N with hndef
  set t0 := -(dot n s - dot p1 n) / dot n dir with ht0
  by_cases hp : glm_abs (dot dir n) < cEpsilon
  · rw [heq, if_pos hp] at h
    exact absurd rfl h
  · rw [if_neg hp] at heq
    by_cases hgood : 0 < t0 ∧ 0 ≤ edgeSide p1 p2 (rayPoint s dir t0) n ∧
        0 ≤ edgeSide p2 p3 (rayPoint s dir t0) n ∧ 0 ≤ edgeSide p3 p1 (rayPoint s dir t0) n
    · rw [if_pos hgood] at heq
      rw [heq]
      refine ⟨hgood.1, ?_⟩
      have hdn : dot n dir ≠ 0 := by
        intro h0
        apply hp
        rw [dot_comm, h0, glm_abs_eq_abs, abs_zero]
        exact cEpsilon_pos
      have hdn' : c * dot N dir ≠ 0 := by
        rw [hndef, dot_normalize_left] at hdn
        exact hdn
      have hc0 : c ≠ 0 := fun h0 => hdn' (by rw [h0, zero_mul])
      have hN0 : N ≠ ⟨0, 0, 0⟩ := by
        intro h0
        apply hdn'
        rw [h0]
        simp [dot]
      have hNN := dot_self_pos N hN0
      have hsum := edgeSide_sum p1 p2 p3 (rayPoint s dir t0)
      rw [← hNdef] at hsum
      have e1 : edgeSide p1 p2 (rayPoint s dir t0) n =
          c * edgeSide p1 p2 (rayPoint s dir t0) N := edgeSide_normalize sqrt _ _ _ N
      have e2 : edgeSide p2 p3 (rayPoint s dir t0) n =
          c * edgeSide p2 p3 (rayPoint s dir t0) N := edgeSide_normalize sqrt _ _ _ N
      have e3 : edgeSide p3 p1 (rayPoint s dir t0) n =
          c * edgeSide p3 p1 (rayPoint s dir t0) N := edgeSide_normalize sqrt _ _ _ N
      obtain ⟨-, g1, g2, g3⟩ := hgood
      rw [e1] at g1
      rw [e2] at g2
      rw [e3] at g3
      have hcpos : 0 < c := by
        rcases lt_or_gt_of_ne hc0 with hneg | hpos
        · exfalso
          have a1 := nonpos_of_mul_nonneg_right g1 hneg
          have a2 := nonpos_of_mul_nonneg_right g2 hneg
          have a3 := nonpos_of_mul_nonneg_right g3 hneg
          linarith
        · exact hpos
      rw [InTriangle_iff p1 p2 p3 _ hNN, ← hNdef]
      refine ⟨?_, nonneg_of_mul_nonneg_right g1 hcpos, nonneg_of_mul_nonneg_right g2 hcpos,
        nonneg_of_mul_nonneg_right g3 hcpos⟩
      have hpl : dot n (Vec3.sub (rayPoint s dir t0) p1) = 0 := by
        rw [dot_rayPoint_sub, ht0]
        field_simp
      rw [hndef, dot_normalize_left] at hpl
      rcases mul_eq_zero.1 hpl with h0 | h0
      · exact absurd h0 hc0
      · exact h0
    · rw [if_neg hgood] at heq
      exact absurd heq h

theorem get_between_of_inTriangle (p1 p2 p3 P : Vec3 K) (a : Nat)
    (h : InTriangle p1 p2 p3 P) :
    min (min (p1.get a) (p2.get a)) (p3.get a) ≤ P.get a ∧
      P.get a ≤ max (max (p1.get a) (p2.get a)) (p3.get a) := by
  obtain ⟨u, v, w, hu, hv, hw, hsum, rfl⟩ := h
  have hget : (Vec3.add (Vec3.add (Vec3.smul u p1) (Vec3.smul v p2)) (Vec3.smul w p3)).get a =
      u * p1.get a + v * p2.get a + w * p3.get a := by
    rcases a with _ | _ | a <;> rfl
  rw [hget]
  set m := min (min (p1.get a) (p2.get a)) (p3.get a)
  set M := max (max (p1.get a) (p2.get a)) (p3.get a)
  have m1 : m ≤ p1.get a := (min_le_left _ _).trans (min_le_left _ _)
  have m2 : m ≤ p2.get a := (min_le_left _ _).trans (min_le_right _ _)
  have m3 : m ≤ p3.get a := min_le_right _ _
  have M1 : p1.get a ≤ M := (le_max_left _ _).trans (le_max_left _ _)
  have M2 : p2.get a ≤ M := (le_max_right _ _).trans (le_max_left _ _)
  have M3 : p3.get a ≤ M := le_max_right _ _
  constructor
  · have : m = u * m + v * m + w * m := by
      rw [← add_mul, ← add_mul, hsum, one_mul]
    rw [this]
    exact add_le_add (add_le_add (mul_le_mul_of_nonneg_left m1 hu)
      (mul_le_mul_of_nonneg_left m2 hv)) (mul_le_mul_of_nonneg_left m3 hw)
  · have : M = u * M + v * M + w * M := by
      rw [← add_mul, ← add_mul, hsum, one_mul]
    rw [this]
    exact add_le_add (add_le_add (mul_le_mul_of_nonneg_left M1 hu)
      (mul_le_mul_of_nonneg_left M2 hv)) (mul_le_mul_of_nonneg_left M3 hw)

/-- A triangle that is hit has the hit point within its extent on every axis. -/
theorem hit_within_extent (sqrt : K → K) (tris : List (Triangle K)) (ray : Ray K) (j : Nat)
    (h : 0 ≤ hitTime sqrt tris ray j) :
    0 < hitTime sqrt tris ray j ∧
    ∃ tri, tris.get? j = some tri ∧
      InTriangle tri.v0 tri.v1 tri.v2
        (rayPoint ray.origin ray.direction (hitTime sqrt tris ray j)) ∧
      ∀ a, KdTree.triMin tri a ≤
          (rayPoint ray.origin ray.direction (hitTime sqrt tris ray j)).get a ∧
        (rayPoint ray.origin ray.direction (hitTime sqrt tris ray j)).get a ≤
          KdTree.triMax tri a := by
  unfold hitTime at h ⊢
  cases hg : tris.get? j with
  | none =>
    rw [hg] at h
    simp only at h
    exact absurd h (by norm_num)
  | some tri =>
    rw [hg] at h
    simp only at h ⊢
    have hne : IntersectionTimeRayTriangle sqrt ray.origin ray.direction tri.v0 tri.v1 tri.v2
        ≠ -1 := by
      intro h1
      rw [h1] at h
      exact absurd h (by norm_num)
    obtain ⟨hpos, hin⟩ := hit_in_triangle sqrt _ _ _ _ _ hne
    refine ⟨hpos, tri, rfl, hin, ?_⟩
    intro a
    exact get_between_of_inTriangle _ _ _ _ a hin

end CS350

namespace CS350
variable {K : Type} [LinearOrderedField K]

namespace KdTree

/-! ## The traversal -/

theorem closer_cases (a b : Intersection K) : closer a b = a ∨ closer a b = b := by
  unfold closer
  split_ifs <;> simp

theorem closer_le_left (a b : Intersection K) (ha : 0 ≤ a.t) :
    0 ≤ (closer a b).t ∧ (closer a b).t ≤ a.t := by
  unfold closer
  rw [if_neg (not_lt.2 ha)]
  split_ifs with h1 h2
  · exact ⟨ha, le_refl _⟩
  · exact ⟨not_lt.1 h1, h2.le⟩
  · exact ⟨ha, le_refl _⟩

theorem closer_le_right (a b : Intersection K) (hb : 0 ≤ b.t) :
    0 ≤ (closer a b).t ∧ (closer a b).t ≤ b.t := by
  unfold closer
  split_ifs with h1 h2 h3
  · exact ⟨hb, le_refl _⟩
  · exact absurd hb (not_le.2 h2)
  · exact ⟨hb, le_refl _⟩
  · exact ⟨not_lt.1 h1, not_lt.1 h3⟩

theorem TraverseOk.mono_set (h : Nat → K) (S S' : List Nat) (tn tf : K) (res : Intersection K)
    (hsub : ∀ j ∈ S', j ∈ S) (hok : TraverseOk h S' tn tf res)
    (hcomp : ∀ j ∈ S, 0 ≤ h j → tn ≤ h j → h j ≤ tf → j ∈ S') :
    TraverseOk h S tn tf res := by
  refine ⟨?_, ?_⟩
  · rcases hok.1 with h1 | ⟨h0, hm, ht⟩
    · exact Or.inl h1
    · exact Or.inr ⟨h0, hsub _ hm, ht⟩
  · intro j hj hj0 h1 h2
    exact hok.2 j (hcomp j hj hj0 h1 h2) hj0 h1 h2

/-- The decision at an internal node is right when the subtraversals are, when every hit on
the near side of the plane is among the triangles of the near child and every hit on the far
side among those of the far child, and when the time of the plane separates the two sides. -/
theorem cascade_ok (h : Nat → K) (hh : ∀ j, h j = -1 ∨ 0 < h j) (S Sn Sf : List Nat)
    (hS : ∀ j, j ∈ S ↔ (j ∈ Sn ∨ j ∈ Sf))
    (q : K → K) (near far : K → Prop)
    (hN : ∀ j ∈ S, 0 ≤ h j → near (q (h j)) → j ∈ Sn)
    (hF : ∀ j ∈ S, 0 ≤ h j → far (q (h j)) → j ∈ Sf)
    (d tsplit : K)
    (F1 : d = 0 → ∀ t, near (q t))
    (F2 : d ≠ 0 → ∀ tf, (tsplit > tf ∨ tsplit < 0) → ∀ t, 0 < t → t ≤ tf → near (q t))
    (F3 : d ≠ 0 → 0 ≤ tsplit → ∀ t, (t < tsplit → near (q t)) ∧ (tsplit < t → far (q t)))
    (N F : K → K → DebugStats → Intersection K × DebugStats)
    (hNok : ∀ tn tf st, TraverseOk h Sn tn tf (N tn tf st).1)
    (hFok : ∀ tn tf st, TraverseOk h Sf tn tf (F tn tf st).1) :
    ∀ tn tf st, TraverseOk h S tn tf (cascade N F d tsplit tn tf st).1 := by
  intro tn tf st
  have hpos : ∀ j, 0 ≤ h j → 0 < h j := by
    intro j hj
    rcases hh j with h1 | h1
    · rw [h1] at hj; exact absurd hj (by norm_num)
    · exact h1
  have hSn : ∀ j ∈ Sn, j ∈ S := fun j hj => (hS j).2 (Or.inl hj)
  have hSf : ∀ j ∈ Sf, j ∈ S := fun j hj => (hS j).2 (Or.inr hj)
  unfold cascade
  by_cases hd : d = 0
  · rw [if_pos hd]
    exact TraverseOk.mono_set h S Sn tn tf _ hSn (hNok tn tf st)
      (fun j hj hj0 _ _ => hN j hj hj0 (F1 hd _))
  · rw [if_neg hd]
    by_cases hc1 : tsplit > tf ∨ tsplit < 0
    · rw [if_pos hc1]
      exact TraverseOk.mono_set h S Sn tn tf _ hSn (hNok tn tf st)
        (fun j hj hj0 _ h2 => hN j hj hj0 (F2 hd tf hc1 _ (hpos j hj0) h2))
    · rw [if_neg hc1]
      push_neg at hc1
      obtain ⟨hle, hge⟩ := hc1
      have F3' := F3 hd hge
      by_cases hc2 : tsplit < tn
      · rw [if_pos hc2]
        exact TraverseOk.mono_set h S Sf tn tf _ hSf (hFok tn tf st)
          (fun j hj hj0 h1 _ => hF j hj hj0 ((F3' _).2 (lt_of_lt_of_le hc2 h1)))
      · rw [if_neg hc2]
        push_neg at hc2
        have ok1 := hNok tn tsplit st
        by_cases hc3 : (N tn tsplit st).1.t ≥ 0 ∧ (N tn tsplit st).1.t ≤ tsplit
        · rw [if_pos hc3]
          refine ⟨?_, ?_⟩
          · rcases ok1.1 with h1 | ⟨h0, hm, ht⟩
            · exact Or.inl h1
            · exact Or.inr ⟨h0, hSn _ hm, ht⟩
          · intro j hj hj0 h1 h2
            refine ⟨hc3.1, ?_⟩
            rcases lt_or_le (h j) tsplit with hlt | hge'
            · exact (ok1.2 j (hN j hj hj0 ((F3' _).1 hlt)) hj0 h1 hlt.le).2
            · exact hc3.2.trans hge'
        · rw [if_neg hc3]
          have ok2 := hFok tsplit tf (N tn tsplit st).2
          simp only
          refine ⟨?_, ?_⟩
          · rcases closer_cases (N tn tsplit st).1 (F tsplit tf (N tn tsplit st).2).1 with e | e
            · rw [e]
              rcases ok1.1 with h1 | ⟨h0, hm, ht⟩
              · exact Or.inl h1
              · exact Or.inr ⟨h0, hSn _ hm, ht⟩
            · rw [e]
              rcases ok2.1 with h1 | ⟨h0, hm, ht⟩
              · exact Or.inl h1
              · exact Or.inr ⟨h0, hSf _ hm, ht⟩
          · intro j hj hj0 h1 h2
            have inNear : j ∈ Sn → h j ≤ tsplit → False := by
              intro hjn hjle
              have := ok1.2 j hjn hj0 h1 hjle
              exact hc3 ⟨this.1, this.2.trans hjle⟩
            have inFar : j ∈ Sf → tsplit ≤ h j →
                0 ≤ (closer (N tn tsplit st).1 (F tsplit tf (N tn tsplit st).2).1).t ∧
                (closer (N tn tsplit st).1 (F tsplit tf (N tn tsplit st).2).1).t ≤ h j := by
              intro hjf hjge
              have := ok2.2 j hjf hj0 hjge h2
              have c := closer_le_right (N tn tsplit st).1 (F tsplit tf (N tn tsplit st).2).1
                this.1
              exact ⟨c.1, c.2.trans this.2⟩
            rcases lt_trichotomy (h j) tsplit with hlt | heq | hgt
            · exact (inNear (hN j hj hj0 ((F3' _).1 hlt)) hlt.le).elim
            · rcases (hS j).1 hj with hjn | hjf
              · exact (inNear hjn heq.le).elim
              · exact inFar hjf heq.ge
            · exact inFar (hF j hj hj0 ((F3' _).2 hgt)) hgt.le

end KdTree

end CS350

namespace CS350
variable {K : Type} [LinearOrderedField K]

namespace KdTree

theorem rayPoint_get (s dir : Vec3 K) (t : K) (a : Nat) :
    (rayPoint s dir t).get a = s.get a + t * dir.get a := by
  rcases a with _ | _ | a <;> rfl

theorem plane_offset_eq (o s d t : K) (hd : d ≠ 0) :
    (o - s) + t * d = d * (t - (s - o) * (1 / d)) := by
  field_simp
  ring

/-- Near side on the left (`o < s`, or `o = s` with `d > 0`): the offset from the plane is
negative on the near side and positive on the far side. -/
theorem sides_left (o s d : K) (hleft : o < s ∨ (o = s ∧ d > 0)) :
    (d = 0 → ∀ t : K, (o - s) + t * d < 0) ∧
    (d ≠ 0 → ∀ tf, ((s - o) * (1 / d) > tf ∨ (s - o) * (1 / d) < 0) →
      ∀ t, 0 < t → t ≤ tf → (o - s) + t * d < 0) ∧
    (d ≠ 0 → 0 ≤ (s - o) * (1 / d) →
      ∀ t, (t < (s - o) * (1 / d) → (o - s) + t * d < 0) ∧
        ((s - o) * (1 / d) < t → 0 < (o - s) + t * d)) := by
  refine ⟨?_, ?_, ?_⟩
  · intro hd t
    rw [hd, mul_zero, add_zero]
    rcases hleft with h | ⟨-, h⟩
    · linarith
    · rw [hd] at h; exact absurd h (lt_irrefl _)
  · intro hd tf hc t ht0 httf
    rcases hleft with h | ⟨h1, h2⟩
    · rcases lt_or_gt_of_ne hd with hneg | hpos
      · have : t * d < 0 := mul_neg_of_pos_of_neg ht0 hneg
        linarith
      · have hts : 0 < (s - o) * (1 / d) := by
          apply mul_pos (by linarith)
          positivity
        rcases hc with hc | hc
        · rw [plane_offset_eq o s d t hd]
          exact mul_neg_of_pos_of_neg hpos (by linarith)
        · linarith
    · rw [h1, sub_self, zero_mul] at hc
      rcases hc with hc | hc
      · linarith
      · exact absurd hc (lt_irrefl _)
  · intro hd hts t
    have hpos : 0 < d := by
      rcases hleft with h | ⟨-, h⟩
      · by_contra hcon
        have hneg : d < 0 := lt_of_le_of_ne (not_lt.1 hcon) hd
        have : (s - o) * (1 / d) < 0 := by
          apply mul_neg_of_pos_of_neg (by linarith)
          rw [one_div]
          exact inv_lt_zero.2 hneg
        linarith
      · exact h
    rw [plane_offset_eq o s d t hd]
    constructor
    · intro h
      exact mul_neg_of_pos_of_neg hpos (by linarith)
    · intro h
      exact mul_pos hpos (by linarith)

/-- Near side on the right: the mirror image of `sides_left`. -/
theorem sides_right (o s d : K) (hright : ¬ (o < s ∨ (o = s ∧ d > 0))) (hoff : d ≠ 0 ∨ o ≠ s) :
    (d = 0 → ∀ t : K, 0 < (o - s) + t * d) ∧
    (d ≠ 0 → ∀ tf, ((s - o) * (1 / d) > tf ∨ (s - o) * (1 / d) < 0) →
      ∀ t, 0 < t → t ≤ tf → 0 < (o - s) + t * d) ∧
    (d ≠ 0 → 0 ≤ (s - o) * (1 / d) →
      ∀ t, (t < (s - o) * (1 / d) → 0 < (o - s) + t * d) ∧
        ((s - o) * (1 / d) < t → (o - s) + t * d < 0)) := by
  push_neg at hright
  obtain ⟨hge, himp⟩ := hright
  refine ⟨?_, ?_, ?_⟩
  · intro hd t
    rw [hd, mul_zero, add_zero]
    rcases hoff with h | h
    · exact absurd hd h
    · have : s < o := lt_of_le_of_ne hge (Ne.symm h)
      linarith
  · intro hd tf hc t ht0 httf
    rcases hge.lt_or_eq with h | h
    · rcases lt_or_gt_of_ne hd with hneg | hpos
      · have hts : 0 < (s - o) * (1 / d) := by
          apply mul_pos_of_neg_of_neg (by linarith)
          rw [one_div]
          exact inv_lt_zero.2 hneg
        rcases hc with hc | hc
        · rw [plane_offset_eq o s d t hd]
          exact mul_pos_of_neg_of_neg hneg (by linarith)
        · linarith
      · have : 0 < t * d := mul_pos ht0 hpos
        linarith
    · rw [h, sub_self, zero_mul] at hc
      rcases hc with hc | hc
      · linarith
      · exact absurd hc (lt_irrefl _)
  · intro hd hts t
    have hneg : d < 0 := by
      rcases hge.lt_or_eq with h | h
      · by_contra hcon
        have hpos : 0 < d := lt_of_le_of_ne (not_lt.1 hcon) (Ne.symm hd)
        have : (s - o) * (1 / d) < 0 := by
          apply mul_neg_of_neg_of_pos (by linarith)
          positivity
        linarith
      · exact lt_of_le_of_ne (himp h.symm) hd
    rw [plane_offset_eq o s d t hd]
    constructor
    · intro h
      exact mul_pos_of_neg_of_neg hneg (by linarith)
    · intro h
      exact mul_neg_of_neg_of_pos hneg (by linarith)

theorem traverse_internal (sqrt : K → K) (tris : List (Triangle K)) (nodes : List (Node K))
    (indices : List Nat) (ray : Ray K) (fuel i : Nat) (tn tf : K) (st : DebugStats)
    (a : Nat) (s : K) (next : Nat) (hn : nodes.get? i = some (Node.internal a s next)) :
    traverse sqrt tris nodes indices ray (fuel + 1) i tn tf st =
      cascade
        (traverse sqrt tris nodes indices ray fuel
          (if ray.origin.get a < s ∨ (ray.origin.get a = s ∧ ray.direction.get a > 0)
            then i + 1 else next))
        (traverse sqrt tris nodes indices ray fuel
          (if ray.origin.get a < s ∨ (ray.origin.get a = s ∧ ray.direction.get a > 0)
            then next else i + 1))
        (ray.direction.get a) ((s - ray.origin.get a) * (1 / ray.direction.get a)) tn tf
        { st with traversed_nodes := st.traversed_nodes ++ [i] } := by
  simp only [traverse, hn, cascade, decide_eq_true_eq]

end KdTree

end CS350

namespace CS350
variable {K : Type} [LinearOrderedField K]

namespace KdTree

theorem traverseOk_of_isClosestAmong (sqrt : K → K) (tris : List (Triangle K)) (ray : Ray K)
    (S : List Nat) (tn tf : K) (res : Intersection K)
    (h : IsClosestAmong sqrt tris ray S res) :
    TraverseOk (hitTime sqrt tris ray) S tn tf res := by
  rcases h with ⟨ht, hall⟩ | ⟨h0, hm, ht, hmin⟩
  · exact ⟨Or.inl ht, fun j hj hj0 _ _ => absurd hj0 (not_le.2 (hall j hj))⟩
  · exact ⟨Or.inr ⟨h0, hm, ht⟩, fun j hj hj0 _ _ => ⟨h0, hmin j hj hj0⟩⟩

/-- The traversal of a laid-out tree that loses no triangle at a split, by a ray that lies in
no split plane, returns a true hit or a miss, and no triangle of the tree is hit within the
interval before the result. -/
theorem traverse_ok (sqrt : K → K) (tris : List (Triangle K)) (nodes : List (Node K))
    (aabbs : List (Aabb K)) (indices : List Nat) (ray : Ray K) (t : BuildTree K) :
    ∀ fuel i, t.size ≤ fuel → Laid nodes aabbs indices t i → SplitsKeep tris t →
      OffSplitPlanes ray t →
      ∀ tn tf st, TraverseOk (hitTime sqrt tris ray) t.flattenIndices tn tf
        (traverse sqrt tris nodes indices ray fuel i tn tf st).1 := by
  induction t with
  | leaf b T =>
    intro fuel i hf hl _ _ tn tf st
    obtain ⟨-, start, hn, hslice⟩ := hl
    cases fuel with
    | zero => simp [BuildTree.size] at hf
    | succ f =>
      simp only [traverse, hn, testLeaf, hslice, BuildTree.flattenIndices]
      exact traverseOk_of_isClosestAmong sqrt tris ray T tn tf _
        (isClosestAmong_fold sqrt ray tris T)
  | inner b a s l r ihl ihr =>
    intro fuel i hf hl hkeep hoff tn tf st
    obtain ⟨-, next, hn, hll, hlr⟩ := hl
    obtain ⟨hk, hkl, hkr⟩ := hkeep
    obtain ⟨ho, hol, hor⟩ := hoff
    cases fuel with
    | zero => simp [BuildTree.size] at hf
    | succ f =>
      simp only [BuildTree.size] at hf
      have okl := ihl f (i + 1) (by omega) hll hkl hol
      have okr := ihr f next (by omega) hlr hkr hor
      rw [traverse_internal sqrt tris nodes indices ray f i tn tf st a s next hn]
      have hh := hitTime_neg_or_pos sqrt tris ray
      -- where a hit lies relative to the plane decides the child that holds the triangle
      have hside : ∀ j ∈ (BuildTree.inner b a s l r).flattenIndices,
          0 ≤ hitTime sqrt tris ray j →
          ((ray.origin.get a - s) + hitTime sqrt tris ray j * ray.direction.get a < 0 →
            j ∈ l.flattenIndices) ∧
          (0 < (ray.origin.get a - s) + hitTime sqrt tris ray j * ray.direction.get a →
            j ∈ r.flattenIndices) := by
        intro j hj hj0
        obtain ⟨-, tri, htri, -, hext⟩ := hit_within_extent sqrt tris ray j hj0
        have hb := hext a
        rw [rayPoint_get] at hb
        have hkj := hk j hj tri htri
        constructor
        · intro hlt
          exact hkj.1 (by linarith [hb.1])
        · intro hgt
          exact hkj.2 (by linarith [hb.2])
      have hmem : ∀ j, j ∈ (BuildTree.inner b a s l r).flattenIndices ↔
          (j ∈ l.flattenIndices ∨ j ∈ r.flattenIndices) := by
        intro j
        simp only [BuildTree.flattenIndices, List.mem_append]
      by_cases hleft : ray.origin.get a < s ∨ (ray.origin.get a = s ∧ ray.direction.get a > 0)
      · simp only [if_pos hleft]
        obtain ⟨F1, F2, F3⟩ := sides_left (ray.origin.get a) s (ray.direction.get a) hleft
        exact cascade_ok (hitTime sqrt tris ray) hh _ l.flattenIndices r.flattenIndices hmem
          (fun t => (ray.origin.get a - s) + t * ray.direction.get a)
          (fun x => x < 0) (fun x => 0 < x)
          (fun j hj hj0 hnear => (hside j hj hj0).1 hnear)
          (fun j hj hj0 hfar => (hside j hj hj0).2 hfar)
          (ray.direction.get a) ((s - ray.origin.get a) * (1 / ray.direction.get a))
          F1 F2 F3 _ _ okl okr tn tf _
      · simp only [if_neg hleft]
        obtain ⟨F1, F2, F3⟩ := sides_right (ray.origin.get a) s (ray.direction.get a) hleft ho
        have hmem' : ∀ j, j ∈ (BuildTree.inner b a s l r).flattenIndices ↔
            (j ∈ r.flattenIndices ∨ j ∈ l.flattenIndices) := by
          intro j
          rw [hmem j]
          exact Or.comm
        exact cascade_ok (hitTime sqrt tris ray) hh _ r.flattenIndices l.flattenIndices hmem'
          (fun t => (ray.origin.get a - s) + t * ray.direction.get a)
          (fun x => 0 < x) (fun x => x < 0)
          (fun j hj hj0 hnear => (hside j hj hj0).2 hnear)
          (fun j hj hj0 hfar => (hside j hj hj0).1 hfar)
          (ray.direction.get a) ((s - ray.origin.get a) * (1 / ray.direction.get a))
          F1 F2 F3 _ _ okr okl tn tf _

end KdTree

end CS350

namespace CS350
variable {K : Type} [LinearOrderedField K]

namespace KdTree

/-! ## The clip against the root box -/

theorem slabAxis_of_inside (o d mn mx t : K) (hmM : mn ≤ mx)
    (hin : mn ≤ o + t * d ∧ o + t * d ≤ mx) :
    ∃ iv, slabAxis o d mn mx = some iv ∧ InSlab iv t ∧ (iv = none → d = 0) := by
  unfold slabAxis
  by_cases hd : d = 0
  · rw [if_pos hd]
    rw [hd, mul_zero, add_zero] at hin
    rw [if_pos hin]
    exact ⟨none, rfl, fun lo hi h => (by cases h), fun _ => hd⟩
  · rw [if_neg hd]
    refine ⟨_, rfl, ?_, fun h => by cases h⟩
    intro lo hi h
    simp only [Option.some.injEq, Prod.mk.injEq] at h
    obtain ⟨rfl, rfl⟩ := h
    exact (slab_iff mn mx o d t hd hmM).1 hin

theorem slabMeet_inSlab (acc iv : Option (K × K)) (t : K) (ha : InSlab acc t)
    (hi : InSlab iv t) :
    InSlab (slabMeet acc iv) t ∧ (slabMeet acc iv = none → acc = none ∧ iv = none) := by
  cases acc with
  | none =>
    cases iv with
    | none => exact ⟨fun lo hi h => (by cases h), fun _ => ⟨rfl, rfl⟩⟩
    | some i => exact ⟨hi, fun h => by cases h⟩
  | some a =>
    cases iv with
    | none => exact ⟨ha, fun h => by cases h⟩
    | some i =>
      obtain ⟨lo, hi'⟩ := a
      obtain ⟨l, h'⟩ := i
      refine ⟨?_, fun h => by cases h⟩
      intro x y hxy
      simp only [slabMeet, Option.some.injEq, Prod.mk.injEq] at hxy
      obtain ⟨rfl, rfl⟩ := hxy
      have h1 := ha lo hi' rfl
      have h2 := hi l h' rfl
      exact ⟨max_le h1.1 h2.1, le_min h1.2 h2.2⟩

/-- A point of the ray at a parameter `t >= 0` inside the box makes the clip succeed, with `t`
in the clipped interval. -/
theorem slabClip_of_inside (ray : Ray K) (box : Aabb K)
    (hbox : box.min.x ≤ box.max.x ∧ box.min.y ≤ box.max.y ∧ box.min.z ≤ box.max.z)
    (hdir : ray.direction ≠ ⟨0, 0, 0⟩) (t : K) (ht : 0 ≤ t)
    (hin : OverlapPointAabb (rayPoint ray.origin ray.direction t) box.min box.max = true) :
    ∃ tn tf, slabClip ray box = some (tn, tf) ∧ tn ≤ t ∧ t ≤ tf := by
  rw [OverlapPointAabb_iff] at hin
  simp only [rayPoint, Vec3.add, Vec3.smul] at hin
  obtain ⟨hx, hy, hz⟩ := hin
  obtain ⟨ix, hix, sx, zx⟩ := slabAxis_of_inside _ _ _ _ t hbox.1 hx
  obtain ⟨iy, hiy, sy, zy⟩ := slabAxis_of_inside _ _ _ _ t hbox.2.1 hy
  obtain ⟨iz, hiz, sz, zz⟩ := slabAxis_of_inside _ _ _ _ t hbox.2.2 hz
  have h0 : InSlab (none : Option (K × K)) t := fun lo hi h => by cases h
  obtain ⟨m1, n1⟩ := slabMeet_inSlab none ix t h0 sx
  obtain ⟨m2, n2⟩ := slabMeet_inSlab _ iy t m1 sy
  obtain ⟨m3, n3⟩ := slabMeet_inSlab _ iz t m2 sz
  unfold slabClip
  rw [hix, hiy, hiz]
  simp only
  cases hm : slabMeet (slabMeet (slabMeet none ix) iy) iz with
  | none =>
    exfalso
    obtain ⟨e2, ez⟩ := n3 hm
    obtain ⟨e1, ey⟩ := n2 e2
    obtain ⟨-, ex⟩ := n1 e1
    apply hdir
    have dx := zx ex
    have dy := zy ey
    have dz := zz ez
    cases hd : ray.direction with
    | mk a b c =>
      rw [hd] at dx dy dz
      simp only at dx dy dz
      rw [dx, dy, dz]
  | some p =>
    obtain ⟨tn, tf⟩ := p
    have hb := m3 tn tf hm
    simp only
    rw [if_neg]
    · exact ⟨tn, tf, rfl, hb.1, hb.2⟩
    · push_neg
      exact ⟨ht.trans hb.2, hb.1.trans hb.2⟩

end KdTree

end CS350

namespace CS350
variable {K : Type} [LinearOrderedField K]

namespace KdTree

/-! ## The query against a built store -/

theorem keepsTriangles_spec (kd : KdTreeStore K) (tris : List (Triangle K))
    (h : kd.keepsTriangles tris = true) :
    (∀ j, j < tris.length → j ∈ kd.get_triangles 0) ∧
    ∀ i a s next, kd.m_nodes.get? i = some (Node.internal a s next) →
      ∀ j ∈ kd.get_triangles i, ∀ tri, tris.get? j = some tri →
        (triMin tri a < s → j ∈ kd.get_triangles (i + 1)) ∧
        (triMax tri a > s → j ∈ kd.get_triangles next) := by
  simp only [KdTreeStore.keepsTriangles, Bool.and_eq_true, List.all_eq_true, List.mem_range,
    decide_eq_true_eq] at h
  obtain ⟨h1, h2⟩ := h
  refine ⟨h1, ?_⟩
  intro i a s next hn j hj tri htri
  have hi : i < kd.m_nodes.length := by
    rcases Nat.lt_or_ge i kd.m_nodes.length with hlt | hge
    · exact hlt
    · rw [List.get?_eq_none.2 hge] at hn
      cases hn
  have := h2 i hi
  rw [hn] at this
  simp only [List.all_eq_true] at this
  have hj' := this j hj
  rw [htri] at hj'
  simp only [Bool.and_eq_true, Bool.or_eq_true, Bool.not_eq_true', decide_eq_false_iff_not,
    decide_eq_true_eq] at hj'
  constructor
  · intro hlt
    rcases hj'.1 with h | h
    · exact absurd hlt h
    · exact h
  · intro hgt
    rcases hj'.2 with h | h
    · exact absurd hgt h
    · exact h

theorem offSplitPlanes_spec (kd : KdTreeStore K) (r : Ray K)
    (h : kd.offSplitPlanes r = true) :
    ∀ i a s next, kd.m_nodes.get? i = some (Node.internal a s next) →
      (r.direction.get a ≠ 0 ∨ r.origin.get a ≠ s) := by
  intro i a s next hn
  simp only [KdTreeStore.offSplitPlanes, List.all_eq_true] at h
  have := h _ (List.get?_mem hn)
  simpa using this

/-- On a store whose node triangles are those of the subtrees laid out in it, the two checks
on the arrays give the two conditions on every laid-out subtree. -/
theorem conditions_of_store (kd : KdTreeStore K) (tris : List (Triangle K)) (r : Ray K)
    (t : BuildTree K)
    (hmemAll : ∀ u ∈ t.subtrees, ∀ k, Laid kd.m_nodes kd.m_aabbs kd.m_indices u k →
      ∀ j, j ∈ kd.get_triangles k ↔ j ∈ u.flattenIndices)
    (hkeep : kd.keepsTriangles tris = true) (hoff : kd.offSplitPlanes r = true) :
    ∀ u, u ∈ t.subtrees → ∀ k, Laid kd.m_nodes kd.m_aabbs kd.m_indices u k →
      SplitsKeep tris u ∧ OffSplitPlanes r u := by
  have hk := (keepsTriangles_spec kd tris hkeep).2
  have ho := offSplitPlanes_spec kd r hoff
  intro u
  induction u with
  | leaf b T => intro _ _ _; exact ⟨trivial, trivial⟩
  | inner b a s l r' ihl ihr =>
    intro hu k hl
    have hl' := hl
    obtain ⟨-, next, hn, hll, hlr⟩ := hl
    have hlmem : l ∈ t.subtrees :=
      BuildTree.subtrees_trans t _ hu l (by
        simp only [BuildTree.subtrees, List.mem_cons, List.mem_append]
        exact Or.inr (Or.inl (BuildTree.self_mem_subtrees l)))
    have hrmem : r' ∈ t.subtrees :=
      BuildTree.subtrees_trans t _ hu r' (by
        simp only [BuildTree.subtrees, List.mem_cons, List.mem_append]
        exact Or.inr (Or.inr (BuildTree.self_mem_subtrees r')))
    obtain ⟨kl, ol⟩ := ihl hlmem (k + 1) hll
    obtain ⟨kr, or'⟩ := ihr hrmem next hlr
    refine ⟨⟨?_, kl, kr⟩, ho k a s next hn, ol, or'⟩
    intro j hj tri htri
    have hjk : j ∈ kd.get_triangles k := (hmemAll _ hu k hl' j).2 hj
    have := hk k a s next hn j hjk tri htri
    exact ⟨fun h => (hmemAll l hlmem (k + 1) hll j).1 (this.1 h),
      fun h => (hmemAll r' hrmem next hlr j).1 (this.2 h)⟩

/-- The root of a store built from a non-empty array: the first box is the root box, which
holds every vertex, and the built tree is laid out from node 0. -/
theorem build_root (tris : List (Triangle K)) (cfg : Config K) (hne : tris ≠ []) :
    ∃ box : Aabb K,
      (∀ v ∈ allVertices tris, OverlapPointAabb v box.min box.max = true) ∧
      (KdTreeStore.build tris cfg).m_aabbs.head? = some box ∧
      (buildNode tris cfg (9 * tris.length + 1) box (List.range tris.length) 1).size ≤
        (KdTreeStore.build tris cfg).m_nodes.length ∧
      Laid (KdTreeStore.build tris cfg).m_nodes (KdTreeStore.build tris cfg).m_aabbs
        (KdTreeStore.build tris cfg).m_indices
        (buildNode tris cfg (9 * tris.length + 1) box (List.range tris.length) 1) 0 ∧
      (∀ u ∈ (buildNode tris cfg (9 * tris.length + 1) box (List.range tris.length) 1).subtrees,
        ∀ k, Laid (KdTreeStore.build tris cfg).m_nodes (KdTreeStore.build tris cfg).m_aabbs
            (KdTreeStore.build tris cfg).m_indices u k →
          ∀ j, j ∈ (KdTreeStore.build tris cfg).get_triangles k ↔ j ∈ u.flattenIndices) := by
  rcases build_cases tris cfg with ⟨h0, -⟩ | ⟨-, box, hbox, h⟩
  · exact absurd h0 hne
  · refine ⟨box, hbox, ?_⟩
    set t := buildNode tris cfg (9 * tris.length + 1) box (List.range tris.length) 1 with ht
    rw [h]
    simp only
    obtain ⟨st, -, hlaid, hroot⟩ := laid_at t [] [] [] [] [] [] rfl 0 (Nat.zero_le _)
      (by simpa using t.size_pos)
    simp only [List.nil_append, List.append_nil, List.length_nil] at hlaid hroot
    rw [hroot trivial] at hlaid
    refine ⟨?_, ?_, hlaid, ?_⟩
    · have := Laid.aabb _ _ _ t 0 hlaid
      rw [ht, buildNode_box] at this
      rw [← ht] at this
      cases hfa : t.flattenAabbs with
      | nil => rw [hfa] at this; cases this
      | cons x xs =>
        rw [hfa] at this
        simpa using this
    · rw [BuildTree.flattenNodes_length]
    · intro u hu k hk j
      rw [mem_get_triangles]
      simp only
      rw [collectTriangles_of_laid _ _ _ u _ k _ hk]
      rw [BuildTree.flattenNodes_length]
      exact BuildTree.size_le_of_mem_subtrees t u hu

end KdTree

end CS350

namespace CS350
variable {K : Type} [LinearOrderedField K]

namespace KdTree

theorem hit_in_box (sqrt : K → K) (tris : List (Triangle K)) (ray : Ray K) (box : Aabb K)
    (hbox : ∀ v ∈ allVertices tris, OverlapPointAabb v box.min box.max = true) (j : Nat)
    (h0 : 0 ≤ hitTime sqrt tris ray j) :
    OverlapPointAabb (rayPoint ray.origin ray.direction (hitTime sqrt tris ray j))
      box.min box.max = true := by
  obtain ⟨-, tri, htri, -, hext⟩ := hit_within_extent sqrt tris ray j h0
  obtain ⟨m0, m1, m2⟩ := mem_allVertices tris j tri htri
  have b0 := (OverlapPointAabb_iff _ _ _).1 (hbox _ m0)
  have b1 := (OverlapPointAabb_iff _ _ _).1 (hbox _ m1)
  have b2 := (OverlapPointAabb_iff _ _ _).1 (hbox _ m2)
  rw [OverlapPointAabb_iff]
  have e0 := hext 0
  have e1 := hext 1
  have e2 := hext 2
  simp only [triMin, triMax, Vec3.get] at e0 e1 e2
  refine ⟨⟨?_, ?_⟩, ⟨?_, ?_⟩, ?_, ?_⟩
  · exact (le_min (le_min b0.1.1 b1.1.1) b2.1.1).trans e0.1
  · exact e0.2.trans (max_le (max_le b0.1.2 b1.1.2) b2.1.2)
  · exact (le_min (le_min b0.2.1.1 b1.2.1.1) b2.2.1.1).trans e1.1
  · exact e1.2.trans (max_le (max_le b0.2.1.2 b1.2.1.2) b2.2.1.2)
  · exact (le_min (le_min b0.2.2.1 b1.2.2.1) b2.2.2.1).trans e2.1
  · exact e2.2.trans (max_le (max_le b0.2.2.2 b1.2.2.2) b2.2.2.2)

theorem box_nonempty_of_vertices (tris : List (Triangle K)) (box : Aabb K) (hne : tris ≠ [])
    (hbox : ∀ v ∈ allVertices tris, OverlapPointAabb v box.min box.max = true) :
    box.min.x ≤ box.max.x ∧ box.min.y ≤ box.max.y ∧ box.min.z ≤ box.max.z := by
  obtain ⟨v, hv⟩ := List.exists_mem_of_ne_nil _ (allVertices_ne_nil tris hne)
  have b := (OverlapPointAabb_iff _ _ _).1 (hbox v hv)
  exact ⟨b.1.1.trans b.1.2, b.2.1.1.trans b.2.1.2, b.2.2.1.trans b.2.2.2⟩

/-- A second miss of the modelled traversal: built from a triangle that touches the plane
`x = 1` from the left and a triangle at `x >= 10`, the root is split at `x = 1` and no triangle
is lost. The ray from `(1, 0, 1)` along `(0, 0, -1)` lies in that plane; it hits triangle 0 at
its corner `(1, 0, 0)`, `t = 1` by brute force, while the traversal visits one side of the plane
only and reports a miss (`t = -1`). -/
theorem ray_in_split_plane_misses :
    (KdTreeStore.build
        ([⟨⟨0, 0, 0⟩, ⟨1, 0, 0⟩, ⟨0, 1, 0⟩⟩, ⟨⟨10, 0, 0⟩, ⟨11, 0, 0⟩, ⟨10, 1, 0⟩⟩] :
          List (Triangle ℚ)) { min_triangles := 1 }).nodes =
      [Node.internal 0 1 2, Node.leaf 0 1, Node.leaf 1 1] ∧
    (KdTreeStore.build
        ([⟨⟨0, 0, 0⟩, ⟨1, 0, 0⟩, ⟨0, 1, 0⟩⟩, ⟨⟨10, 0, 0⟩, ⟨11, 0, 0⟩, ⟨10, 1, 0⟩⟩] :
          List (Triangle ℚ)) { min_triangles := 1 }).keepsTriangles
      [⟨⟨0, 0, 0⟩, ⟨1, 0, 0⟩, ⟨0, 1, 0⟩⟩, ⟨⟨10, 0, 0⟩, ⟨11, 0, 0⟩, ⟨10, 1, 0⟩⟩] = true ∧
    ClosestIntersection Rat.sqrt (Ray.ctor Rat.sqrt ⟨1, 0, 1⟩ ⟨0, 0, -1⟩ : Ray ℚ)
      [⟨⟨0, 0, 0⟩, ⟨1, 0, 0⟩, ⟨0, 1, 0⟩⟩, ⟨⟨10, 0, 0⟩, ⟨11, 0, 0⟩, ⟨10, 1, 0⟩⟩] = ⟨0, 1⟩ ∧
    ((KdTreeStore.build
        ([⟨⟨0, 0, 0⟩, ⟨1, 0, 0⟩, ⟨0, 1, 0⟩⟩, ⟨⟨10, 0, 0⟩, ⟨11, 0, 0⟩, ⟨10, 1, 0⟩⟩] :
          List (Triangle ℚ)) { min_triangles := 1 }).get_closest Rat.sqrt
      [⟨⟨0, 0, 0⟩, ⟨1, 0, 0⟩, ⟨0, 1, 0⟩⟩, ⟨⟨10, 0, 0⟩, ⟨11, 0, 0⟩, ⟨10, 1, 0⟩⟩]
      (Ray.ctor Rat.sqrt ⟨1, 0, 1⟩ ⟨0, 0, -1⟩) ⟨[], []⟩).1.t = -1 := by
  refine ⟨by decide!, by decide!, by decide!, by decide!⟩

/-- Where the modelled `get_closest` agrees with brute force: for every triangle array, every
tree built from it that loses no triangle at a split (invariant I3, `keepsTriangles`) and every
ray with nonzero direction that lies in no split plane of the tree, `get_closest` returns the
closest hit over all triangles: `t = -1` when no triangle is hit, else the smallest non-negative
hit distance with a triangle that attains it; its `t` is equal to the `t` of the brute-force
`ClosestIntersection`. -/
theorem get_closest_eq_brute_force (sqrt : K → K) (tris : List (Triangle K)) (cfg : Config K)
    (r : Ray K) (stats : DebugStats)
    (hdir : r.direction ≠ ⟨0, 0, 0⟩)
    (hkeep : (KdTreeStore.build tris cfg).keepsTriangles tris = true)
    (hoff : (KdTreeStore.build tris cfg).offSplitPlanes r = true) :
    IsClosestAmong sqrt tris r (List.range tris.length)
      ((KdTreeStore.build tris cfg).get_closest sqrt tris r stats).1 ∧
    ((KdTreeStore.build tris cfg).get_closest sqrt tris r stats).1.t =
      (ClosestIntersection sqrt r tris).t := by
  have hbf : IsClosestAmong sqrt tris r (List.range tris.length) (ClosestIntersection sqrt r tris) :=
    isClosestAmong_fold sqrt r tris (List.range tris.length)
  suffices hmain : IsClosestAmong sqrt tris r (List.range tris.length)
      ((KdTreeStore.build tris cfg).get_closest sqrt tris r stats).1 from
    ⟨hmain, isClosestAmong_t_unique sqrt r tris _ _ (fun _ => Iff.rfl) _ _ hmain hbf⟩
  by_cases hne : tris = []
  · subst hne
    left
    exact ⟨rfl, by simp⟩
  · obtain ⟨box, hbox, hhead, hsize, hlaid, hmemAll⟩ := build_root tris cfg hne
    set t := buildNode tris cfg (9 * tris.length + 1) box (List.range tris.length) 1 with ht
    have hboxne := box_nonempty_of_vertices tris box hne hbox
    have hTne : List.range tris.length ≠ [] := by
      intro h
      have := congrArg List.length h
      simp only [List.length_range, List.length_nil] at this
      exact hne (List.length_eq_zero.1 this)
    -- the triangles of the root are all the triangles
    have hrootmem : ∀ j, j ∈ t.flattenIndices ↔ j ∈ List.range tris.length := by
      intro j
      constructor
      · intro hj
        exact ((buildNode_subtrees tris cfg _ box _ 1 hTne (triOverlaps_root tris box hbox) t
          (BuildTree.self_mem_subtrees t)).2 j hj).1
      · intro hj
        have := (keepsTriangles_spec _ tris hkeep).1 j (List.mem_range.1 hj)
        exact (hmemAll t (BuildTree.self_mem_subtrees t) 0 hlaid j).1 this
    have hclip : ∀ j, 0 ≤ hitTime sqrt tris r j →
        ∃ tn tf, slabClip r box = some (tn, tf) ∧ tn ≤ hitTime sqrt tris r j ∧
          hitTime sqrt tris r j ≤ tf :=
      fun j hj0 => slabClip_of_inside r box hboxne hdir _ hj0 (hit_in_box sqrt tris r box hbox j hj0)
    unfold KdTreeStore.get_closest
    rw [hhead]
    simp only
    cases hc : slabClip r box with
    | none =>
      left
      refine ⟨rfl, ?_⟩
      intro j _
      by_contra hcon
      obtain ⟨tn, tf, h1, -⟩ := hclip j (not_lt.1 hcon)
      rw [hc] at h1
      cases h1
    | some p =>
      obtain ⟨tn, tf⟩ := p
      simp only
      obtain ⟨hk, ho⟩ := conditions_of_store _ tris r t hmemAll hkeep hoff t
        (BuildTree.self_mem_subtrees t) 0 hlaid
      have hok := traverse_ok sqrt tris _ _ _ r t _ 0 hsize hlaid hk ho tn tf stats
      obtain ⟨hsound, hcomp⟩ := hok
      have hcomp' : ∀ j ∈ List.range tris.length, 0 ≤ hitTime sqrt tris r j →
          0 ≤ (traverse sqrt tris (KdTreeStore.build tris cfg).m_nodes
              (KdTreeStore.build tris cfg).m_indices r
              (KdTreeStore.build tris cfg).m_nodes.length 0 tn tf stats).1.t ∧
            (traverse sqrt tris (KdTreeStore.build tris cfg).m_nodes
              (KdTreeStore.build tris cfg).m_indices r
              (KdTreeStore.build tris cfg).m_nodes.length 0 tn tf stats).1.t ≤
              hitTime sqrt tris r j := by
        intro j hj hj0
        obtain ⟨tn', tf', h1, h2, h3⟩ := hclip j hj0
        rw [hc] at h1
        simp only [Option.some.injEq, Prod.mk.injEq] at h1
        obtain ⟨rfl, rfl⟩ := h1
        exact hcomp j ((hrootmem j).2 hj) hj0 h2 h3
      rcases hsound with hmiss | ⟨h0, hm, hteq⟩
      · left
        refine ⟨hmiss, ?_⟩
        intro j hj
        by_contra hcon
        have := (hcomp' j hj (not_lt.1 hcon)).1
        rw [hmiss] at this
        exact absurd this (by norm_num)
      · right
        exact ⟨h0, (hrootmem _).1 hm, hteq, fun j hj hj0 => (hcomp' j hj hj0).2⟩

theorem get_closest_eq_brute_force_witness :
    (Ray.ctor Rat.sqrt ⟨1/2, 1/2, 1⟩ ⟨0, 0, -1⟩ : Ray ℚ).direction ≠ ⟨0, 0, 0⟩ ∧
    ((KdTreeStore.build
        ([⟨⟨0, 0, 0⟩, ⟨1, 0, 0⟩, ⟨0, 1, 0⟩⟩, ⟨⟨10, 0, 0⟩, ⟨11, 0, 0⟩, ⟨10, 1, 0⟩⟩] :
          List (Triangle ℚ)) { min_triangles := 1 }).get_closest Rat.sqrt
      [⟨⟨0, 0, 0⟩, ⟨1, 0, 0⟩, ⟨0, 1, 0⟩⟩, ⟨⟨10, 0, 0⟩, ⟨11, 0, 0⟩, ⟨10, 1, 0⟩⟩]
      (Ray.ctor Rat.sqrt ⟨1/2, 1/2, 1⟩ ⟨0, 0, -1⟩) ⟨[], []⟩).1.t =
    (ClosestIntersection Rat.sqrt (Ray.ctor Rat.sqrt ⟨1/2, 1/2, 1⟩ ⟨0, 0, -1⟩ : Ray ℚ)
      [⟨⟨0, 0, 0⟩, ⟨1, 0, 0⟩, ⟨0, 1, 0⟩⟩, ⟨⟨10, 0, 0⟩, ⟨11, 0, 0⟩, ⟨10, 1, 0⟩⟩]).t :=
  ⟨by decide!, (get_closest_eq_brute_force Rat.sqrt
    ([⟨⟨0, 0, 0⟩, ⟨1, 0, 0⟩, ⟨0, 1, 0⟩⟩, ⟨⟨10, 0, 0⟩, ⟨11, 0, 0⟩, ⟨10, 1, 0⟩⟩] : List (Triangle ℚ))
    { min_triangles := 1 } (Ray.ctor Rat.sqrt ⟨1/2, 1/2, 1⟩ ⟨0, 0, -1⟩) ⟨[], []⟩
    (by decide!) (by decide!) (by decide!)).2⟩

end KdTree

end CS350

namespace CS350

variable {K : Type} [LinearOrderedField K]

/-- One pass of the brute-force loop over a triangle of the array: the hit is updated as by the
loop body without counters, and only `rayVsTriangle` changes, by one increment. -/
theorem closestStepStats_eq (bits : Nat) (sqrt : K → K) (ray : Ray K)
    (triangles : List (Triangle K)) (acc : KdTree.Intersection K × Stats) (i : Nat)
    (hi : i < triangles.length) :
    closestStepStats bits sqrt ray triangles acc i =
      (closestStep sqrt ray triangles acc.1 i,
        ⟨acc.2.frustumVsAabb, acc.2.aabbVsAabb, acc.2.rayVsAabb,
          (acc.2.rayVsTriangle + 1) % 2 ^ bits⟩) := by
  obtain ⟨tri, htri⟩ : ∃ tri, triangles.get? i = some tri :=
    ⟨triangles.get ⟨i, hi⟩, List.get?_eq_get hi⟩
  simp only [closestStepStats, closestStep, htri, IntersectionTimeRayTriangleOverload,
    IntersectionTimeRayTriangleStats, Stats.incr]
  split_ifs <;> rfl

/-- After `Reset()`, the first `n` passes of the brute-force loop leave the hit of the loop
without counters and `rayVsTriangle` at `n` (as a `size_t`). -/
theorem foldl_closestStepStats (bits : Nat) (sqrt : K → K) (ray : Ray K)
    (triangles : List (Triangle K)) (st : Stats) :
    ∀ n, n ≤ triangles.length →
      (List.range n).foldl (closestStepStats bits sqrt ray triangles) (⟨0, -1⟩, st.Reset) =
        ((List.range n).foldl (closestStep sqrt ray triangles) ⟨0, -1⟩,
          ⟨0, 0, 0, n % 2 ^ bits⟩) := by
  intro n
  induction n with
  | zero =>
    intro _
    simp [Stats.Reset]
  | succ n ih =>
    intro hn
    rw [List.range_succ, List.foldl_append, List.foldl_append, ih (by omega)]
    simp only [List.foldl_cons, List.foldl_nil]
    rw [closestStepStats_eq bits sqrt ray triangles _ n (by omega)]
    simp only [Nat.mod_add_mod]

/-- C11, as stated, fails: with all counters at 0, a call of the ray/triangle routine of
`Geometry.cpp` (a hit at `t = 1`) and a call of its ray/AABB routine (a hit at `t = 1`) both
leave `rayVsTriangle` and `rayVsAabb` at 0. -/
theorem geometry_routines_do_not_count :
    IntersectionTimeRayTriangleStats Rat.sqrt ⟨0, 0, 0, 0⟩ (⟨1/4, 1/4, 1⟩ : Vec3 ℚ) ⟨0, 0, -1⟩
        ⟨0, 0, 0⟩ ⟨1, 0, 0⟩ ⟨0, 1, 0⟩ = (1, ⟨0, 0, 0, 0⟩) ∧
    IntersectionTimeRayAabbStats ⟨0, 0, 0, 0⟩ (⟨-1, 0, 0⟩ : Vec3 ℚ) ⟨1, 1, 2⟩
        ⟨0, 0, 0⟩ ⟨4, 4, 4⟩ = (1, ⟨0, 0, 0, 0⟩) := by
  refine ⟨by decide!, by decide!⟩

/-- C11, amended: the ray/triangle and ray/AABB routines of `Geometry.cpp` leave every counter
of `Stats` as it was. Every call of the overload `IntersectionTimeRayTriangle(ray, triangle)`
returns the time of the routine of `Geometry.cpp` and increases `rayVsTriangle` by exactly one
(a `size_t` increment), leaving the other counters as they were; so after `Reset()` the
brute-force `ClosestIntersection` loop over `N` triangles returns its closest hit and leaves
`rayVsTriangle == N`, the other counters at 0. -/
theorem stats_kept_by_overload (bits : Nat) (sqrt : K → K) (st : Stats) (ray : Ray K)
    (triangles : List (Triangle K)) (triangle : Triangle K) (s dir p1 p2 p3 : Vec3 K)
    (hN : triangles.length < 2 ^ bits) :
    (IntersectionTimeRayTriangleStats sqrt st s dir p1 p2 p3).2 = st ∧
    (IntersectionTimeRayAabbStats st s dir p1 p2).2 = st ∧
    (IntersectionTimeRayTriangleOverload bits sqrt st ray triangle).1 =
      IntersectionTimeRayTriangle sqrt ray.origin ray.direction
        triangle.v0 triangle.v1 triangle.v2 ∧
    (IntersectionTimeRayTriangleOverload bits sqrt st ray triangle).2 =
      ⟨st.frustumVsAabb, st.aabbVsAabb, st.rayVsAabb, (st.rayVsTriangle + 1) % 2 ^ bits⟩ ∧
    (ClosestIntersectionStats bits sqrt st.Reset ray triangles).1 =
      ClosestIntersection sqrt ray triangles ∧
    (ClosestIntersectionStats bits sqrt st.Reset ray triangles).2 =
      ⟨0, 0, 0, triangles.length⟩ := by
  refine ⟨rfl, rfl, rfl, rfl, ?_, ?_⟩
  · unfold ClosestIntersectionStats ClosestIntersection
    rw [foldl_closestStepStats bits sqrt ray triangles st _ le_rfl]
  · unfold ClosestIntersectionStats
    rw [foldl_closestStepStats bits sqrt ray triangles st _ le_rfl, Nat.mod_eq_of_lt hN]

theorem stats_kept_by_overload_witness :
    ([⟨⟨0, 0, 0⟩, ⟨1, 0, 0⟩, ⟨0, 1, 0⟩⟩, ⟨⟨0, 0, -1⟩, ⟨1, 0, -1⟩, ⟨0, 1, -1⟩⟩] :
        List (Triangle ℚ)).length < 2 ^ 64 ∧
    (IntersectionTimeRayTriangleOverload 64 Rat.sqrt ⟨3, 4, 5, 6⟩
        (⟨⟨1/4, 1/4, 1⟩, ⟨0, 0, -1⟩⟩ : Ray ℚ) ⟨⟨0, 0, 0⟩, ⟨1, 0, 0⟩, ⟨0, 1, 0⟩⟩).2 =
      ⟨3, 4, 5, 7⟩ ∧
    (ClosestIntersectionStats 64 Rat.sqrt (Stats.Reset ⟨3, 4, 5, 6⟩)
        (⟨⟨1/4, 1/4, 1⟩, ⟨0, 0, -1⟩⟩ : Ray ℚ)
        [⟨⟨0, 0, 0⟩, ⟨1, 0, 0⟩, ⟨0, 1, 0⟩⟩, ⟨⟨0, 0, -1⟩, ⟨1, 0, -1⟩, ⟨0, 1, -1⟩⟩]).2 =
      ⟨0, 0, 0, 2⟩ :=
  ⟨by decide,
    (stats_kept_by_overload 64 Rat.sqrt ⟨3, 4, 5, 6⟩ (⟨⟨1/4, 1/4, 1⟩, ⟨0, 0, -1⟩⟩ : Ray ℚ)
      [⟨⟨0, 0, 0⟩, ⟨1, 0, 0⟩, ⟨0, 1, 0⟩⟩, ⟨⟨0, 0, -1⟩, ⟨1, 0, -1⟩, ⟨0, 1, -1⟩⟩]
      ⟨⟨0, 0, 0⟩, ⟨1, 0, 0⟩, ⟨0, 1, 0⟩⟩ ⟨0, 0, 0⟩ ⟨0, 0, 0⟩ ⟨0, 0, 0⟩ ⟨0, 0, 0⟩ ⟨0, 0, 0⟩
      (by decide)).2.2.2.1.trans (by decide),
    (stats_kept_by_overload 64 Rat.sqrt ⟨3, 4, 5, 6⟩ (⟨⟨1/4, 1/4, 1⟩, ⟨0, 0, -1⟩⟩ : Ray ℚ)
      [⟨⟨0, 0, 0⟩, ⟨1, 0, 0⟩, ⟨0, 1, 0⟩⟩, ⟨⟨0, 0, -1⟩, ⟨1, 0, -1⟩, ⟨0, 1, -1⟩⟩]
      ⟨⟨0, 0, 0⟩, ⟨1, 0, 0⟩, ⟨0, 1, 0⟩⟩ ⟨0, 0, 0⟩ ⟨0, 0, 0⟩ ⟨0, 0, 0⟩ ⟨0, 0, 0⟩ ⟨0, 0, 0⟩
      (by decide)).2.2.2.2.2⟩

/-- C18: a default-constructed `KdTree::Config` has `cost_traversal = 1.0` and
`cost_intersection = 80.0`. -/
theorem Config_default_costs :
    ({} : KdTree.Config K).cost_traversal = 1 ∧ ({} : KdTree.Config K).cost_intersection = 80 :=
  ⟨rfl, rfl⟩

/-- The hit kept by the brute-force loop over the indices below `n` is the first that attains
its time. -/
theorem foldl_closestStep_first (sqrt : K → K) (ray : Ray K) (tris : List (Triangle K))
    (n : Nat) :
    ∀ j, j < ((List.range n).foldl (closestStep sqrt ray tris) ⟨0, -1⟩).triangle_index →
      hitTime sqrt tris ray j ≠ ((List.range n).foldl (closestStep sqrt ray tris) ⟨0, -1⟩).t := by
  induction n with
  | zero => intro j hj; simp at hj
  | succ n ih =>
    have hc := isClosestAmong_fold sqrt ray tris (List.range n)
    rw [List.range_succ, List.foldl_append, List.foldl_cons, List.foldl_nil, closestStep_eq]
    generalize (List.range n).foldl (closestStep sqrt ray tris) ⟨0, -1⟩ = r at ih hc
    split_ifs with h1 h2
    · intro j hj
      simp only at hj ⊢
      have hjn : j ∈ List.range n := List.mem_range.mpr hj
      rcases hc with ⟨ht, hall⟩ | ⟨h0, hm, ht, hmin⟩
      · have := hall j hjn
        intro e
        rw [e] at this
        exact absurd h1 (not_le.mpr this)
      · rcases h2 with h2 | h2
        · intro e
          rcases lt_or_le (hitTime sqrt tris ray j) 0 with hneg | hpos
          · rw [e] at hneg
            exact absurd h1 (not_le.mpr hneg)
          · have := hmin j hjn hpos
            rw [e] at this
            exact absurd h2 (not_lt.mpr this)
        · exact absurd h0 (not_le.mpr h2)
    · exact ih
    · exact ih

/-- C20: `ClosestIntersection` returns `t = -1` exactly when every triangle has a negative
ray/triangle time; otherwise it returns the least non-negative time over all triangles, with the
smallest triangle index that attains it. -/
theorem ClosestIntersection_spec (sqrt : K → K) (ray : Ray K) (triangles : List (Triangle K)) :
    ((ClosestIntersection sqrt ray triangles).t = -1 ↔
      ∀ j, j < triangles.length → hitTime sqrt triangles ray j < 0) ∧
    ((ClosestIntersection sqrt ray triangles).t = -1 ∨
      (0 ≤ (ClosestIntersection sqrt ray triangles).t ∧
        (ClosestIntersection sqrt ray triangles).triangle_index < triangles.length ∧
        hitTime sqrt triangles ray (ClosestIntersection sqrt ray triangles).triangle_index =
          (ClosestIntersection sqrt ray triangles).t ∧
        (∀ j, j < triangles.length → 0 ≤ hitTime sqrt triangles ray j →
          (ClosestIntersection sqrt ray triangles).t ≤ hitTime sqrt triangles ray j) ∧
        (∀ j, j < (ClosestIntersection sqrt ray triangles).triangle_index →
          hitTime sqrt triangles ray j ≠ (ClosestIntersection sqrt ray triangles).t))) := by
  have hc := isClosestAmong_fold sqrt ray triangles (List.range triangles.length)
  have hf := foldl_closestStep_first sqrt ray triangles triangles.length
  unfold ClosestIntersection
  generalize (List.range triangles.length).foldl (closestStep sqrt ray triangles) ⟨0, -1⟩ = r
    at hc hf
  rcases hc with ⟨ht, hall⟩ | ⟨h0, hm, ht, hmin⟩
  · exact ⟨⟨fun _ j hj => hall j (List.mem_range.mpr hj), fun _ => ht⟩, Or.inl ht⟩
  · refine ⟨⟨fun e => ?_, fun hall => ?_⟩, Or.inr ⟨h0, List.mem_range.mp hm, ht, ?_, hf⟩⟩
    · rw [e] at h0
      norm_num at h0
    · have := hall _ (List.mem_range.mp hm)
      rw [ht] at this
      exact absurd h0 (not_le.mpr this)
    · exact fun j hj hp => hmin j (List.mem_range.mpr hj) hp

end CS350

namespace CS350

variable {K : Type} [LinearOrderedField K]

theorem bytesAt_length (bytes : List UInt8) (off n : Nat) (h : off + n ≤ bytes.length) :
    (bytesAt bytes off n).length = n := by
  unfold bytesAt
  rw [List.length_take, List.length_drop]
  omega

/-- A read that the file can serve delivers the next `n` bytes and advances the stream. -/
theorem IStream.read_ok (bytes : List UInt8) (p n : Nat) (buf : List UInt8)
    (h : p + n ≤ bytes.length) :
    IStream.read ⟨bytes, p, false⟩ buf n =
      (bytesAt bytes p n ++ buf.drop n, ⟨bytes, p + n, false⟩) := by
  have hl := bytesAt_length bytes p n h
  unfold bytesAt at hl
  simp [IStream.read, bytesAt, hl]

theorem u32_append (a t : List UInt8) (h : 4 ≤ a.length) : u32 (a ++ t) = u32 a := by
  unfold u32
  rw [List.getD_append _ _ _ 0 (by omega), List.getD_append _ _ _ 1 (by omega),
    List.getD_append _ _ _ 2 (by omega), List.getD_append _ _ _ 3 (by omega)]

theorem i32_append (a t : List UInt8) (h : 4 ≤ a.length) : i32 (a ++ t) = i32 a := by
  unfold i32
  rw [u32_append a t h]

theorem drop_append_left (a t : List UInt8) (k : Nat) (h : k ≤ a.length) :
    (a ++ t).drop k = a.drop k ++ t := by
  rw [List.drop_append_of_le_length h]

theorem vec3Of_append (f32 : Nat → K) (a t : List UInt8) (h : 12 ≤ a.length) :
    vec3Of f32 (a ++ t) = vec3Of f32 a := by
  unfold vec3Of
  rw [drop_append_left a t 4 (by omega), drop_append_left a t 8 (by omega),
    u32_append a t (by omega), u32_append _ t (by rw [List.length_drop]; omega),
    u32_append _ t (by rw [List.length_drop]; omega)]

theorem vec2Of_append (f32 : Nat → K) (a t : List UInt8) (h : 8 ≤ a.length) :
    vec2Of f32 (a ++ t) = vec2Of f32 a := by
  unfold vec2Of
  rw [drop_append_left a t 4 (by omega),
    u32_append a t (by omega), u32_append _ t (by rw [List.length_drop]; omega)]

theorem faceOf_append (a t : List UInt8) (h : 12 ≤ a.length) :
    faceOf (a ++ t) = faceOf a := by
  unfold faceOf
  rw [drop_append_left a t 4 (by omega), drop_append_left a t 8 (by omega),
    i32_append a t (by omega), i32_append _ t (by rw [List.length_drop]; omega),
    i32_append _ t (by rw [List.length_drop]; omega)]

theorem ReadUInt32_ok (bytes : List UInt8) (p : Nat) (h : p + 4 ≤ bytes.length) :
    ReadUInt32 ⟨bytes, p, false⟩ = (u32 (bytesAt bytes p 4), ⟨bytes, p + 4, false⟩) := by
  unfold ReadUInt32
  simp only [IStream.read_ok bytes p 4 _ h]
  rw [u32_append _ _ (by rw [bytesAt_length bytes p 4 h])]

theorem ReadBoolean_ok (bytes : List UInt8) (p : Nat) (h : p + 1 ≤ bytes.length) :
    ReadBoolean ⟨bytes, p, false⟩ = (decide (bytes.getD p 0 ≠ 0), ⟨bytes, p + 1, false⟩) := by
  unfold ReadBoolean
  simp only [IStream.read_ok bytes p 1 _ h]
  have hl := bytesAt_length bytes p 1 h
  rw [List.getD_append _ _ _ 0 (by omega)]
  have : (bytesAt bytes p 1).getD 0 0 = bytes.getD p 0 := by
    unfold bytesAt
    simp [List.getD_eq_getElem?_getD, List.getElem?_take, List.getElem?_drop]
  rw [this]

theorem ReadVec3_ok (f32 : Nat → K) (bytes : List UInt8) (p : Nat) (h : p + 12 ≤ bytes.length) :
    ReadVec3 f32 ⟨bytes, p, false⟩ = (vec3Of f32 (bytesAt bytes p 12), ⟨bytes, p + 12, false⟩) := by
  unfold ReadVec3
  simp only [IStream.read_ok bytes p 12 _ h]
  rw [vec3Of_append _ _ _ (by rw [bytesAt_length bytes p 12 h])]

theorem ReadVec2_ok (f32 : Nat → K) (junk : Nat → List UInt8) (bytes : List UInt8) (p : Nat)
    (h : p + 8 ≤ bytes.length) :
    ReadVec2 f32 junk ⟨bytes, p, false⟩ =
      (vec2Of f32 (bytesAt bytes p 8), ⟨bytes, p + 8, false⟩) := by
  unfold ReadVec2
  simp only [IStream.read_ok bytes p 8 _ h]
  rw [vec2Of_append _ _ _ (by rw [bytesAt_length bytes p 8 h])]

end CS350

namespace CS350

variable {K : Type} [LinearOrderedField K]

/-- One round of `ReadVertices` on a file that holds the record: the position, the normal and
the uv are taken in this order from the record at the read position. -/
theorem readVertex_ok (f32 : Nat → K) (junk : Nat → List UInt8) (hp hn hu : Bool)
    (bytes : List UInt8) (p : Nat) (d : CS350PrimitiveData K)
    (h : p + vertexStride hp hn hu ≤ bytes.length) :
    readVertex f32 junk hp hn hu (⟨bytes, p, false⟩, d) =
      (⟨bytes, p + vertexStride hp hn hu, false⟩,
        ⟨d.positions ++ (if hp then [vec3Of f32 (bytesAt bytes p 12)] else []),
          d.uvs ++ (if hu then [vec2Of f32 (bytesAt bytes
            (p + (if hp then 12 else 0) + (if hn then 12 else 0)) 8)] else []),
          d.normals ++ (if hn then [vec3Of f32 (bytesAt bytes
            (p + (if hp then 12 else 0)) 12)] else []),
          d.polygons, d.bvMin, d.bvMax⟩) := by
  cases hp <;> cases hn <;> cases hu <;> simp [vertexStride] at h
  · simp [readVertex, vertexStride]
  · simp [readVertex, vertexStride, ReadVec2_ok f32 junk bytes p (by omega)]
  · simp [readVertex, vertexStride, ReadVec3_ok f32 bytes p (by omega)]
  · simp [readVertex, vertexStride, ReadVec3_ok f32 bytes p (by omega),
      ReadVec2_ok f32 junk bytes (p + 12) (by omega), Nat.add_assoc]
  · simp [readVertex, vertexStride, ReadVec3_ok f32 bytes p (by omega)]
  · simp [readVertex, vertexStride, ReadVec3_ok f32 bytes p (by omega),
      ReadVec2_ok f32 junk bytes (p + 12) (by omega), Nat.add_assoc]
  · simp [readVertex, vertexStride, ReadVec3_ok f32 bytes p (by omega),
      ReadVec3_ok f32 bytes (p + 12) (by omega), Nat.add_assoc]
  · simp [readVertex, vertexStride, ReadVec3_ok f32 bytes p (by omega),
      ReadVec3_ok f32 bytes (p + 12) (by omega),
      ReadVec2_ok f32 junk bytes (p + 12 + 12) (by omega), Nat.add_assoc]

/-- The positions that `n` vertex records from offset `p` hold. -/
theorem ReadVertices_ok (f32 : Nat → K) (junk : Nat → List UInt8) (hp hn hu : Bool)
    (bytes : List UInt8) :
    ∀ (n p : Nat) (d : CS350PrimitiveData K), p + n * vertexStride hp hn hu ≤ bytes.length →
      ReadVertices f32 junk hp hn hu n (⟨bytes, p, false⟩, d) =
        (⟨bytes, p + n * vertexStride hp hn hu, false⟩,
          ⟨d.positions ++ (if hp then (List.range n).map (fun i =>
              vec3Of f32 (bytesAt bytes (p + i * vertexStride hp hn hu) 12)) else []),
            d.uvs ++ (if hu then (List.range n).map (fun i =>
              vec2Of f32 (bytesAt bytes (p + i * vertexStride hp hn hu +
                (if hp then 12 else 0) + (if hn then 12 else 0)) 8)) else []),
            d.normals ++ (if hn then (List.range n).map (fun i =>
              vec3Of f32 (bytesAt bytes (p + i * vertexStride hp hn hu +
                (if hp then 12 else 0)) 12)) else []),
            d.polygons, d.bvMin, d.bvMax⟩) := by
  intro n
  induction n with
  | zero =>
    intro p d _
    cases hp <;> cases hn <;> cases hu <;> simp [ReadVertices]
  | succ n ih =>
    intro p d h
    have h1 : p + vertexStride hp hn hu ≤ bytes.length := by
      rw [Nat.succ_mul] at h; omega
    have h2 : p + vertexStride hp hn hu + n * vertexStride hp hn hu ≤ bytes.length := by
      rw [Nat.succ_mul] at h; omega
    rw [ReadVertices, readVertex_ok f32 junk hp hn hu bytes p d h1, ih _ _ h2]
    have e : ∀ i, p + vertexStride hp hn hu + i * vertexStride hp hn hu =
        p + (i + 1) * vertexStride hp hn hu := by
      intro i; rw [Nat.succ_mul]; omega
    have e0 : p + 0 * vertexStride hp hn hu = p := by simp
    simp only [e, List.range_succ_eq_map, List.map_cons, List.map_map, Function.comp_def, e0]
    cases hp <;> cases hn <;> cases hu <;>
      simp [Nat.succ_mul, Nat.add_assoc, Nat.add_comm, Nat.add_left_comm]

/-- The faces that `n` records from offset `p` hold. -/
theorem readFaces_ok (junk : Nat → List UInt8) (bytes : List UInt8) :
    ∀ (n p : Nat) (d : CS350PrimitiveData K), p + 12 * n ≤ bytes.length →
      readFaces junk n (⟨bytes, p, false⟩, d) =
        (⟨bytes, p + 12 * n, false⟩,
          ⟨d.positions, d.uvs, d.normals,
            d.polygons ++ (List.range n).map (fun k => faceOf (bytesAt bytes (p + 12 * k) 12)),
            d.bvMin, d.bvMax⟩) := by
  intro n
  induction n with
  | zero => intro p d _; simp [readFaces]
  | succ n ih =>
    intro p d h
    rw [readFaces, readFace]
    simp only [IStream.read_ok bytes p 12 _ (by omega)]
    rw [ih _ _ (by omega), faceOf_append _ _ (by rw [bytesAt_length bytes p 12 (by omega)])]
    have e : ∀ k, p + 12 + 12 * k = p + 12 * (k + 1) := by intro k; omega
    simp only [e, List.range_succ_eq_map, List.map_cons, List.map_map, Function.comp_def]
    simp [Nat.mul_succ, Nat.add_assoc]

theorem CalculateBoundingVolume_fields (d : CS350PrimitiveData K) :
    (CalculateBoundingVolume d).positions = d.positions ∧
      (CalculateBoundingVolume d).uvs = d.uvs ∧
      (CalculateBoundingVolume d).normals = d.normals ∧
      (CalculateBoundingVolume d).polygons = d.polygons := by
  rcases d with ⟨ps, us, ns, fs, mn, mx⟩
  cases ps <;> exact ⟨rfl, rfl, rfl, rfl⟩

/-- The signature check on a file of at least five bytes: it compares the first five bytes
and leaves the stream behind them. -/
theorem VerifySignature_ok (junk : Nat → List UInt8) (bytes : List UInt8)
    (h : 5 ≤ bytes.length) :
    VerifySignature junk ⟨bytes, 0, false⟩ =
      (if bytes.take 5 ≠ signatureBytes then Except.error "Invalid file signature in file"
        else Except.ok (), ⟨bytes, 5, false⟩) := by
  unfold VerifySignature
  simp only [IStream.read_ok bytes 0 5 _ (by omega)]
  have hl := bytesAt_length bytes 0 5 (by omega)
  have e : (bytesAt bytes 0 5 ++ List.drop 5 (junk 5)).take 5 = bytes.take 5 := by
    rw [List.take_append_of_le_length (by omega)]
    unfold bytesAt
    simp
  rw [e]
  split_ifs <;> rfl

/-- The loader raises an error only from the signature check. -/
theorem LoadCS350BinaryStream_error_iff (f32 : Nat → K) (junk : Nat → List UInt8)
    (input : IStream) :
    (∃ e, (LoadCS350BinaryStream f32 junk input).1 = Except.error e) ↔
      ∃ e, (VerifySignature junk input).1 = Except.error e := by
  unfold LoadCS350BinaryStream
  cases h : (VerifySignature junk input).1 with
  | error e => simp [h]
  | ok u => simp [h]

end CS350

namespace CS350

variable {K : Type} [LinearOrderedField K]

theorem readVertex_positions_length (f32 : Nat → K) (junk : Nat → List UInt8) (hp hn hu : Bool)
    (s : IStream × CS350PrimitiveData K) :
    (readVertex f32 junk hp hn hu s).2.positions.length =
      s.2.positions.length + (if hp then 1 else 0) := by
  cases hp <;> cases hn <;> cases hu <;> simp [readVertex]

theorem ReadVertices_positions_length (f32 : Nat → K) (junk : Nat → List UInt8)
    (hp hn hu : Bool) :
    ∀ (n : Nat) (s : IStream × CS350PrimitiveData K),
      (ReadVertices f32 junk hp hn hu n s).2.positions.length =
        s.2.positions.length + (if hp then n else 0) := by
  intro n
  induction n with
  | zero => intro s; cases hp <;> simp [ReadVertices]
  | succ n ih =>
    intro s
    rw [ReadVertices, ih, readVertex_positions_length]
    cases hp <;> simp
    omega

theorem readFaces_positions (junk : Nat → List UInt8) :
    ∀ (n : Nat) (s : IStream × CS350PrimitiveData K),
      (readFaces junk n s).2.positions = s.2.positions := by
  intro n
  induction n with
  | zero => intro s; rfl
  | succ n ih => intro s; rw [readFaces, ih]; rfl

/-- The header as the loader reads it from a file of at least 16 bytes with the signature. -/
theorem header_reads (bytes : List UInt8) (h16 : 16 ≤ bytes.length) :
    ReadUInt32 ⟨bytes, 5, false⟩ = ((headerOf bytes).vertex_count, ⟨bytes, 9, false⟩) ∧
    ReadUInt32 ⟨bytes, 9, false⟩ = ((headerOf bytes).index_count, ⟨bytes, 13, false⟩) ∧
    ReadAttributes ⟨bytes, 13, false⟩ =
      (((headerOf bytes).has_positions, (headerOf bytes).has_normals, (headerOf bytes).has_uvs),
        ⟨bytes, 16, false⟩) := by
  refine ⟨ReadUInt32_ok bytes 5 (by omega), ReadUInt32_ok bytes 9 (by omega), ?_⟩
  unfold ReadAttributes
  simp only [ReadBoolean_ok bytes 13 (by omega), ReadBoolean_ok bytes 14 (by omega),
    ReadBoolean_ok bytes 15 (by omega)]
  rfl

/-- C15: on a file of at least five bytes `LoadCS350Binary` raises an error exactly when the
first five bytes are not `CS350`, and a rejected file is left with the stream right behind
these five bytes: nothing else was read. -/
theorem LoadCS350Binary_signature (f32 : Nat → K) (junk : Nat → List UInt8)
    (bytes : List UInt8) (h : 5 ≤ bytes.length) :
    ((∃ e, LoadCS350Binary f32 junk (some bytes) = Except.error e) ↔
      bytes.take 5 ≠ signatureBytes) ∧
    (bytes.take 5 ≠ signatureBytes →
      (LoadCS350BinaryStream f32 junk ⟨bytes, 0, false⟩).2 = ⟨bytes, 5, false⟩) := by
  constructor
  · unfold LoadCS350Binary
    rw [LoadCS350BinaryStream_error_iff, VerifySignature_ok junk bytes h]
    by_cases hs : bytes.take 5 = signatureBytes
    · simp [hs]
    · simp [hs]
  · intro hs
    unfold LoadCS350BinaryStream
    simp only [VerifySignature_ok junk bytes h, if_pos hs]

/-- C15, witness: a file that starts with `CS351`. -/
theorem LoadCS350Binary_signature_witness :
    5 ≤ ([67, 83, 51, 53, 49, 1, 0, 0, 0] : List UInt8).length ∧
    (((∃ e, LoadCS350Binary (fun n => (n : ℚ)) (fun _ => [])
        (some [67, 83, 51, 53, 49, 1, 0, 0, 0]) = Except.error e) ↔
      ([67, 83, 51, 53, 49, 1, 0, 0, 0] : List UInt8).take 5 ≠ signatureBytes) ∧
    (([67, 83, 51, 53, 49, 1, 0, 0, 0] : List UInt8).take 5 ≠ signatureBytes →
      (LoadCS350BinaryStream (fun n => (n : ℚ)) (fun _ => [])
        ⟨[67, 83, 51, 53, 49, 1, 0, 0, 0], 0, false⟩).2 =
          ⟨[67, 83, 51, 53, 49, 1, 0, 0, 0], 5, false⟩)) :=
  ⟨by decide, LoadCS350Binary_signature _ _ _ (by decide)⟩

/-- C16: on a well-formed file `LoadCS350Binary` returns `vertex_count` positions when the
position flag is set and none otherwise, likewise normals and uvs, each taken from its vertex
record in the order position, normal, uv, and `index_count / 3` faces of three signed 32-bit
indices (none when `index_count` is 0). -/
theorem LoadCS350Binary_well_formed (f32 : Nat → K) (junk : Nat → List UInt8)
    (bytes : List UInt8) (h : WellFormedFile bytes) :
    ∃ data, LoadCS350Binary f32 junk (some bytes) = Except.ok data ∧
      data.positions.length =
        (if (headerOf bytes).has_positions then (headerOf bytes).vertex_count else 0) ∧
      data.normals.length =
        (if (headerOf bytes).has_normals then (headerOf bytes).vertex_count else 0) ∧
      data.uvs.length =
        (if (headerOf bytes).has_uvs then (headerOf bytes).vertex_count else 0) ∧
      data.polygons.length = (headerOf bytes).index_count / 3 ∧
      data.positions = (if (headerOf bytes).has_positions then
        (List.range (headerOf bytes).vertex_count).map (fun i =>
          vec3Of f32 (bytesAt bytes (16 + i * (headerOf bytes).stride) 12)) else []) ∧
      data.normals = (if (headerOf bytes).has_normals then
        (List.range (headerOf bytes).vertex_count).map (fun i =>
          vec3Of f32 (bytesAt bytes (16 + i * (headerOf bytes).stride +
            (if (headerOf bytes).has_positions then 12 else 0)) 12)) else []) ∧
      data.uvs = (if (headerOf bytes).has_uvs then
        (List.range (headerOf bytes).vertex_count).map (fun i =>
          vec2Of f32 (bytesAt bytes (16 + i * (headerOf bytes).stride +
            (if (headerOf bytes).has_positions then 12 else 0) +
            (if (headerOf bytes).has_normals then 12 else 0)) 8)) else []) ∧
      data.polygons = (List.range ((headerOf bytes).index_count / 3)).map (fun k =>
        faceOf (bytesAt bytes
          (16 + (headerOf bytes).vertex_count * (headerOf bytes).stride + 12 * k) 12)) := by
  obtain ⟨hs, hlen⟩ := h
  have h16 : 16 ≤ bytes.length := by omega
  obtain ⟨e1, e2, e3⟩ := header_reads bytes h16
  have hv := ReadVertices_ok f32 junk (headerOf bytes).has_positions (headerOf bytes).has_normals
    (headerOf bytes).has_uvs bytes (headerOf bytes).vertex_count 16
    (⟨[], [], [], [], ⟨0, 0, 0⟩, ⟨0, 0, 0⟩⟩ : CS350PrimitiveData K)
    (by unfold CS350Header.stride at hlen; omega)
  have hf := fun d => readFaces_ok (K := K) junk bytes ((headerOf bytes).index_count / 3)
    (16 + (headerOf bytes).vertex_count * (headerOf bytes).stride) d hlen
  unfold CS350Header.stride at hf ⊢
  have hload : LoadCS350Binary f32 junk (some bytes) = Except.ok (CalculateBoundingVolume
      (if (headerOf bytes).index_count ≠ 0 then
        ReadPolygons junk (headerOf bytes).index_count
          (ReadVertices f32 junk (headerOf bytes).has_positions (headerOf bytes).has_normals
            (headerOf bytes).has_uvs (headerOf bytes).vertex_count
            (⟨bytes, 16, false⟩, ⟨[], [], [], [], ⟨0, 0, 0⟩, ⟨0, 0, 0⟩⟩))
      else
        ReadVertices f32 junk (headerOf bytes).has_positions (headerOf bytes).has_normals
            (headerOf bytes).has_uvs (headerOf bytes).vertex_count
            (⟨bytes, 16, false⟩, ⟨[], [], [], [], ⟨0, 0, 0⟩, ⟨0, 0, 0⟩⟩)).2) := by
    unfold LoadCS350Binary LoadCS350BinaryStream
    simp only [VerifySignature_ok junk bytes (by omega), hs, ne_eq, not_true_eq_false,
      if_false, e1, e2, e3]
  refine ⟨_, hload, ?_⟩
  obtain ⟨c1, c2, c3, c4⟩ := CalculateBoundingVolume_fields
    ((if (headerOf bytes).index_count ≠ 0 then
        ReadPolygons junk (headerOf bytes).index_count
          (ReadVertices f32 junk (headerOf bytes).has_positions (headerOf bytes).has_normals
            (headerOf bytes).has_uvs (headerOf bytes).vertex_count
            (⟨bytes, 16, false⟩, ⟨[], [], [], [], ⟨0, 0, 0⟩, ⟨0, 0, 0⟩⟩))
      else
        ReadVertices f32 junk (headerOf bytes).has_positions (headerOf bytes).has_normals
            (headerOf bytes).has_uvs (headerOf bytes).vertex_count
            (⟨bytes, 16, false⟩, ⟨[], [], [], [], ⟨0, 0, 0⟩, ⟨0, 0, 0⟩⟩)).2)
  rw [c1, c2, c3, c4]
  by_cases hi : (headerOf bytes).index_count = 0
  · rw [if_neg (not_not.mpr hi), hv, hi]
    simp only [List.nil_append, Nat.zero_div, List.range_zero, List.map_nil, List.length_nil]
    refine ⟨?_, ?_, ?_, trivial, trivial, trivial, trivial, trivial⟩ <;>
      split_ifs <;> simp
  · rw [if_pos hi, ReadPolygons, hv, hf]
    simp only [List.nil_append, List.length_map, List.length_range]
    refine ⟨?_, ?_, ?_, trivial, trivial, trivial, trivial, trivial⟩ <;>
      split_ifs <;> simp

end CS350

namespace CS350

variable {K : Type} [LinearOrderedField K]

/-- C16, witness: a file with one vertex (position and uv) and one face. -/
theorem LoadCS350Binary_well_formed_witness :
    WellFormedFile sampleFile ∧
    ∃ data, LoadCS350Binary (fun n => (n : ℚ)) (fun _ => []) (some sampleFile) =
        Except.ok data ∧
      data.positions = [⟨1, 2, 3⟩] ∧ data.normals = [] ∧ data.uvs = [⟨4, 5⟩] ∧
      data.polygons = [(0, -1, 258)] := by
  refine ⟨by decide, ?_⟩
  obtain ⟨d, h, -, -, -, -, h1, h2, h3, h4⟩ :=
    LoadCS350Binary_well_formed (fun n => (n : ℚ)) (fun _ => []) sampleFile (by decide)
  refine ⟨d, h, ?_, ?_, ?_, ?_⟩
  · rw [h1]; decide!
  · rw [h2]; decide!
  · rw [h3]; decide!
  · rw [h4]; decide!

/-- C17, evaluated on the code: once the signature is there `LoadCS350Binary` raises no
error, whatever the length of the file; the reads of the records that the file does not hold
fail silently, and with a complete header the data returned has `vertex_count` positions all
the same. -/
theorem LoadCS350Binary_truncated_returns (f32 : Nat → K) (junk : Nat → List UInt8)
    (bytes : List UInt8) (hs : bytes.take 5 = signatureBytes) :
    ∃ data, LoadCS350Binary f32 junk (some bytes) = Except.ok data ∧
      (16 ≤ bytes.length → data.positions.length =
        (if (headerOf bytes).has_positions then (headerOf bytes).vertex_count else 0)) := by
  have h : 5 ≤ bytes.length := by
    have := congrArg List.length hs
    rw [List.length_take] at this
    simp [signatureBytes] at this
    exact this
  unfold LoadCS350Binary LoadCS350BinaryStream
  simp only [VerifySignature_ok junk bytes h, hs, ne_eq, not_true_eq_false, if_false]
  refine ⟨_, rfl, fun h16 => ?_⟩
  obtain ⟨e1, e2, e3⟩ := header_reads bytes h16
  rw [(CalculateBoundingVolume_fields _).1]
  simp only [e1, e2, e3]
  by_cases hi : (headerOf bytes).index_count = 0
  · rw [if_neg (not_not.mpr hi), ReadVertices_positions_length]
    simp
  · rw [if_pos hi]
    unfold ReadPolygons
    rw [readFaces_positions, ReadVertices_positions_length]
    simp

/-- C17, the failing input: the header declares one vertex with a position and the file ends
there; the loader returns one position made of the zero pattern. -/
theorem LoadCS350Binary_truncated_returns_witness :
    (truncatedFile.take 5 = signatureBytes ∧ ¬ WellFormedFile truncatedFile) ∧
    (∃ data, LoadCS350Binary (fun n => (n : ℚ)) (fun _ => []) (some truncatedFile) =
        Except.ok data ∧
      (16 ≤ truncatedFile.length → data.positions.length =
        (if (headerOf truncatedFile).has_positions then (headerOf truncatedFile).vertex_count
          else 0))) ∧
    LoadCS350Binary (fun n => (n : ℚ)) (fun _ => []) (some truncatedFile) =
      Except.ok ⟨[⟨0, 0, 0⟩], [], [], [], ⟨0, 0, 0⟩, ⟨0, 0, 0⟩⟩ :=
  ⟨by decide, LoadCS350Binary_truncated_returns _ _ _ (by decide), by rfl⟩

end CS350

namespace CS350

variable {K : Type} [LinearOrderedField K]

namespace KdTree

theorem text_append (a b : List String) : text (a ++ b) = text a ++ text b := by
  induction a with
  | nil => simp [text]
  | cons s a ih => simp [text, ih, String.append_assoc]

/-- A subtree in pre-order layout is not empty and lies within the array. -/
theorem PreOrder.bounds {nodes : List (Node K)} {i j : Nat} (h : PreOrder nodes i j) :
    i < j ∧ j ≤ nodes.length := by
  induction h with
  | leaf i s c hg =>
    have := List.get?_eq_some.mp hg
    obtain ⟨hl, -⟩ := this
    exact ⟨by omega, by omega⟩
  | internal i j a s next hg hl hr ihl ihr => exact ⟨by omega, ihr.2⟩

/-- In a subtree in pre-order layout the children of a node lie behind it, inside the subtree. -/
theorem PreOrder.child_in {nodes : List (Node K)} {i j : Nat} (h : PreOrder nodes i j) :
    ∀ p c, i ≤ p → p < j → IsChild nodes p c → p < c ∧ c < j := by
  induction h with
  | leaf i s c hg =>
    intro p c h1 h2 hc
    have hp : p = i := by omega
    subst hp
    obtain ⟨a, sp, nx, hn, -⟩ := hc
    rw [hg] at hn
    cases hn
  | internal i j a s next hg hl hr ihl ihr =>
    intro p c h1 h2 hc
    have bl := hl.bounds
    have br := hr.bounds
    rcases Nat.eq_or_lt_of_le h1 with hp | hp
    · subst hp
      obtain ⟨a', sp, nx, hn, hcc⟩ := hc
      rw [hg] at hn
      cases hn
      rcases hcc with rfl | rfl <;> omega
    · rcases Nat.lt_or_ge p next with hpn | hpn
      · have := ihl p c (by omega) hpn hc
        omega
      · exact ihr p c hpn h2 hc

/-- In a subtree in pre-order layout every node but the root has a parent in the subtree. -/
theorem PreOrder.has_parent {nodes : List (Node K)} {i j : Nat} (h : PreOrder nodes i j) :
    ∀ n, i < n → n < j → ∃ p, i ≤ p ∧ p < n ∧ IsChild nodes p n := by
  induction h with
  | leaf i s c hg => intro n h1 h2; omega
  | internal i j a s next hg hl hr ihl ihr =>
    intro n h1 h2
    have bl := hl.bounds
    have br := hr.bounds
    by_cases e1 : n = i + 1
    · exact ⟨i, le_refl _, by omega, a, s, next, hg, Or.inl e1⟩
    by_cases e2 : n = next
    · exact ⟨i, le_refl _, by omega, a, s, next, hg, Or.inr e2⟩
    rcases Nat.lt_or_ge n next with hn | hn
    · obtain ⟨p, hp1, hp2, hp3⟩ := ihl n (by omega) hn
      exact ⟨p, by omega, hp2, hp3⟩
    · obtain ⟨p, hp1, hp2, hp3⟩ := ihr n (by omega) h2
      exact ⟨p, by omega, hp2, hp3⟩

/-- Every index of a subtree in pre-order layout holds a node. -/
theorem PreOrder.node_at {nodes : List (Node K)} {i j : Nat} (h : PreOrder nodes i j) :
    ∀ n, i ≤ n → n < j → ∃ node, nodes.get? n = some node := by
  intro n _ h2
  have := h.bounds
  exact ⟨nodes.get ⟨n, by omega⟩, List.get?_eq_get _⟩

end KdTree

end CS350

namespace CS350

variable {K : Type} [LinearOrderedField K]

namespace KdTree

theorem Ico_split (i next j : Nat) (h1 : i + 1 ≤ next) (h2 : next ≤ j) :
    List.Ico i j = i :: (List.Ico (i + 1) next ++ List.Ico next j) := by
  rw [List.Ico.append_consecutive h1 h2, List.Ico.eq_cons (by omega)]

/-- The run of `node_dump` of `KdTree::dump` over a subtree in pre-order layout: it ends, and
writes the entries of the nodes `i .. j-1` in this order, each at its level. -/
theorem dump_node_dump_preorder (showFloat : K → String) {nodes : List (Node K)} {i j : Nat}
    (h : PreOrder nodes i j) :
    ∀ level, ∃ depth : Nat → Nat, depth i = level ∧
      (∀ p c, i ≤ p → p < j → IsChild nodes p c → depth c = depth p + 1) ∧
      ∀ os fuel, j - i ≤ fuel →
        dump.node_dump showFloat nodes fuel i level os =
          Run.ok (os ++ text ((List.Ico i j).map
            (fun n => dumpEntry showFloat nodes n (depth n)))) := by
  induction h with
  | leaf i s c hg =>
    intro level
    refine ⟨fun _ => level, rfl, fun p c _ _ _ => ?_, fun os fuel hf => ?_⟩
    · rename_i h1 h2 h3
      have hp : p = i := by omega
      subst hp
      obtain ⟨a, sp, nx, hn, -⟩ := h3
      rw [hg] at hn
      cases hn
    · cases fuel with
      | zero => omega
      | succ fuel =>
        rw [List.Ico.eq_cons (by omega), List.Ico.eq_nil_of_le (le_refl _)]
        simp only [dump.node_dump, hg, Node.is_internal, List.map_cons, List.map_nil, text,
          dumpEntry, Node.primitive_start, Node.primitive_count, String.append_empty,
          String.append_assoc]
        rfl
  | internal i j a s next hg hl hr ihl ihr =>
    intro level
    have bl := hl.bounds
    have br := hr.bounds
    obtain ⟨dL, hdL0, hdLc, hdLrun⟩ := ihl (level + 1)
    obtain ⟨dR, hdR0, hdRc, hdRrun⟩ := ihr (level + 1)
    refine ⟨fun n => if n = i then level else if n < next then dL n else dR n, by simp,
      fun p c h1 h2 hc => ?_, fun os fuel hf => ?_⟩
    · rcases Nat.eq_or_lt_of_le h1 with hp | hp
      · subst hp
        obtain ⟨a', sp, nx, hn, hcc⟩ := hc
        rw [hg] at hn
        cases hn
        rcases hcc with rfl | rfl
        · simp [hdL0, bl.1]
        · have e1 : ¬ c = i := by omega
          have e2 : ¬ c < c := by omega
          simp [hdR0, e1]
      · rcases Nat.lt_or_ge p next with hpn | hpn
        · have hci := hl.child_in p c (by omega) hpn hc
          have := hdLc p c (by omega) hpn hc
          have e1 : ¬ c = i := by omega
          have e2 : ¬ p = i := by omega
          simp [e1, e2, hci.2, hpn, this]
        · have hci := hr.child_in p c hpn h2 hc
          have := hdRc p c hpn h2 hc
          have e1 : ¬ c = i := by omega
          have e2 : ¬ p = i := by omega
          have e3 : ¬ c < next := by omega
          have e4 : ¬ p < next := by omega
          simp [e1, e2, e3, e4, this]
    · cases fuel with
      | zero => omega
      | succ fuel =>
        rw [Ico_split i next j (by omega) (by omega)]
        have mL : (List.Ico (i + 1) next).map (fun n => dumpEntry showFloat nodes n
            (if n = i then level else if n < next then dL n else dR n)) =
            (List.Ico (i + 1) next).map (fun n => dumpEntry showFloat nodes n (dL n)) := by
          apply List.map_congr_left
          intro n hn
          rw [List.Ico.mem] at hn
          have e1 : ¬ n = i := by omega
          simp [e1, hn.2]
        have mR : (List.Ico next j).map (fun n => dumpEntry showFloat nodes n
            (if n = i then level else if n < next then dL n else dR n)) =
            (List.Ico next j).map (fun n => dumpEntry showFloat nodes n (dR n)) := by
          apply List.map_congr_left
          intro n hn
          rw [List.Ico.mem] at hn
          have e1 : ¬ n = i := by omega
          have e2 : ¬ n < next := by omega
          simp [e1, e2]
        simp only [List.map_cons, List.map_append, mL, mR, text, text_append, if_true]
        simp only [dump.node_dump, hg, Node.is_internal, if_true, Node.axis, Node.split,
          Node.next_child]
        rw [hdLrun _ fuel (by omega)]
        simp only
        rw [hdRrun _ fuel (by omega)]
        simp only [dumpEntry, hg, String.append_assoc]

end KdTree

end CS350

namespace CS350

variable {K : Type} [LinearOrderedField K]

namespace KdTree

/-- The depth of the nodes of an array in pre-order layout is the function that is 0 at the
root and grows by one from a node to its children. -/
theorem atDepth_iff {nodes : List (Node K)} (h : PreOrder nodes 0 nodes.length)
    (depth : Nat → Nat) (h0 : depth 0 = 0)
    (hc : ∀ p c, 0 ≤ p → p < nodes.length → IsChild nodes p c → depth c = depth p + 1) :
    ∀ n d, n < nodes.length → (AtDepth nodes n d ↔ d = depth n) := by
  have hto : ∀ n d, AtDepth nodes n d → d = depth n := by
    intro n d hd
    induction hd with
    | root => exact h0.symm
    | child p c d _ hpc ih =>
      have hp : p < nodes.length := by
        obtain ⟨a, s, nx, hn, -⟩ := hpc
        exact (List.get?_eq_some.mp hn).1
      rw [hc p c (Nat.zero_le _) hp hpc, ih]
  have hfrom : ∀ n, n < nodes.length → AtDepth nodes n (depth n) := by
    intro n
    induction n using Nat.strong_induction_on with
    | _ n ih =>
      intro hn
      rcases Nat.eq_zero_or_pos n with e | e
      · subst e
        rw [h0]
        exact AtDepth.root
      · obtain ⟨p, -, hp, hpc⟩ := h.has_parent n e hn
        have := AtDepth.child p n (depth p) (ih p hp (by omega)) hpc
        rwa [← hc p n (Nat.zero_le _) (by omega) hpc] at this
  intro n d hn
  exact ⟨hto n d, fun e => e ▸ hfrom n hn⟩

/-- The run of `node_triangle_count` over a subtree in pre-order layout ends with a value
that does not depend on the bound. -/
theorem node_triangle_count_preorder {nodes : List (Node K)} {i j : Nat}
    (h : PreOrder nodes i j) :
    ∃ c, ∀ fuel, j - i ≤ fuel → dump_graph.node_triangle_count nodes fuel i = Run.ok c := by
  induction h with
  | leaf i s c hg =>
    refine ⟨c, fun fuel hf => ?_⟩
    cases fuel with
    | zero => omega
    | succ fuel =>
      simp only [dump_graph.node_triangle_count, hg, Node.is_internal, Node.primitive_count]
      rfl
  | internal i j a s next hg hl hr ihl ihr =>
    have bl := hl.bounds
    have br := hr.bounds
    obtain ⟨cL, hL⟩ := ihl
    obtain ⟨cR, hR⟩ := ihr
    refine ⟨(cL + cR) % 4294967296, fun fuel hf => ?_⟩
    cases fuel with
    | zero => omega
    | succ fuel =>
      simp only [dump_graph.node_triangle_count, hg, Node.is_internal, Node.next_child,
        hL fuel (by omega), hR fuel (by omega), if_true]

theorem node_triangle_count_eq {nodes : List (Node K)} {i j : Nat} (h : PreOrder nodes i j)
    (fuel : Nat) (hf : j - i ≤ fuel) :
    dump_graph.node_triangle_count nodes fuel i = Run.ok (subtreeCount nodes i) := by
  obtain ⟨c, hc⟩ := node_triangle_count_preorder h
  have hb := h.bounds
  unfold subtreeCount
  rw [hc fuel hf, hc nodes.length (by omega)]

/-- The run of `node_dump` of `KdTree::dump_graph` over a subtree in pre-order layout: it
ends, and writes for the nodes `i .. j-1` in this order the declaration and the edge from the
parent. -/
theorem dump_graph_node_dump_preorder (showFloat : K → String) {nodes : List (Node K)}
    {i j : Nat} (h : PreOrder nodes i j) :
    ∀ q, ∃ par : Nat → Nat, par i = q ∧
      (∀ p c, i ≤ p → p < j → IsChild nodes p c → par c = p) ∧
      ∀ os fuel, j - i ≤ fuel →
        dump_graph.node_dump showFloat nodes fuel i q os =
          Run.ok (os ++ text ((List.Ico i j).map
            (fun n => graphEntry showFloat nodes n (par n)))) := by
  induction h with
  | leaf i s c hg =>
    intro q
    refine ⟨fun _ => q, rfl, fun p c h1 h2 h3 => ?_, fun os fuel hf => ?_⟩
    · have hp : p = i := by omega
      subst hp
      obtain ⟨a, sp, nx, hn, -⟩ := h3
      rw [hg] at hn
      cases hn
    · cases fuel with
      | zero => omega
      | succ fuel =>
        rw [List.Ico.eq_cons (by omega), List.Ico.eq_nil_of_le (le_refl _)]
        simp only [dump_graph.node_dump, hg, Node.is_internal, List.map_cons, List.map_nil, text,
          graphEntry, Node.primitive_count, String.append_empty]
        by_cases hi : i = 0
        · simp only [hi, String.append_assoc, ne_eq, not_true_eq_false, if_false,
            String.append_empty, Bool.false_eq_true]
        · simp only [hi, String.append_assoc, ne_eq, not_false_eq_true, if_true,
            Bool.false_eq_true, if_false]
  | internal i j a s next hg hl hr ihl ihr =>
    intro q
    have hij := PreOrder.internal i j a s next hg hl hr
    have bl := hl.bounds
    have br := hr.bounds
    obtain ⟨pL, hpL0, hpLc, hpLrun⟩ := ihl i
    obtain ⟨pR, hpR0, hpRc, hpRrun⟩ := ihr i
    refine ⟨fun n => if n = i then q else if n < next then pL n else pR n, by simp,
      fun p c h1 h2 hc => ?_, fun os fuel hf => ?_⟩
    · rcases Nat.eq_or_lt_of_le h1 with hp | hp
      · subst hp
        obtain ⟨a', sp, nx, hn, hcc⟩ := hc
        rw [hg] at hn
        cases hn
        rcases hcc with rfl | rfl
        · simp [hpL0, bl.1]
        · have e1 : ¬ c = i := by omega
          simp [hpR0, e1]
      · rcases Nat.lt_or_ge p next with hpn | hpn
        · have hci := hl.child_in p c (by omega) hpn hc
          have := hpLc p c (by omega) hpn hc
          have e1 : ¬ c = i := by omega
          simp [e1, hci.2, this]
        · have hci := hr.child_in p c hpn h2 hc
          have := hpRc p c hpn h2 hc
          have e1 : ¬ c = i := by omega
          have e3 : ¬ c < next := by omega
          simp [e1, e3, this]
    · cases fuel with
      | zero => omega
      | succ fuel =>
        rw [Ico_split i next j (by omega) (by omega)]
        have mL : (List.Ico (i + 1) next).map (fun n => graphEntry showFloat nodes n
            (if n = i then q else if n < next then pL n else pR n)) =
            (List.Ico (i + 1) next).map (fun n => graphEntry showFloat nodes n (pL n)) := by
          apply List.map_congr_left
          intro n hn
          rw [List.Ico.mem] at hn
          have e1 : ¬ n = i := by omega
          simp [e1, hn.2]
        have mR : (List.Ico next j).map (fun n => graphEntry showFloat nodes n
            (if n = i then q else if n < next then pL n else pR n)) =
            (List.Ico next j).map (fun n => graphEntry showFloat nodes n (pR n)) := by
          apply List.map_congr_left
          intro n hn
          rw [List.Ico.mem] at hn
          have e1 : ¬ n = i := by omega
          have e2 : ¬ n < next := by omega
          simp [e1, e2]
        simp only [List.map_cons, List.map_append, mL, mR, text, text_append, if_true]
        simp only [dump_graph.node_dump, hg, Node.is_internal, if_true, Node.axis, Node.split,
          Node.next_child, node_triangle_count_eq hij (fuel + 1) hf]
        by_cases hi : i = 0
        · simp only [hi, ne_eq, not_true_eq_false, if_false]
          rw [hi] at hpLrun hpRrun
          rw [hpLrun _ fuel (by omega)]
          simp only
          rw [hpRrun _ fuel (by omega)]
          simp only [graphEntry, hi ▸ hg, String.append_assoc, ne_eq, not_true_eq_false,
            if_false, String.empty_append]
        · simp only [hi, ne_eq, not_false_eq_true, if_true]
          rw [hpLrun _ fuel (by omega)]
          simp only
          rw [hpRrun _ fuel (by omega)]
          simp only [graphEntry, hg, String.append_assoc, ne_eq, hi, not_false_eq_true, if_true]

end KdTree

end CS350

namespace CS350

variable {K : Type} [LinearOrderedField K]

namespace KdTree

/-- The node sequence that the build writes for a tree is in pre-order layout. -/
theorem flattenNodes_preorder (t : BuildTree K) :
    ∀ (pre suf : List (Node K)) (pb : Nat),
      PreOrder (pre ++ t.flattenNodes pre.length pb ++ suf) pre.length
        (pre.length + t.size) := by
  induction t with
  | leaf b T =>
    intro pre suf pb
    simp only [BuildTree.flattenNodes, BuildTree.size, List.append_assoc, List.singleton_append]
    exact PreOrder.leaf _ _ _ (get?_append_cons _ _ _)
  | inner b a s l r ihl ihr =>
    intro pre suf pb
    have hl := ihl (pre ++ [Node.internal a s (pre.length + 1 + l.size)])
      (r.flattenNodes (pre.length + 1 + l.size) (pb + l.flattenIndices.length) ++ suf) pb
    have hr := ihr (pre ++ [Node.internal a s (pre.length + 1 + l.size)] ++
      l.flattenNodes (pre.length + 1) pb) suf (pb + l.flattenIndices.length)
    simp only [List.length_append, List.length_singleton, List.length_cons, List.length_nil,
      BuildTree.flattenNodes_length, List.append_assoc, List.singleton_append,
      List.cons_append, List.nil_append] at hl hr
    simp only [BuildTree.flattenNodes, BuildTree.size, List.append_assoc, List.cons_append]
    refine PreOrder.internal _ _ a s (pre.length + 1 + l.size) (get?_append_cons _ _ _) hl ?_
    have e : pre.length + (1 + l.size + r.size) = pre.length + 1 + l.size + r.size := by omega
    have e2 : pre.length + (l.size + 1) = pre.length + 1 + l.size := by omega
    rw [e]
    rw [e2] at hr
    exact hr

/-- The node array of a store built from a non-empty triangle array is in pre-order layout. -/
theorem build_preorder (tris : List (Triangle K)) (cfg : Config K) (hne : tris ≠ []) :
    PreOrder (KdTreeStore.build tris cfg).m_nodes 0 (KdTreeStore.build tris cfg).m_nodes.length := by
  rcases build_cases tris cfg with ⟨h, -⟩ | ⟨-, box, -, h⟩
  · exact absurd h hne
  · rw [h]
    simp only
    have := flattenNodes_preorder
      (buildNode tris cfg (9 * tris.length + 1) box (List.range tris.length) 1) [] [] 0
    simpa [BuildTree.flattenNodes_length] using this

theorem sampleNodes_preorder : PreOrder sampleNodes 0 sampleNodes.length :=
  PreOrder.internal 0 5 0 (1 / 2) 4 rfl
    (PreOrder.internal 1 4 1 3 3 rfl (PreOrder.leaf 2 0 2 rfl) (PreOrder.leaf 3 2 1 rfl))
    (PreOrder.leaf 4 3 5 rfl)

theorem range_eq_Ico_zero (n : Nat) : List.range n = List.Ico 0 n := by
  rw [List.Ico.zero_bot]

end KdTree

/-- What `dump` writes for a store whose node array is in pre-order layout. -/
theorem KdTree.dump_of_preorder (showFloat : K → String) (kd : KdTreeStore K)
    (hp : KdTree.PreOrder kd.m_nodes 0 kd.m_nodes.length) :
    ∃ depth : Nat → Nat, depth 0 = 0 ∧
      (∀ p c, p < kd.m_nodes.length → KdTree.IsChild kd.m_nodes p c → depth c = depth p + 1) ∧
      ∀ os fuel, kd.m_nodes.length ≤ fuel →
        kd.dump showFloat fuel os = KdTree.Run.ok (os ++ KdTree.text
          ((List.range kd.m_nodes.length).map
            (fun n => KdTree.dumpEntry showFloat kd.m_nodes n (depth n)))) := by
  obtain ⟨d, h0, hc, hd⟩ := KdTree.dump_node_dump_preorder showFloat hp 0
  refine ⟨d, h0, fun p c hpl hpc => hc p c (Nat.zero_le _) hpl hpc, fun os fuel hf => ?_⟩
  unfold KdTreeStore.dump
  rw [KdTree.range_eq_Ico_zero]
  exact hd os fuel (by omega)

/-- What `dump_graph` writes for a store whose node array is in pre-order layout. -/
theorem KdTree.dump_graph_of_preorder (showFloat : K → String) (kd : KdTreeStore K)
    (hp : KdTree.PreOrder kd.m_nodes 0 kd.m_nodes.length) :
    ∃ par : Nat → Nat,
      (∀ p c, p < kd.m_nodes.length → KdTree.IsChild kd.m_nodes p c → par c = p) ∧
      ∀ os fuel, kd.m_nodes.length ≤ fuel →
        kd.dump_graph showFloat fuel os = KdTree.Run.ok (os ++ "digraph kdtree \x7b\n" ++
          "\tnode[group=\"\", shape=none, style=\"rounded,filled\", fontcolor=\"#101010\"]\n" ++
          KdTree.text ((List.range kd.m_nodes.length).map
            (fun n => KdTree.graphEntry showFloat kd.m_nodes n (par n))) ++ "\x7d") := by
  obtain ⟨p, -, hc, hg⟩ := KdTree.dump_graph_node_dump_preorder showFloat hp 0
  refine ⟨p, fun q c hql hqc => hc q c (Nat.zero_le _) hql hqc, fun os fuel hf => ?_⟩
  unfold KdTreeStore.dump_graph
  simp only
  rw [hg _ fuel (by omega), KdTree.range_eq_Ico_zero]

/-- C12, on the empty tree: `build` of an empty triangle array gives a store with zero nodes,
and both `dump` and `dump_graph` throw `std::out_of_range` on it, from `m_nodes.at(0)`. -/
theorem KdTree.dump_empty_tree_throws :
    (KdTreeStore.build ([] : List (Triangle ℚ)) ⟨1, 80, 5, 50⟩).m_nodes = [] ∧
    (KdTreeStore.build ([] : List (Triangle ℚ)) ⟨1, 80, 5, 50⟩).dump showRat 1 "" =
      KdTree.Run.out_of_range ∧
    (KdTreeStore.build ([] : List (Triangle ℚ)) ⟨1, 80, 5, 50⟩).dump_graph showRat 1 "" =
      KdTree.Run.out_of_range :=
  ⟨rfl, rfl, rfl⟩

/-- C12, amended: on every store that `build` makes of a non-empty triangle array `dump` and
`dump_graph` return without an exception, the recursion ending within as many calls as the
store has nodes. -/
theorem KdTree.dump_completes_on_built_store (showFloat : K → String)
    (tris : List (Triangle K)) (cfg : KdTree.Config K) (os : String) (hne : tris ≠ []) :
    ∃ out graph, ∀ fuel, (KdTreeStore.build tris cfg).m_nodes.length ≤ fuel →
      (KdTreeStore.build tris cfg).dump showFloat fuel os = KdTree.Run.ok out ∧
      (KdTreeStore.build tris cfg).dump_graph showFloat fuel os = KdTree.Run.ok graph := by
  have hp := KdTree.build_preorder tris cfg hne
  obtain ⟨d, -, -, hd⟩ := KdTree.dump_of_preorder showFloat _ hp
  obtain ⟨p, -, hg⟩ := KdTree.dump_graph_of_preorder showFloat _ hp
  exact ⟨_, _, fun fuel hf => ⟨hd os fuel hf, hg os fuel hf⟩⟩

/-- C12, witness: the store built from two triangles. -/
theorem KdTree.dump_completes_on_built_store_witness :
    ([⟨⟨0, 0, 0⟩, ⟨1, 0, 0⟩, ⟨0, 1, 0⟩⟩, ⟨⟨10, 0, 0⟩, ⟨11, 0, 0⟩, ⟨10, 1, 0⟩⟩] :
      List (Triangle ℚ)) ≠ [] ∧
    ∃ out graph, ∀ fuel,
      (KdTreeStore.build
        ([⟨⟨0, 0, 0⟩, ⟨1, 0, 0⟩, ⟨0, 1, 0⟩⟩, ⟨⟨10, 0, 0⟩, ⟨11, 0, 0⟩, ⟨10, 1, 0⟩⟩] :
          List (Triangle ℚ)) ⟨1, 80, 5, 1⟩).m_nodes.length ≤ fuel →
      (KdTreeStore.build
        ([⟨⟨0, 0, 0⟩, ⟨1, 0, 0⟩, ⟨0, 1, 0⟩⟩, ⟨⟨10, 0, 0⟩, ⟨11, 0, 0⟩, ⟨10, 1, 0⟩⟩] :
          List (Triangle ℚ)) ⟨1, 80, 5, 1⟩).dump showRat fuel "" = KdTree.Run.ok out ∧
      (KdTreeStore.build
        ([⟨⟨0, 0, 0⟩, ⟨1, 0, 0⟩, ⟨0, 1, 0⟩⟩, ⟨⟨10, 0, 0⟩, ⟨11, 0, 0⟩, ⟨10, 1, 0⟩⟩] :
          List (Triangle ℚ)) ⟨1, 80, 5, 1⟩).dump_graph showRat fuel "" = KdTree.Run.ok graph :=
  ⟨List.cons_ne_nil _ _,
    KdTree.dump_completes_on_built_store showRat _ _ "" (List.cons_ne_nil _ _)⟩

/-- C13: for a store whose node array is a well-formed tree (pre-order layout), `dump` writes
one entry per node: the indentation of its depth, `Node n`, its type, then for an internal
node the split axis and position and the depth (printed a second time as `Height`), for a
leaf the range `primitive_start : primitive_start + primitive_count`. -/
theorem KdTree.dump_prints_each_node (showFloat : K → String) (kd : KdTreeStore K)
    (os : String) (hwf : KdTree.PreOrder kd.m_nodes 0 kd.m_nodes.length) :
    ∃ (depth : Nat → Nat) (entry : Nat → String),
      (∀ n, n < kd.m_nodes.length → KdTree.AtDepth kd.m_nodes n (depth n)) ∧
      (∀ fuel, kd.m_nodes.length ≤ fuel →
        kd.dump showFloat fuel os =
          KdTree.Run.ok (os ++ KdTree.text ((List.range kd.m_nodes.length).map entry))) ∧
      (∀ n axis split next, kd.m_nodes.get? n = some (KdTree.Node.internal axis split next) →
        entry n = KdTree.tab (depth n) ++ "Node " ++ toString n ++
          "[internal, SplitPosition at " ++ KdTree.axisChar axis ++ "=" ++ showFloat split ++
          "]\nDepth: " ++ toString (depth n) ++ "Height: " ++ toString (depth n) ++ "\n") ∧
      (∀ n start count, kd.m_nodes.get? n = some (KdTree.Node.leaf start count) →
        entry n = KdTree.tab (depth n) ++ "Node " ++ toString n ++ "[leaf, " ++
          toString start ++ ":" ++ toString ((start + count) % 4294967296) ++ "]\n") := by
  obtain ⟨depth, h0, hc, hrun⟩ := KdTree.dump_of_preorder showFloat kd hwf
  refine ⟨depth, fun n => KdTree.dumpEntry showFloat kd.m_nodes n (depth n), fun n hn => ?_,
    hrun os, fun n a s next hg => ?_, fun n st c hg => ?_⟩
  · exact (KdTree.atDepth_iff hwf depth h0 (fun p c _ hp hpc => hc p c hp hpc) n _ hn).2 rfl
  · have e1 : ("[internal, SplitPosition at " : String) =
        "[" ++ "internal, " ++ "SplitPosition at " := by decide
    have e2 : ("]\nDepth: " : String) = "]\n" ++ "Depth: " := by decide
    simp only [KdTree.dumpEntry, hg]
    rw [e1, e2]
    simp only [String.append_assoc]
  · have e1 : ("[leaf, " : String) = "[" ++ "leaf, " := by decide
    simp only [KdTree.dumpEntry, hg]
    rw [e1]
    simp only [String.append_assoc]

/-- C13, witness: the five-node array `sampleNodes`. -/
theorem KdTree.dump_prints_each_node_witness :
    KdTree.PreOrder sampleStore.m_nodes 0 sampleStore.m_nodes.length ∧
    ∃ (depth : Nat → Nat) (entry : Nat → String),
      sampleStore.dump showRat 5 "" = KdTree.Run.ok
        ("" ++ KdTree.text ((List.range sampleStore.m_nodes.length).map entry)) ∧
      entry 1 = KdTree.tab (depth 1) ++ "Node " ++ toString 1 ++
          "[internal, SplitPosition at " ++ KdTree.axisChar 1 ++ "=" ++ showRat 3 ++
          "]\nDepth: " ++ toString (depth 1) ++ "Height: " ++ toString (depth 1) ++ "\n" ∧
      entry 4 = KdTree.tab (depth 4) ++ "Node " ++ toString 4 ++ "[leaf, " ++
          toString 3 ++ ":" ++ toString ((3 + 5) % 4294967296) ++ "]\n" ∧
      sampleStore.dump showRat 5 "" = KdTree.Run.ok
        ("Node 0[internal, SplitPosition at x=1/2]\nDepth: 0Height: 0\n" ++
          "  Node 1[internal, SplitPosition at y=3/1]\nDepth: 1Height: 1\n" ++
          "    Node 2[leaf, 0:2]\n" ++ "    Node 3[leaf, 2:3]\n" ++ "  Node 4[leaf, 3:8]\n") := by
  refine ⟨KdTree.sampleNodes_preorder, ?_⟩
  obtain ⟨depth, entry, -, hrun, hint, hleaf⟩ :=
    KdTree.dump_prints_each_node showRat sampleStore "" KdTree.sampleNodes_preorder
  exact ⟨depth, entry, hrun 5 (le_refl _), hint 1 1 3 3 rfl, hleaf 4 3 5 rfl, by decide!⟩

/-- C19: for a node array in pre-order layout `dump` writes exactly one entry for every index
`n` of the array, in increasing order of the index and nothing else: the output is the
concatenation over `n = 0 .. |nodes|-1` of two spaces per level of the depth of node `n`,
`Node n`, and the one description of node `n` (for an internal node the split and the depth
lines, for a leaf its range). -/
theorem KdTree.dump_preorder_entries (showFloat : K → String) (kd : KdTreeStore K)
    (os : String) (hwf : KdTree.PreOrder kd.m_nodes 0 kd.m_nodes.length) :
    ∃ (depth : Nat → Nat) (rest : Nat → String),
      (∀ n d, n < kd.m_nodes.length → (KdTree.AtDepth kd.m_nodes n d ↔ d = depth n)) ∧
      (∀ n axis split next, kd.m_nodes.get? n = some (KdTree.Node.internal axis split next) →
        rest n = "[internal, SplitPosition at " ++ KdTree.axisChar axis ++ "=" ++
          showFloat split ++ "]\nDepth: " ++ toString (depth n) ++ "Height: " ++
          toString (depth n) ++ "\n") ∧
      (∀ n start count, kd.m_nodes.get? n = some (KdTree.Node.leaf start count) →
        rest n = "[leaf, " ++ toString start ++ ":" ++
          toString ((start + count) % 4294967296) ++ "]\n") ∧
      ∀ fuel, kd.m_nodes.length ≤ fuel →
        kd.dump showFloat fuel os =
          KdTree.Run.ok (os ++ KdTree.text ((List.range kd.m_nodes.length).map (fun n =>
            String.mk (List.replicate (2 * depth n) (Char.ofNat 32)) ++ "Node " ++
              toString n ++ rest n))) := by
  obtain ⟨depth, h0, hc, hrun⟩ := KdTree.dump_of_preorder showFloat kd hwf
  refine ⟨depth, fun n =>
    match kd.m_nodes.get? n with
    | none => ""
    | some (KdTree.Node.internal axis split _) =>
      "[" ++ "internal, " ++ "SplitPosition at " ++
        KdTree.axisChar axis ++ "=" ++ showFloat split ++ "]\n" ++ "Depth: " ++
        toString (depth n) ++ "Height: " ++ toString (depth n) ++ "\n"
    | some (KdTree.Node.leaf start count) =>
      "[" ++ "leaf, " ++ toString start ++ ":" ++
        toString ((start + count) % 4294967296) ++ "]\n",
    KdTree.atDepth_iff hwf depth h0 (fun p c _ hp hpc => hc p c hp hpc),
    fun n a s next hg => ?_, fun n st c hg => ?_, fun fuel hf => ?_⟩
  · have e1 : ("[internal, SplitPosition at " : String) =
        "[" ++ "internal, " ++ "SplitPosition at " := by decide
    have e2 : ("]\nDepth: " : String) = "]\n" ++ "Depth: " := by decide
    simp only [hg]
    rw [e1, e2]
    simp only [String.append_assoc]
  · have e1 : ("[leaf, " : String) = "[" ++ "leaf, " := by decide
    simp only [hg]
    rw [e1]
  · rw [hrun os fuel hf]
    congr 3
    apply List.map_congr_left
    intro n hn
    rw [List.mem_range] at hn
    obtain ⟨node, hnode⟩ := hwf.node_at n (Nat.zero_le _) hn
    rcases node with ⟨st, c⟩ | ⟨a, s, nx⟩
    · simp only [KdTree.dumpEntry, hnode, KdTree.tab, String.append_assoc, Nat.mul_comm]
    · simp only [KdTree.dumpEntry, hnode, KdTree.tab, String.append_assoc, Nat.mul_comm]

/-- C19, witness: the five-node array `sampleNodes`. -/
theorem KdTree.dump_preorder_entries_witness :
    KdTree.PreOrder sampleStore.m_nodes 0 sampleStore.m_nodes.length ∧
    ∃ (depth : Nat → Nat) (rest : Nat → String),
      (∀ d, KdTree.AtDepth sampleStore.m_nodes 3 d ↔ d = depth 3) ∧
      rest 1 = "[internal, SplitPosition at " ++ KdTree.axisChar 1 ++ "=" ++
        showRat 3 ++ "]\nDepth: " ++ toString (depth 1) ++ "Height: " ++
        toString (depth 1) ++ "\n" ∧
      rest 4 = "[leaf, " ++ toString 3 ++ ":" ++ toString ((3 + 5) % 4294967296) ++ "]\n" ∧
      sampleStore.dump showRat 5 "" =
        KdTree.Run.ok ("" ++ KdTree.text ((List.range sampleStore.m_nodes.length).map (fun n =>
          String.mk (List.replicate (2 * depth n) (Char.ofNat 32)) ++ "Node " ++
            toString n ++ rest n))) ∧
      sampleStore.dump showRat 5 "" = KdTree.Run.ok
        ("Node 0[internal, SplitPosition at x=1/2]\nDepth: 0Height: 0\n" ++
          "  Node 1[internal, SplitPosition at y=3/1]\nDepth: 1Height: 1\n" ++
          "    Node 2[leaf, 0:2]\n" ++ "    Node 3[leaf, 2:3]\n" ++ "  Node 4[leaf, 3:8]\n") := by
  refine ⟨KdTree.sampleNodes_preorder, ?_⟩
  obtain ⟨depth, rest, hd, hint, hleaf, hrun⟩ :=
    KdTree.dump_preorder_entries showRat sampleStore "" KdTree.sampleNodes_preorder
  exact ⟨depth, rest, fun d => hd 3 d (by decide), hint 1 1 3 3 rfl, hleaf 4 3 5 rfl,
    hrun 5 (le_refl _), by decide!⟩

/-- C14: for a store whose node array is a well-formed non-empty tree (pre-order layout)
`dump_graph` writes `digraph kdtree {`, the attribute line, then for every node `n` in
increasing order the declaration `NODEn[label=...]` (split axis and position and the number
of triangles below for an internal node, the triangle count for a leaf) followed, unless `n`
is the root, by the edge `NODEp -> NODEn` from its parent, then `}`. The edges are exactly
the pairs parent, child: every pair has its edge at the entry of the child, every edge joins
a parent and its child, and no child is the root. -/
theorem KdTree.dump_graph_spec (showFloat : K → String) (kd : KdTreeStore K)
    (os : String) (hwf : KdTree.PreOrder kd.m_nodes 0 kd.m_nodes.length) :
    ∃ (parent count : Nat → Nat) (decl : Nat → String),
      (∀ fuel, kd.m_nodes.length ≤ fuel →
        kd.dump_graph showFloat fuel os =
          KdTree.Run.ok (os ++ "digraph kdtree \x7b\n" ++
            "\tnode[group=\"\", shape=none, style=\"rounded,filled\", fontcolor=\"#101010\"]\n" ++
            KdTree.text ((List.range kd.m_nodes.length).map (fun n =>
              decl n ++ (if n ≠ 0 then
                "\tNODE" ++ toString (parent n) ++ " -> NODE" ++ toString n ++ ";\n"
              else ""))) ++ "\x7d")) ∧
      (∀ n axis split next, kd.m_nodes.get? n = some (KdTree.Node.internal axis split next) →
        decl n = "\tNODE" ++ toString n ++ "[label=\"SplitPosition: " ++
          KdTree.axisChar axis ++ " at " ++ showFloat split ++ "\\n" ++ toString (count n) ++
          " subtriangles\"];\n") ∧
      (∀ n start count, kd.m_nodes.get? n = some (KdTree.Node.leaf start count) →
        decl n = "\tNODE" ++ toString n ++ "[label=\"" ++ toString count ++
          " triangles\"];\n") ∧
      (∀ p c, KdTree.IsChild kd.m_nodes p c →
        0 < c ∧ c < kd.m_nodes.length ∧ parent c = p) ∧
      (∀ c, 0 < c → c < kd.m_nodes.length → KdTree.IsChild kd.m_nodes (parent c) c) := by
  obtain ⟨par, hc, hrun⟩ := KdTree.dump_graph_of_preorder showFloat kd hwf
  have hlt : ∀ p c, KdTree.IsChild kd.m_nodes p c → p < kd.m_nodes.length := by
    intro p c hpc
    obtain ⟨a, s, nx, hn, -⟩ := hpc
    exact (List.get?_eq_some.mp hn).1
  refine ⟨par, KdTree.subtreeCount kd.m_nodes, fun n =>
    "\t" ++ ("NODE" ++ toString n) ++ "[label=\"" ++
    (match kd.m_nodes.get? n with
      | none => ""
      | some (KdTree.Node.internal axis split _) =>
        "SplitPosition: " ++ KdTree.axisChar axis ++ " at " ++ showFloat split ++ "\\n" ++
          toString (KdTree.subtreeCount kd.m_nodes n) ++ " subtriangles"
      | some (KdTree.Node.leaf _ count) => toString count ++ " triangles") ++ "\"];\n",
    fun fuel hf => ?_, fun n a s next hg => ?_, fun n st c hg => ?_, fun p c hpc => ?_,
    fun c h0 hcl => ?_⟩
  · rw [hrun os fuel hf]
    congr 4
    apply List.map_congr_left
    intro n _
    have e1 : ("\tNODE" : String) = "\t" ++ "NODE" := by decide
    have e2 : (" -> NODE" : String) = " -> " ++ "NODE" := by decide
    unfold KdTree.graphEntry
    rw [e1, e2]
    by_cases h0 : n = 0
    · simp only [h0, ne_eq, not_true_eq_false, if_false]
    · simp only [h0, ne_eq, not_false_eq_true, if_true, String.append_assoc]
  · have e1 : ("\tNODE" : String) = "\t" ++ "NODE" := by decide
    have e2 : ("[label=\"SplitPosition: " : String) = "[label=\"" ++ "SplitPosition: " := by
      decide
    have e3 : (" subtriangles\"];\n" : String) = " subtriangles" ++ "\"];\n" := by decide
    simp only [hg]
    rw [e1, e2, e3]
    simp only [String.append_assoc]
  · have e1 : ("\tNODE" : String) = "\t" ++ "NODE" := by decide
    have e3 : (" triangles\"];\n" : String) = " triangles" ++ "\"];\n" := by decide
    simp only [hg]
    rw [e1, e3]
    simp only [String.append_assoc]
  · have hp := hlt p c hpc
    have := hwf.child_in p c (Nat.zero_le _) hp hpc
    exact ⟨by omega, this.2, hc p c hp hpc⟩
  · obtain ⟨p, -, hp, hpc⟩ := hwf.has_parent c h0 hcl
    rw [hc p c (by omega) hpc]
    exact hpc

/-- C14, witness: the five-node array `sampleNodes`. -/
theorem KdTree.dump_graph_spec_witness :
    KdTree.PreOrder sampleStore.m_nodes 0 sampleStore.m_nodes.length ∧
    ∃ (parent : Nat → Nat) (decl : Nat → String),
      sampleStore.dump_graph showRat 5 "" =
        KdTree.Run.ok ("" ++ "digraph kdtree \x7b\n" ++
          "\tnode[group=\"\", shape=none, style=\"rounded,filled\", fontcolor=\"#101010\"]\n" ++
          KdTree.text ((List.range sampleStore.m_nodes.length).map (fun n =>
            decl n ++ (if n ≠ 0 then
              "\tNODE" ++ toString (parent n) ++ " -> NODE" ++ toString n ++ ";\n"
            else ""))) ++ "\x7d") ∧
      parent 1 = 0 ∧ parent 2 = 1 ∧ parent 3 = 1 ∧ parent 4 = 0 ∧
      sampleStore.dump_graph showRat 5 "" = KdTree.Run.ok
        ("digraph kdtree \x7b\n" ++
          "\tnode[group=\"\", shape=none, style=\"rounded,filled\", fontcolor=\"#101010\"]\n" ++
          "\tNODE0[label=\"SplitPosition: x at 1/2\\n8 subtriangles\"];\n" ++
          "\tNODE1[label=\"SplitPosition: y at 3/1\\n3 subtriangles\"];\n" ++
          "\tNODE0 -> NODE1;\n" ++
          "\tNODE2[label=\"2 triangles\"];\n" ++ "\tNODE1 -> NODE2;\n" ++
          "\tNODE3[label=\"1 triangles\"];\n" ++ "\tNODE1 -> NODE3;\n" ++
          "\tNODE4[label=\"5 triangles\"];\n" ++ "\tNODE0 -> NODE4;\n" ++ "\x7d") := by
  refine ⟨KdTree.sampleNodes_preorder, ?_⟩
  obtain ⟨parent, count, decl, hrun, -, -, hpc, -⟩ :=
    KdTree.dump_graph_spec showRat sampleStore "" KdTree.sampleNodes_preorder
  exact ⟨parent, decl, hrun 5 (le_refl _),
    (hpc 0 1 ⟨0, 1 / 2, 4, rfl, Or.inl rfl⟩).2.2, (hpc 1 2 ⟨1, 3, 3, rfl, Or.inl rfl⟩).2.2,
    (hpc 1 3 ⟨1, 3, 3, rfl, Or.inr rfl⟩).2.2, (hpc 0 4 ⟨0, 1 / 2, 4, rfl, Or.inr rfl⟩).2.2,
    by decide!⟩

end CS350

namespace CS350

variable {K : Type} [LinearOrderedField K]

/-- `IntersectionTimeRayPlane` when the ray is not near-parallel to the plane. -/
theorem IntersectionTimeRayPlane_of_not_parallel (s dir n : Vec3 K) (d : K)
    (h : ¬ |dot dir n| < cEpsilon) :
    dot n dir ≠ 0 ∧
    IntersectionTimeRayPlane s dir n d =
      if -(dot n s - d) / dot n dir > 0 then -(dot n s - d) / dot n dir else -1 := by
  constructor
  · intro h0
    rw [dot_comm dir n, h0, abs_zero] at h
    exact h cEpsilon_pos
  · unfold IntersectionTimeRayPlane
    rw [glm_abs_eq_abs, if_neg h]

/-- A value of `IntersectionTimeRayPlane` other than -1 is the positive parameter at which the
ray meets the plane `n . x = d`. -/
theorem IntersectionTimeRayPlane_hit (s dir n : Vec3 K) (d : K)
    (h : IntersectionTimeRayPlane s dir n d ≠ -1) :
    0 < IntersectionTimeRayPlane s dir n d ∧
    dot n (rayPoint s dir (IntersectionTimeRayPlane s dir n d)) = d := by
  by_cases hp : |dot dir n| < cEpsilon
  · exfalso
    apply h
    unfold IntersectionTimeRayPlane
    rw [glm_abs_eq_abs, if_pos hp]
  · obtain ⟨hne, he⟩ := IntersectionTimeRayPlane_of_not_parallel s dir n d hp
    rw [he] at h ⊢
    by_cases ht : -(dot n s - d) / dot n dir > 0
    · rw [if_pos ht]
      refine ⟨ht, ?_⟩
      rw [dot_rayPoint]
      field_simp
    · rw [if_neg ht] at h
      exact absurd rfl h

/-- C21: `IntersectionTimeRayPlane` returns -1 or a strictly positive `t`; a value other than
-1 is a parameter at which the point `s + t * dir` is on the plane `n . x = d`; the value is
-1 when `|dir . n| < 1e-5`, and when the ray meets the plane at a parameter `t <= 0`, as a ray
does whose origin is on the plane. -/
theorem IntersectionTimeRayPlane_spec (s dir n : Vec3 K) (d : K) :
    (IntersectionTimeRayPlane s dir n d = -1 ∨ 0 < IntersectionTimeRayPlane s dir n d) ∧
    (IntersectionTimeRayPlane s dir n d ≠ -1 →
      dot n (rayPoint s dir (IntersectionTimeRayPlane s dir n d)) = d) ∧
    (|dot dir n| < 1 / 100000 → IntersectionTimeRayPlane s dir n d = -1) ∧
    (∀ t, t ≤ 0 → dot n (rayPoint s dir t) = d → IntersectionTimeRayPlane s dir n d = -1) ∧
    (dot n s = d → IntersectionTimeRayPlane s dir n d = -1) := by
  have hpar : |dot dir n| < 1 / 100000 → IntersectionTimeRayPlane s dir n d = -1 := by
    intro hp
    have hp2 : |dot dir n| < cEpsilon := hp
    unfold IntersectionTimeRayPlane
    rw [glm_abs_eq_abs, if_pos hp2]
  have hback : ∀ t, t ≤ 0 → dot n (rayPoint s dir t) = d →
      IntersectionTimeRayPlane s dir n d = -1 := by
    intro t ht hpl
    by_cases hp : |dot dir n| < cEpsilon
    · exact hpar hp
    · obtain ⟨hne, he⟩ := IntersectionTimeRayPlane_of_not_parallel s dir n d hp
      rw [he, if_neg]
      rw [dot_rayPoint] at hpl
      have : -(dot n s - d) / dot n dir = t := by
        rw [← hpl]
        field_simp
      rw [this]
      exact not_lt.mpr ht
  refine ⟨?_, fun h => (IntersectionTimeRayPlane_hit s dir n d h).2, hpar, hback, fun h0 => ?_⟩
  · by_cases h : IntersectionTimeRayPlane s dir n d = -1
    · exact Or.inl h
    · exact Or.inr (IntersectionTimeRayPlane_hit s dir n d h).1
  · apply hback 0 (le_refl _)
    rw [dot_rayPoint, h0]
    ring

/-- C28: at the point where `IntersectionTimeRayPlane` finds the plane `n . x = d`,
`ClassifyPlanePoint` with the same `n` and `d` tests `n . p + d = 2 * d`: the point is
`eINSIDE` when `d > 0`, `eOUTSIDE` when `d < 0`, and `eOVERLAPPING` exactly when `d = 0`. -/
theorem ClassifyPlanePoint_at_ray_hit (s dir n : Vec3 K) (d : K)
    (h : IntersectionTimeRayPlane s dir n d ≠ -1) :
    dot n (rayPoint s dir (IntersectionTimeRayPlane s dir n d)) + d = 2 * d ∧
    (0 < d → ClassifyPlanePoint n d (rayPoint s dir (IntersectionTimeRayPlane s dir n d)) =
      SideResult.eINSIDE) ∧
    (d < 0 → ClassifyPlanePoint n d (rayPoint s dir (IntersectionTimeRayPlane s dir n d)) =
      SideResult.eOUTSIDE) ∧
    (ClassifyPlanePoint n d (rayPoint s dir (IntersectionTimeRayPlane s dir n d)) =
      SideResult.eOVERLAPPING ↔ d = 0) := by
  have hd := (IntersectionTimeRayPlane_hit s dir n d h).2
  unfold ClassifyPlanePoint
  simp only [hd]
  have e : d + d = 2 * d := by ring
  refine ⟨e, fun hp => ?_, fun hn => ?_, ?_⟩
  · rw [if_pos (by linarith)]
  · rw [if_neg (by linarith), if_pos (by linarith)]
  · constructor
    · intro hc
      by_contra hne
      rcases lt_or_gt_of_ne hne with hn | hp
      · rw [if_neg (by linarith), if_pos (by linarith)] at hc
        cases hc
      · rw [if_pos (by linarith)] at hc
        cases hc
    · intro h0
      subst h0
      simp

/-- C28, witness: the ray from the origin along `x` and the plane `x = 2`. -/
theorem ClassifyPlanePoint_at_ray_hit_witness :
    IntersectionTimeRayPlane (⟨0, 0, 0⟩ : Vec3 ℚ) ⟨1, 0, 0⟩ ⟨1, 0, 0⟩ 2 = 2 ∧
    ClassifyPlanePoint (⟨1, 0, 0⟩ : Vec3 ℚ) 2
      (rayPoint ⟨0, 0, 0⟩ ⟨1, 0, 0⟩
        (IntersectionTimeRayPlane (⟨0, 0, 0⟩ : Vec3 ℚ) ⟨1, 0, 0⟩ ⟨1, 0, 0⟩ 2)) =
      SideResult.eINSIDE :=
  ⟨by decide!,
    (ClassifyPlanePoint_at_ray_hit (⟨0, 0, 0⟩ : Vec3 ℚ) ⟨1, 0, 0⟩ ⟨1, 0, 0⟩ 2
      (by decide!)).2.1 (by decide!)⟩

/-- C22, evaluated on the code: for a non-degenerate triangle `ClassifyPointTriangle` returns
false at every point. The three edge quantities add up to the squared length of the normal, so
one of them is positive, and the function returns false on a positive one. -/
theorem ClassifyPointTriangle_false (point p1 p2 p3 : Vec3 K)
    (hnd : cross (Vec3.sub p2 p1) (Vec3.sub p3 p1) ≠ ⟨0, 0, 0⟩) :
    ClassifyPointTriangle point p1 p2 p3 = false := by
  have hsum := edgeSide_sum p1 p2 p3 point
  have hpos := dot_self_pos _ hnd
  unfold edgeSide at hsum
  unfold ClassifyPointTriangle
  simp only
  split_ifs with h1 h2
  · rfl
  · rfl
  · exfalso
    push_neg at h2
    obtain ⟨a, b, c⟩ := h2
    linarith

/-- C22, the failing input: the point `(0.25, 0.25, 0)` of the triangle
`((0,0,0), (1,0,0), (0,1,0))`, for which `false` is returned. -/
theorem ClassifyPointTriangle_false_witness :
    cross (Vec3.sub (⟨1, 0, 0⟩ : Vec3 ℚ) ⟨0, 0, 0⟩) (Vec3.sub ⟨0, 1, 0⟩ ⟨0, 0, 0⟩) ≠ ⟨0, 0, 0⟩ ∧
    InTriangle (⟨0, 0, 0⟩ : Vec3 ℚ) ⟨1, 0, 0⟩ ⟨0, 1, 0⟩ ⟨1 / 4, 1 / 4, 0⟩ ∧
    ClassifyPointTriangle (⟨1 / 4, 1 / 4, 0⟩ : Vec3 ℚ) ⟨0, 0, 0⟩ ⟨1, 0, 0⟩ ⟨0, 1, 0⟩ = false :=
  ⟨by decide!, ⟨1 / 2, 1 / 4, 1 / 4, by norm_num, by norm_num, by norm_num, by norm_num,
      by simp [Vec3.add, Vec3.smul]⟩,
    ClassifyPointTriangle_false _ _ _ _ (by decide!)⟩

end CS350

namespace CS350

variable {K : Type} [LinearOrderedField K]

/-- The loop of `SupportFunction` keeps the first point of the largest dot product: after the
points `pre` and then `rest`, the pair holds a point of `pre ++ rest` at an index `i`, its dot
product, no point has a larger one and no point before `i` has an equal one. -/
theorem foldl_supportStep (dir : Vec3 K) (rest : List (Vec3 K)) :
    ∀ (pre : List (Vec3 K)) (acc : Vec3 K × K) (i : Nat),
      pre.get? i = some acc.1 → acc.2 = dot acc.1 dir →
      (∀ p ∈ pre, dot p dir ≤ acc.2) →
      (∀ j p, j < i → pre.get? j = some p → dot p dir < acc.2) →
      ∃ i2, (pre ++ rest).get? i2 = some (rest.foldl (supportStep dir) acc).1 ∧
        (∀ p ∈ pre ++ rest, dot p dir ≤ dot (rest.foldl (supportStep dir) acc).1 dir) ∧
        (∀ j p, j < i2 → (pre ++ rest).get? j = some p →
          dot p dir < dot (rest.foldl (supportStep dir) acc).1 dir) := by
  induction rest with
  | nil =>
    intro pre acc i hi hacc hmax hfirst
    refine ⟨i, by simpa using hi, ?_, ?_⟩
    · intro p hp
      rw [List.foldl_nil, ← hacc]
      exact hmax p (by simpa using hp)
    · intro j p hj hp
      rw [List.foldl_nil, ← hacc]
      exact hfirst j p hj (by simpa using hp)
  | cons q rest ih =>
    intro pre acc i hi hacc hmax hfirst
    have hilt : i < pre.length := (List.get?_eq_some.mp hi).1
    rw [List.foldl_cons]
    have happ : pre ++ q :: rest = (pre ++ [q]) ++ rest := by simp
    rw [happ]
    by_cases hq : dot q dir > acc.2
    · have hstep : supportStep dir acc q = (q, dot q dir) := by
        unfold supportStep
        simp only
        rw [if_pos hq]
      rw [hstep]
      apply ih (pre ++ [q]) (q, dot q dir) pre.length
      · rw [List.get?_eq_getElem?, List.getElem?_append_right (le_refl _)]
        simp
      · rfl
      · intro p hp
        rw [List.mem_append, List.mem_singleton] at hp
        rcases hp with hp | rfl
        · exact le_trans (hmax p hp) hq.le
        · exact le_refl _
      · intro j p hj hp
        rw [List.get?_eq_getElem?, List.getElem?_append_left hj] at hp
        have hp2 : pre.get? j = some p := by rw [List.get?_eq_getElem?]; exact hp
        exact lt_of_le_of_lt (hmax p (List.get?_mem hp2)) hq
    · have hstep : supportStep dir acc q = acc := by
        unfold supportStep
        simp only
        rw [if_neg hq]
      rw [hstep]
      apply ih (pre ++ [q]) acc i
      · rw [List.get?_eq_getElem?, List.getElem?_append_left hilt, ← List.get?_eq_getElem?]
        exact hi
      · exact hacc
      · intro p hp
        rw [List.mem_append, List.mem_singleton] at hp
        rcases hp with hp | rfl
        · exact hmax p hp
        · exact not_lt.mp hq
      · intro j p hj hp
        rw [List.get?_eq_getElem?, List.getElem?_append_left (by omega)] at hp
        exact hfirst j p hj (by rw [List.get?_eq_getElem?]; exact hp)

/-- C23: on a non-empty point list `SupportFunction` returns an element `q` of the list with
`dot(q, dir) >= dot(p, dir)` for every point `p` of the list, the one of the lowest index
among the points that attain the maximum. -/
theorem SupportFunction_spec (points : List (Vec3 K)) (dir : Vec3 K) (hne : points ≠ []) :
    ∃ i q, SupportFunction points dir = some q ∧ points.get? i = some q ∧
      (∀ p ∈ points, dot p dir ≤ dot q dir) ∧
      (∀ j p, j < i → points.get? j = some p → dot p dir < dot q dir) := by
  cases points with
  | nil => exact absurd rfl hne
  | cons p0 rest =>
    obtain ⟨i, h1, h2, h3⟩ := foldl_supportStep dir rest [p0] (p0, dot p0 dir) 0 rfl rfl
      (by intro p hp; rw [List.mem_singleton] at hp; subst hp; exact le_refl _)
      (by intro j p hj; omega)
    exact ⟨i, _, rfl, h1, h2, h3⟩

/-- C23, witness: two points attain the maximum along `x`, the first of them is returned. -/
theorem SupportFunction_spec_witness :
    ([⟨1, 0, 0⟩, ⟨2, 0, 0⟩, ⟨2, 1, 0⟩, ⟨0, 0, 0⟩] : List (Vec3 ℚ)) ≠ [] ∧
    SupportFunction ([⟨1, 0, 0⟩, ⟨2, 0, 0⟩, ⟨2, 1, 0⟩, ⟨0, 0, 0⟩] : List (Vec3 ℚ)) ⟨1, 0, 0⟩ =
      some ⟨2, 0, 0⟩ ∧
    ∃ i q, SupportFunction ([⟨1, 0, 0⟩, ⟨2, 0, 0⟩, ⟨2, 1, 0⟩, ⟨0, 0, 0⟩] : List (Vec3 ℚ))
        ⟨1, 0, 0⟩ = some q ∧
      ([⟨1, 0, 0⟩, ⟨2, 0, 0⟩, ⟨2, 1, 0⟩, ⟨0, 0, 0⟩] : List (Vec3 ℚ)).get? i = some q ∧
      (∀ p ∈ ([⟨1, 0, 0⟩, ⟨2, 0, 0⟩, ⟨2, 1, 0⟩, ⟨0, 0, 0⟩] : List (Vec3 ℚ)),
        dot p ⟨1, 0, 0⟩ ≤ dot q ⟨1, 0, 0⟩) ∧
      (∀ j p, j < i →
        ([⟨1, 0, 0⟩, ⟨2, 0, 0⟩, ⟨2, 1, 0⟩, ⟨0, 0, 0⟩] : List (Vec3 ℚ)).get? j = some p →
        dot p ⟨1, 0, 0⟩ < dot q ⟨1, 0, 0⟩) :=
  ⟨List.cons_ne_nil _ _, by decide!, SupportFunction_spec _ _ (List.cons_ne_nil _ _)⟩

end CS350

namespace CS350

variable {K : Type} [LinearOrderedField K]

/-- C24: on a simplex (four slots) with `k` active points `Defragment` returns without an
exception, and leaves exactly the slots `0 .. k-1` active, holding the points that were active
in their former order; the number of active points is unchanged, and a second `Defragment`
changes nothing. -/
theorem GjkSimplex.Defragment_spec (s : GjkSimplex K) (hp : s.points.length = 4)
    (ha : s.active.length = 4) :
    ∃ s2, s.Defragment = some s2 ∧
      s2.active = List.replicate (s.active.count true) true ++
        List.replicate (4 - s.active.count true) false ∧
      s2.points.length = 4 ∧
      s2.points.take (s.active.count true) = s.activePoints ∧
      s2.activePoints = s.activePoints ∧
      s2.active.count true = s.active.count true ∧
      s2.Defragment = some s2 := by
  obtain ⟨points, active⟩ := s
  simp only at hp ha
  match points, hp with
  | [p0, p1, p2, p3], _ =>
    match active, ha with
    | [a0, a1, a2, a3], _ =>
      cases a0 <;> cases a1 <;> cases a2 <;> cases a3 <;>
        exact ⟨_, rfl, rfl, rfl, rfl, rfl, rfl, rfl⟩

/-- C24, witness: the slots 1 and 3 are active. -/
theorem GjkSimplex.Defragment_spec_witness :
    GjkSimplex.Defragment (⟨[⟨1, 0, 0⟩, ⟨2, 0, 0⟩, ⟨3, 0, 0⟩, ⟨4, 0, 0⟩],
        [false, true, false, true]⟩ : GjkSimplex ℚ) =
      some ⟨[⟨2, 0, 0⟩, ⟨4, 0, 0⟩, ⟨3, 0, 0⟩, ⟨4, 0, 0⟩], [true, true, false, false]⟩ ∧
    ∃ s2, GjkSimplex.Defragment (⟨[⟨1, 0, 0⟩, ⟨2, 0, 0⟩, ⟨3, 0, 0⟩, ⟨4, 0, 0⟩],
        [false, true, false, true]⟩ : GjkSimplex ℚ) = some s2 ∧
      s2.active = [true, true, false, false] ∧
      s2.points.take 2 = [⟨2, 0, 0⟩, ⟨4, 0, 0⟩] ∧
      s2.Defragment = some s2 := by
  refine ⟨by decide!, ?_⟩
  obtain ⟨s2, h1, h2, -, h4, -, -, h7⟩ := GjkSimplex.Defragment_spec
    (⟨[⟨1, 0, 0⟩, ⟨2, 0, 0⟩, ⟨3, 0, 0⟩, ⟨4, 0, 0⟩], [false, true, false, true]⟩ : GjkSimplex ℚ)
    rfl rfl
  exact ⟨s2, h1, h2, h4, h7⟩

end CS350

namespace CS350

variable {K : Type} [LinearOrderedField K]

namespace KdTree

/-- With the children ahead, the run of `node_dump` of `KdTree::dump` from a node of the array
ends: what it returns does not depend on the bound once the bound is the number of nodes from
`n` on. -/
theorem dump_node_dump_ahead (showFloat : K → String) (nodes : List (Node K))
    (hch : ChildrenAhead nodes) :
    ∀ m n, nodes.length - n ≤ m → n < nodes.length →
      ∀ level os, ∃ out, ∀ fuel, nodes.length - n ≤ fuel →
        dump.node_dump showFloat nodes fuel n level os = Run.ok out := by
  intro m
  induction m with
  | zero => intro n h1 h2; omega
  | succ m ih =>
    intro n h1 h2 level os
    have hn : nodes.get? n = some (nodes.get ⟨n, h2⟩) := List.get?_eq_get _
    rcases hnode : nodes.get ⟨n, h2⟩ with ⟨st, c⟩ | ⟨a, s, nx⟩
    · rw [hnode] at hn
      refine ⟨os ++ tab level ++ "Node " ++ toString n ++ "[" ++ "leaf, " ++
        toString (Node.leaf st c : Node K).primitive_start ++ ":" ++
        toString (((Node.leaf st c : Node K).primitive_start +
          (Node.leaf st c : Node K).primitive_count) % 4294967296) ++ "]\n", fun fuel hf => ?_⟩
      cases fuel with
      | zero => omega
      | succ fuel =>
        simp only [dump.node_dump, hn, Node.is_internal, Bool.false_eq_true, if_false]
    · rw [hnode] at hn
      obtain ⟨c1, c2, c3⟩ := hch n a s nx hn
      obtain ⟨oL, hL⟩ := ih (n + 1) (by omega) c1 (level + 1)
        (os ++ tab level ++ "Node " ++ toString n ++ "[" ++ "internal, " ++
          "SplitPosition at " ++ axisChar (Node.internal a s nx : Node K).axis ++ "=" ++
          showFloat (Node.internal a s nx : Node K).split ++ "]\n" ++ "Depth: " ++
          toString level ++ "Height: " ++ toString level ++ "\n")
      obtain ⟨oR, hR⟩ := ih nx (by omega) c3 (level + 1) oL
      refine ⟨oR, fun fuel hf => ?_⟩
      cases fuel with
      | zero => omega
      | succ fuel =>
        simp only [dump.node_dump, hn, Node.is_internal, if_true, Node.next_child]
        rw [hL fuel (by omega)]
        simp only
        rw [hR fuel (by omega)]

/-- With the children ahead, the run of `node_triangle_count` from a node of the array ends. -/
theorem node_triangle_count_ahead (nodes : List (Node K)) (hch : ChildrenAhead nodes) :
    ∀ m n, nodes.length - n ≤ m → n < nodes.length →
      ∃ c, ∀ fuel, nodes.length - n ≤ fuel →
        dump_graph.node_triangle_count nodes fuel n = Run.ok c := by
  intro m
  induction m with
  | zero => intro n h1 h2; omega
  | succ m ih =>
    intro n h1 h2
    have hn : nodes.get? n = some (nodes.get ⟨n, h2⟩) := List.get?_eq_get _
    rcases hnode : nodes.get ⟨n, h2⟩ with ⟨st, c⟩ | ⟨a, s, nx⟩
    · rw [hnode] at hn
      refine ⟨c, fun fuel hf => ?_⟩
      cases fuel with
      | zero => omega
      | succ fuel =>
        simp only [dump_graph.node_triangle_count, hn, Node.is_internal, Bool.false_eq_true,
          if_false, Node.primitive_count]
    · rw [hnode] at hn
      obtain ⟨c1, c2, c3⟩ := hch n a s nx hn
      obtain ⟨cL, hL⟩ := ih (n + 1) (by omega) c1
      obtain ⟨cR, hR⟩ := ih nx (by omega) c3
      refine ⟨(cL + cR) % 4294967296, fun fuel hf => ?_⟩
      cases fuel with
      | zero => omega
      | succ fuel =>
        simp only [dump_graph.node_triangle_count, hn, Node.is_internal, Node.next_child,
          hL fuel (by omega), hR fuel (by omega), if_true]

/-- With the children ahead, the run of `node_dump` of `KdTree::dump_graph` from a node of the
array ends. -/
theorem dump_graph_node_dump_ahead (showFloat : K → String) (nodes : List (Node K))
    (hch : ChildrenAhead nodes) :
    ∀ m n, nodes.length - n ≤ m → n < nodes.length →
      ∀ q os, ∃ out, ∀ fuel, nodes.length - n ≤ fuel →
        dump_graph.node_dump showFloat nodes fuel n q os = Run.ok out := by
  intro m
  induction m with
  | zero => intro n h1 h2; omega
  | succ m ih =>
    intro n h1 h2 q os
    have hn : nodes.get? n = some (nodes.get ⟨n, h2⟩) := List.get?_eq_get _
    rcases hnode : nodes.get ⟨n, h2⟩ with ⟨st, c⟩ | ⟨a, s, nx⟩
    · rw [hnode] at hn
      refine ⟨if n ≠ 0 then
          os ++ "\t" ++ ("NODE" ++ toString n) ++ "[label=\"" ++
            toString (Node.leaf st c : Node K).primitive_count ++ " triangles" ++ "\"];\n" ++
            "\t" ++ ("NODE" ++ toString q) ++ " -> " ++ ("NODE" ++ toString n) ++ ";\n"
        else
          os ++ "\t" ++ ("NODE" ++ toString n) ++ "[label=\"" ++
            toString (Node.leaf st c : Node K).primitive_count ++ " triangles" ++ "\"];\n",
        fun fuel hf => ?_⟩
      cases fuel with
      | zero => omega
      | succ fuel =>
        simp only [dump_graph.node_dump, hn, Node.is_internal, Bool.false_eq_true, if_false]
    · rw [hnode] at hn
      obtain ⟨c1, c2, c3⟩ := hch n a s nx hn
      obtain ⟨cnt, hcnt⟩ := node_triangle_count_ahead nodes hch (nodes.length - n) n
        (le_refl _) h2
      obtain ⟨oL, hL⟩ := ih (n + 1) (by omega) c1 n
        (if n ≠ 0 then
          os ++ "\t" ++ ("NODE" ++ toString n) ++ "[label=\"" ++ "SplitPosition: " ++
            axisChar (Node.internal a s nx : Node K).axis ++ " at " ++
            showFloat (Node.internal a s nx : Node K).split ++ "\\n" ++ toString cnt ++
            " subtriangles" ++ "\"];\n" ++
            "\t" ++ ("NODE" ++ toString q) ++ " -> " ++ ("NODE" ++ toString n) ++ ";\n"
        else
          os ++ "\t" ++ ("NODE" ++ toString n) ++ "[label=\"" ++ "SplitPosition: " ++
            axisChar (Node.internal a s nx : Node K).axis ++ " at " ++
            showFloat (Node.internal a s nx : Node K).split ++ "\\n" ++ toString cnt ++
            " subtriangles" ++ "\"];\n")
      obtain ⟨oR, hR⟩ := ih nx (by omega) c3 n oL
      refine ⟨oR, fun fuel hf => ?_⟩
      cases fuel with
      | zero => omega
      | succ fuel =>
        simp only [dump_graph.node_dump, hn, Node.is_internal, if_true, Node.next_child,
          hcnt (fuel + 1) hf]
        rw [hL fuel (by omega)]
        simp only
        rw [hR fuel (by omega)]

end KdTree

/-- C25: on a store with a non-empty node array in which every internal node `i` has
`i + 1 < |nodes|` and `i < next_child(i) < |nodes|`, the recursions of `dump` and of
`dump_graph` (with `node_triangle_count`) end and read no node out of range: both return,
within a recursion depth of the number of nodes, and what they write does not depend on the
bound. -/
theorem KdTree.dump_terminates (showFloat : K → String) (kd : KdTreeStore K) (os : String)
    (hne : kd.m_nodes ≠ []) (hch : KdTree.ChildrenAhead kd.m_nodes) :
    ∃ out graph, ∀ fuel, kd.m_nodes.length ≤ fuel →
      kd.dump showFloat fuel os = KdTree.Run.ok out ∧
      kd.dump_graph showFloat fuel os = KdTree.Run.ok graph := by
  have h0 : 0 < kd.m_nodes.length := List.length_pos.mpr hne
  obtain ⟨out, hf⟩ := KdTree.dump_node_dump_ahead showFloat kd.m_nodes hch kd.m_nodes.length 0
    (by omega) h0 0 os
  obtain ⟨g, hg⟩ := KdTree.dump_graph_node_dump_ahead showFloat kd.m_nodes hch
    kd.m_nodes.length 0 (by omega) h0 0 (os ++ "digraph kdtree \x7b\n" ++
      "\tnode[group=\"\", shape=none, style=\"rounded,filled\", fontcolor=\"#101010\"]\n")
  refine ⟨out, g ++ "\x7d", fun fuel hfuel => ⟨hf fuel (by omega), ?_⟩⟩
  unfold KdTreeStore.dump_graph
  simp only
  rw [hg fuel (by omega)]

/-- C25, witness: an array that is no tree (both children of node 0 are node 1) but has its
children ahead. -/
theorem KdTree.dump_terminates_witness :
    (sharedChildNodes ≠ [] ∧ KdTree.ChildrenAhead sharedChildNodes) ∧
    (∃ out graph, ∀ fuel, 2 ≤ fuel →
      KdTreeStore.dump showRat ⟨[0, 1], sharedChildNodes, [], ⟨1, 80, 5, 50⟩⟩ fuel "" =
        KdTree.Run.ok out ∧
      KdTreeStore.dump_graph showRat ⟨[0, 1], sharedChildNodes, [], ⟨1, 80, 5, 50⟩⟩ fuel "" =
        KdTree.Run.ok graph) ∧
    KdTreeStore.dump showRat ⟨[0, 1], sharedChildNodes, [], ⟨1, 80, 5, 50⟩⟩ 2 "" =
      KdTree.Run.ok ("Node 0[internal, SplitPosition at x=1/2]\nDepth: 0Height: 0\n" ++
        "  Node 1[leaf, 0:2]\n" ++ "  Node 1[leaf, 0:2]\n") := by
  have hch : KdTree.ChildrenAhead sharedChildNodes := by
    intro i a s nx h
    match i, h with
    | 0, h =>
      simp only [sharedChildNodes, List.get?, Option.some.injEq, KdTree.Node.internal.injEq] at h
      obtain ⟨-, -, rfl⟩ := h
      decide
    | 1, h => simp [sharedChildNodes] at h
    | i + 2, h => simp [sharedChildNodes] at h
  exact ⟨⟨List.cons_ne_nil _ _, hch⟩,
    KdTree.dump_terminates showRat ⟨[0, 1], sharedChildNodes, [], ⟨1, 80, 5, 50⟩⟩ ""
      (List.cons_ne_nil _ _) hch, by decide!⟩

end CS350

namespace CS350

variable {K : Type} [LinearOrderedField K]

theorem swapIfGreater_eq (a b : K) : swapIfGreater a b = (min a b, max a b) := by
  unfold swapIfGreater
  by_cases h : a > b
  · rw [if_pos h, min_eq_right h.le, max_eq_left h.le]
  · rw [if_neg h, min_eq_left (not_lt.mp h), max_eq_right (not_lt.mp h)]

theorem ite_gt_eq_max (a b : K) : (if b > a then b else a) = max a b := by
  rw [← glm_max_eq_max]; rfl

theorem ite_lt_eq_min (a b : K) : (if b < a then b else a) = min a b := by
  rw [← glm_min_eq_min]; rfl

/-- The slab cascade of `Ray::IntersectionTime` and `Ray::TestRayAabb` on three intervals
`[x1, x2]`, `[y1, y2]`, `[z1, z2]`: it goes through exactly when the latest entry is not behind
the earliest exit. -/
theorem cascade_through_iff (x1 x2 y1 y2 z1 z2 : K) (hx : x1 ≤ x2) (hy : y1 ≤ y2)
    (hz : z1 ≤ z2) :
    (¬ (x1 > y2 ∨ y1 > x2) ∧ ¬ (max x1 y1 > z2 ∨ z1 > min x2 y2)) ↔
      max (max x1 y1) z1 ≤ min (min x2 y2) z2 := by
  simp only [not_or, not_lt, gt_iff_lt, max_le_iff, le_min_iff]
  tauto

/-- The two early exits of the cascade, as one test on the latest entry and earliest exit. -/
theorem cascade_value {α : Type} (x1 x2 y1 y2 z1 z2 : K) (hx : x1 ≤ x2) (hy : y1 ≤ y2)
    (hz : z1 ≤ z2) (A B : α) :
    (if x1 > y2 ∨ y1 > x2 then A
      else if max x1 y1 > z2 ∨ z1 > min x2 y2 then A else B) =
    if max (max x1 y1) z1 > min (min x2 y2) z2 then A else B := by
  have h := cascade_through_iff x1 x2 y1 y2 z1 z2 hx hy hz
  by_cases c1 : x1 > y2 ∨ y1 > x2
  · rw [if_pos c1, if_pos]
    by_contra hc
    exact (h.mpr (not_lt.mp hc)).1 c1
  · rw [if_neg c1]
    by_cases c2 : max x1 y1 > z2 ∨ z1 > min x2 y2
    · rw [if_pos c2, if_pos]
      by_contra hc
      exact (h.mpr (not_lt.mp hc)).2 c2
    · rw [if_neg c2, if_neg]
      exact not_lt.mpr (h.mp ⟨c1, c2⟩)

/-- `Ray::IntersectionTime` in terms of the entry and exit times of the three slabs. -/
theorem Ray.IntersectionTime_eq (r : Ray K) (aabb : Aabb K) :
    r.IntersectionTime aabb =
      if slabNear r.origin r.direction aabb.min aabb.max >
          slabFar r.origin r.direction aabb.min aabb.max then -1
      else if slabNear r.origin r.direction aabb.min aabb.max > 0 then
        slabNear r.origin r.direction aabb.min aabb.max
      else slabFar r.origin r.direction aabb.min aabb.max := by
  unfold Ray.IntersectionTime slabNear slabFar
  simp only [swapIfGreater_eq, ite_gt_eq_max, ite_lt_eq_min]
  exact cascade_value _ _ _ _ _ _ min_le_max min_le_max min_le_max _ _

/-- `Ray::TestRayAabb` in terms of the entry and exit times of the three slabs. -/
theorem Ray.TestRayAabb_eq (r : Ray K) (aabb : Aabb K) :
    r.TestRayAabb aabb =
      if slabNear r.origin r.direction aabb.min aabb.max >
          slabFar r.origin r.direction aabb.min aabb.max then false else true := by
  unfold Ray.TestRayAabb slabNear slabFar
  simp only [swapIfGreater_eq, ite_gt_eq_max, ite_lt_eq_min]
  exact cascade_value _ _ _ _ _ _ min_le_max min_le_max min_le_max _ _

/-- C26: for a ray with three nonzero direction components and a box with `min <= max`,
`Ray::IntersectionTime(aabb)` is non-negative exactly when `IntersectionTimeRayAabb(origin,
direction, min, max)` is: both hold exactly when some point `origin + t * direction` with
`t >= 0` is in the closed box. The values agree when the origin is before the box, and are the
exit time and 0 when it is inside. -/
theorem Ray.IntersectionTime_agrees (r : Ray K) (aabb : Aabb K)
    (hx : r.direction.x ≠ 0) (hy : r.direction.y ≠ 0) (hz : r.direction.z ≠ 0)
    (hbox : aabb.min.x ≤ aabb.max.x ∧ aabb.min.y ≤ aabb.max.y ∧ aabb.min.z ≤ aabb.max.z) :
    (0 ≤ r.IntersectionTime aabb ↔
      0 ≤ IntersectionTimeRayAabb r.origin r.direction aabb.min aabb.max) ∧
    (0 ≤ r.IntersectionTime aabb ↔
      ∃ t, 0 ≤ t ∧ OverlapPointAabb (rayPoint r.origin r.direction t) aabb.min aabb.max = true) ∧
    (0 < IntersectionTimeRayAabb r.origin r.direction aabb.min aabb.max →
      r.IntersectionTime aabb = IntersectionTimeRayAabb r.origin r.direction aabb.min aabb.max) ∧
    (0 ≤ r.IntersectionTime aabb →
      IntersectionTimeRayAabb r.origin r.direction aabb.min aabb.max = 0 →
      r.IntersectionTime aabb = slabFar r.origin r.direction aabb.min aabb.max) := by
  have hin := fun t => rayPoint_in_box_iff r.origin r.direction aabb.min aabb.max t hx hy hz hbox
  rw [Ray.IntersectionTime_eq, IntersectionTimeRayAabb_eq]
  generalize slabNear r.origin r.direction aabb.min aabb.max = near at hin ⊢
  generalize slabFar r.origin r.direction aabb.min aabb.max = far at hin ⊢
  have key : (0 ≤ (if near > far then (-1 : K) else if near > 0 then near else far)) ↔
      (near ≤ far ∧ 0 ≤ far) := by
    split_ifs with c1 c2
    · constructor
      · intro h; linarith
      · rintro ⟨h, -⟩; linarith
    · constructor
      · intro _; exact ⟨by linarith, by linarith⟩
      · intro _; linarith
    · constructor
      · intro h; exact ⟨by linarith, h⟩
      · rintro ⟨-, h⟩; exact h
  have key2 : (0 ≤ (if far < 0 ∨ near > far then (-1 : K) else if near > 0 then near else 0)) ↔
      (near ≤ far ∧ 0 ≤ far) := by
    split_ifs with c1 c2
    · constructor
      · intro h; linarith
      · rintro ⟨h1, h2⟩
        rcases c1 with c | c <;> linarith
    · push_neg at c1
      constructor
      · intro _; exact ⟨c1.2, c1.1⟩
      · intro _; linarith
    · push_neg at c1
      constructor
      · intro _; exact ⟨c1.2, c1.1⟩
      · intro _; exact le_refl _
  refine ⟨key.trans key2.symm, key.trans ?_, ?_, ?_⟩
  · constructor
    · rintro ⟨h1, h2⟩
      refine ⟨max near 0, le_max_right _ _, (hin _).mpr ⟨le_max_left _ _, max_le h1 h2⟩⟩
    · rintro ⟨t, ht, hb⟩
      obtain ⟨h1, h2⟩ := (hin t).mp hb
      exact ⟨le_trans h1 h2, le_trans ht h2⟩
  · intro hpos
    split_ifs at hpos ⊢ with c1 c2 c3 c4
    all_goals first | rfl | (exfalso; push_neg at *; linarith)
  · intro h0 hz0
    have hk := key.mp h0
    split_ifs at hz0 ⊢ with c1 c2 c3 c4
    all_goals first | rfl | (exfalso; push_neg at *; linarith)

/-- C26, witness: the origin is inside the box; `Ray::IntersectionTime` gives the exit time 2,
`IntersectionTimeRayAabb` gives 0. -/
theorem Ray.IntersectionTime_agrees_witness :
    Ray.IntersectionTime (⟨⟨0, 0, 0⟩, ⟨1, 1, 1⟩⟩ : Ray ℚ) ⟨⟨-1, -1, -1⟩, ⟨2, 2, 2⟩⟩ = 2 ∧
    IntersectionTimeRayAabb (⟨0, 0, 0⟩ : Vec3 ℚ) ⟨1, 1, 1⟩ ⟨-1, -1, -1⟩ ⟨2, 2, 2⟩ = 0 ∧
    (0 ≤ Ray.IntersectionTime (⟨⟨0, 0, 0⟩, ⟨1, 1, 1⟩⟩ : Ray ℚ) ⟨⟨-1, -1, -1⟩, ⟨2, 2, 2⟩⟩ ↔
      0 ≤ IntersectionTimeRayAabb (⟨0, 0, 0⟩ : Vec3 ℚ) ⟨1, 1, 1⟩ ⟨-1, -1, -1⟩ ⟨2, 2, 2⟩) :=
  ⟨by decide!, by decide!,
    (Ray.IntersectionTime_agrees (⟨⟨0, 0, 0⟩, ⟨1, 1, 1⟩⟩ : Ray ℚ) ⟨⟨-1, -1, -1⟩, ⟨2, 2, 2⟩⟩
      (by decide!) (by decide!) (by decide!) (by decide!)).1⟩

/-- C27: for a ray with three nonzero direction components and a box with `min <= max`,
`Ray::TestRayAabb` returns true exactly when some point `origin + t * direction` of the whole
line, `t` of any sign, is in the closed box. So it is true whenever `Ray::IntersectionTime`
is non-negative, and it is true as well for a box that the line meets only at negative
parameters, for which `Ray::IntersectionTime` is negative. -/
theorem Ray.TestRayAabb_spec (r : Ray K) (aabb : Aabb K)
    (hx : r.direction.x ≠ 0) (hy : r.direction.y ≠ 0) (hz : r.direction.z ≠ 0)
    (hbox : aabb.min.x ≤ aabb.max.x ∧ aabb.min.y ≤ aabb.max.y ∧ aabb.min.z ≤ aabb.max.z) :
    (r.TestRayAabb aabb = true ↔
      ∃ t, OverlapPointAabb (rayPoint r.origin r.direction t) aabb.min aabb.max = true) ∧
    (0 ≤ r.IntersectionTime aabb → r.TestRayAabb aabb = true) ∧
    ((∃ t, OverlapPointAabb (rayPoint r.origin r.direction t) aabb.min aabb.max = true) →
      (∀ t, OverlapPointAabb (rayPoint r.origin r.direction t) aabb.min aabb.max = true →
        t < 0) →
      r.TestRayAabb aabb = true ∧ r.IntersectionTime aabb < 0) := by
  have hin := fun t => rayPoint_in_box_iff r.origin r.direction aabb.min aabb.max t hx hy hz hbox
  rw [Ray.IntersectionTime_eq, Ray.TestRayAabb_eq]
  generalize slabNear r.origin r.direction aabb.min aabb.max = near at hin ⊢
  generalize slabFar r.origin r.direction aabb.min aabb.max = far at hin ⊢
  have key : (if near > far then false else true) = true ↔ near ≤ far := by
    split_ifs with c
    · constructor
      · intro h; cases h
      · intro h; linarith
    · exact ⟨fun _ => not_lt.mp c, fun _ => rfl⟩
  have hex : (∃ t, OverlapPointAabb (rayPoint r.origin r.direction t) aabb.min aabb.max = true) ↔
      near ≤ far := by
    constructor
    · rintro ⟨t, hb⟩
      obtain ⟨h1, h2⟩ := (hin t).mp hb
      exact le_trans h1 h2
    · intro h
      exact ⟨far, (hin far).mpr ⟨h, le_refl _⟩⟩
  refine ⟨key.trans hex.symm, fun h0 => key.mpr ?_, fun hsome hall => ?_⟩
  · by_contra hc
    rw [if_pos (not_le.mp hc)] at h0
    linarith
  · have hnf := hex.mp hsome
    have hfar : far < 0 := hall far ((hin far).mpr ⟨hnf, le_refl _⟩)
    refine ⟨key.mpr hnf, ?_⟩
    rw [if_neg (not_lt.mpr hnf), if_neg (by linarith)]
    exact hfar

/-- C27, witness: the box `[-3, -2]^3` lies behind the origin of the ray along `(1, 1, 1)`:
`Ray::TestRayAabb` is true, `Ray::IntersectionTime` is -2 and `IntersectionTimeRayAabb`
is -1. -/
theorem Ray.TestRayAabb_spec_witness :
    Ray.TestRayAabb (⟨⟨0, 0, 0⟩, ⟨1, 1, 1⟩⟩ : Ray ℚ) ⟨⟨-3, -3, -3⟩, ⟨-2, -2, -2⟩⟩ = true ∧
    Ray.IntersectionTime (⟨⟨0, 0, 0⟩, ⟨1, 1, 1⟩⟩ : Ray ℚ) ⟨⟨-3, -3, -3⟩, ⟨-2, -2, -2⟩⟩ = -2 ∧
    IntersectionTimeRayAabb (⟨0, 0, 0⟩ : Vec3 ℚ) ⟨1, 1, 1⟩ ⟨-3, -3, -3⟩ ⟨-2, -2, -2⟩ = -1 ∧
    ∃ t, OverlapPointAabb (rayPoint (⟨0, 0, 0⟩ : Vec3 ℚ) ⟨1, 1, 1⟩ t) ⟨-3, -3, -3⟩
      ⟨-2, -2, -2⟩ = true :=
  ⟨by decide!, by decide!, by decide!,
    (Ray.TestRayAabb_spec (⟨⟨0, 0, 0⟩, ⟨1, 1, 1⟩⟩ : Ray ℚ) ⟨⟨-3, -3, -3⟩, ⟨-2, -2, -2⟩⟩
      (by decide!) (by decide!) (by decide!) (by decide!)).1.mp (by decide!)⟩

end CS350

namespace CS350

variable {K : Type} [LinearOrderedField K]

/-- C29: for a box with `min <= max`, an axis `a` and a split `s` with
`min[a] <= s <= max[a]`, the surface areas of the two boxes clipped at `s` on the axis add up
to the surface area of the box plus twice the area of its cross-section perpendicular to the
axis, and the surface area of each half lies between 0 and that of the box. -/
theorem Aabb.SurfaceArea_clip (box : Aabb K) (a : Nat) (s : K) (ha : a < 3)
    (hbox : box.min.x ≤ box.max.x ∧ box.min.y ≤ box.max.y ∧ box.min.z ≤ box.max.z)
    (hs : box.min.get a ≤ s ∧ s ≤ box.max.get a) :
    (KdTree.clipLeft box a s).SurfaceArea + (KdTree.clipRight box a s).SurfaceArea =
        box.SurfaceArea + 2 * box.crossSection a ∧
    (0 ≤ (KdTree.clipLeft box a s).SurfaceArea ∧
      (KdTree.clipLeft box a s).SurfaceArea ≤ box.SurfaceArea) ∧
    (0 ≤ (KdTree.clipRight box a s).SurfaceArea ∧
      (KdTree.clipRight box a s).SurfaceArea ≤ box.SurfaceArea) := by
  obtain ⟨mn, mx⟩ := box
  obtain ⟨hx, hy, hz⟩ := hbox
  obtain ⟨h1, h2⟩ := hs
  simp only at hx hy hz h1 h2
  have dx : 0 ≤ mx.x - mn.x := by linarith
  have dy : 0 ≤ mx.y - mn.y := by linarith
  have dz : 0 ≤ mx.z - mn.z := by linarith
  have hxy := mul_nonneg dx dy
  have hyz := mul_nonneg dy dz
  have hzx := mul_nonneg dz dx
  match a, ha with
  | 0, _ =>
    simp only [Vec3.get] at h1 h2
    have e1 : 0 ≤ s - mn.x := by linarith
    have e2 : 0 ≤ mx.x - s := by linarith
    simp only [Aabb.SurfaceArea, Aabb.crossSection, KdTree.clipLeft, KdTree.clipRight, Vec3.set,
      Vec3.sub]
    refine ⟨by ring, ⟨?_, ?_⟩, ⟨?_, ?_⟩⟩
    · linarith [mul_nonneg e1 dy, mul_nonneg dz e1]
    · linarith [mul_nonneg e2 dy, mul_nonneg dz e2]
    · linarith [mul_nonneg e2 dy, mul_nonneg dz e2]
    · linarith [mul_nonneg e1 dy, mul_nonneg dz e1]
  | 1, _ =>
    simp only [Vec3.get] at h1 h2
    have e1 : 0 ≤ s - mn.y := by linarith
    have e2 : 0 ≤ mx.y - s := by linarith
    simp only [Aabb.SurfaceArea, Aabb.crossSection, KdTree.clipLeft, KdTree.clipRight, Vec3.set,
      Vec3.sub]
    refine ⟨by ring, ⟨?_, ?_⟩, ⟨?_, ?_⟩⟩
    · linarith [mul_nonneg dx e1, mul_nonneg e1 dz]
    · linarith [mul_nonneg dx e2, mul_nonneg e2 dz]
    · linarith [mul_nonneg dx e2, mul_nonneg e2 dz]
    · linarith [mul_nonneg dx e1, mul_nonneg e1 dz]
  | 2, _ =>
    simp only [Vec3.get] at h1 h2
    have e1 : 0 ≤ s - mn.z := by linarith
    have e2 : 0 ≤ mx.z - s := by linarith
    simp only [Aabb.SurfaceArea, Aabb.crossSection, KdTree.clipLeft, KdTree.clipRight, Vec3.set,
      Vec3.sub]
    refine ⟨by ring, ⟨?_, ?_⟩, ⟨?_, ?_⟩⟩
    · linarith [mul_nonneg dy e1, mul_nonneg e1 dx]
    · linarith [mul_nonneg dy e2, mul_nonneg e2 dx]
    · linarith [mul_nonneg dy e2, mul_nonneg e2 dx]
    · linarith [mul_nonneg dy e1, mul_nonneg e1 dx]

/-- C29, witness: the box `[0, 4] x [0, 2] x [0, 1]` clipped at `x = 1`. -/
theorem Aabb.SurfaceArea_clip_witness :
    (KdTree.clipLeft (⟨⟨0, 0, 0⟩, ⟨4, 2, 1⟩⟩ : Aabb ℚ) 0 1).SurfaceArea = 10 ∧
    (KdTree.clipRight (⟨⟨0, 0, 0⟩, ⟨4, 2, 1⟩⟩ : Aabb ℚ) 0 1).SurfaceArea = 22 ∧
    (⟨⟨0, 0, 0⟩, ⟨4, 2, 1⟩⟩ : Aabb ℚ).SurfaceArea = 28 ∧
    (⟨⟨0, 0, 0⟩, ⟨4, 2, 1⟩⟩ : Aabb ℚ).crossSection 0 = 2 ∧
    (KdTree.clipLeft (⟨⟨0, 0, 0⟩, ⟨4, 2, 1⟩⟩ : Aabb ℚ) 0 1).SurfaceArea +
        (KdTree.clipRight (⟨⟨0, 0, 0⟩, ⟨4, 2, 1⟩⟩ : Aabb ℚ) 0 1).SurfaceArea =
      (⟨⟨0, 0, 0⟩, ⟨4, 2, 1⟩⟩ : Aabb ℚ).SurfaceArea +
        2 * (⟨⟨0, 0, 0⟩, ⟨4, 2, 1⟩⟩ : Aabb ℚ).crossSection 0 :=
  ⟨by decide!, by decide!, by decide!, by decide!,
    (Aabb.SurfaceArea_clip (⟨⟨0, 0, 0⟩, ⟨4, 2, 1⟩⟩ : Aabb ℚ) 0 1 (by decide) (by decide!)
      (by decide!)).1⟩

end CS350

namespace CS350

variable {K : Type} [LinearOrderedField K]

namespace KdTree

/-- A node grown from a non-empty triangle set records at least one index in the pool. -/
theorem buildNode_flattenIndices_ne_nil (tris : List (Triangle K)) (cfg : Config K) :
    ∀ (fuel : Nat) (box : Aabb K) (T : List Nat) (depth : Int), T ≠ [] →
      (buildNode tris cfg fuel box T depth).flattenIndices ≠ [] := by
  intro fuel
  induction fuel with
  | zero =>
    intro box T depth hT
    simp only [buildNode, BuildTree.flattenIndices]
    simpa using hT
  | succ fuel ih =>
    intro box T depth hT
    have hd : T.dedup ≠ [] := by simpa using hT
    unfold buildNode
    split_ifs with h1 h2 h3
    · exact hd
    · exact hd
    · exact hd
    · cases hb : bestSplit tris cfg box T with
      | none => exact hd
      | some sp =>
        simp only
        split_ifs with h4 h5
        · exact hd
        · exact hd
        · simp only [BuildTree.flattenIndices]
          intro hcon
          have hl := (List.append_eq_nil.1 hcon).1
          refine ih _ _ _ ?_ hl
          intro hnil
          exact h5 (Or.inl (by rw [hnil]; rfl))

end KdTree

/-- C7: in every state of a `KdTree` object, default-constructed or left by `build`, `empty()`
returns true exactly when the node array `nodes()` is empty. -/
theorem KdTreeStore.empty_iff_nodes_empty (kd : KdTreeStore K) (h : kd.IsState) :
    kd.empty = true ↔ kd.nodes = [] := by
  cases h with
  | ctor => simp [KdTreeStore.empty, KdTreeStore.nodes]
  | build kd0 tris cfg _ =>
    rcases KdTree.build_cases tris cfg with ⟨_, hb⟩ | ⟨hne, box, _, hb⟩
    · rw [hb]
      simp [KdTreeStore.empty, KdTreeStore.nodes]
    · rw [hb]
      simp only [KdTreeStore.empty, KdTreeStore.nodes, List.isEmpty_iff]
      have hT : List.range tris.length ≠ [] := by
        intro hr
        have := congrArg List.length hr
        simp at this
        exact hne this
      have h1 := KdTree.buildNode_flattenIndices_ne_nil tris cfg (9 * tris.length + 1) box
        (List.range tris.length) 1 hT
      have h2 : (KdTree.buildNode tris cfg (9 * tris.length + 1) box
          (List.range tris.length) 1).flattenNodes 0 0 ≠ [] := by
        intro hn
        have hl := congrArg List.length hn
        rw [KdTree.BuildTree.flattenNodes_length] at hl
        have := KdTree.BuildTree.size_pos (KdTree.buildNode tris cfg (9 * tris.length + 1) box
          (List.range tris.length) 1)
        simp at hl
        omega
      exact ⟨fun h => absurd h h1, fun h => absurd h h2⟩

theorem KdTreeStore.empty_iff_nodes_empty_witness :
    (KdTreeStore.IsState (KdTreeStore.build
        ([⟨⟨0, 0, 0⟩, ⟨1, 0, 0⟩, ⟨0, 1, 0⟩⟩, ⟨⟨10, 0, 0⟩, ⟨11, 0, 0⟩, ⟨10, 1, 0⟩⟩] :
          List (Triangle ℚ)) { min_triangles := 1 }) ∧
      ((KdTreeStore.build
          ([⟨⟨0, 0, 0⟩, ⟨1, 0, 0⟩, ⟨0, 1, 0⟩⟩, ⟨⟨10, 0, 0⟩, ⟨11, 0, 0⟩, ⟨10, 1, 0⟩⟩] :
            List (Triangle ℚ)) { min_triangles := 1 }).empty = true ↔
        (KdTreeStore.build
          ([⟨⟨0, 0, 0⟩, ⟨1, 0, 0⟩, ⟨0, 1, 0⟩⟩, ⟨⟨10, 0, 0⟩, ⟨11, 0, 0⟩, ⟨10, 1, 0⟩⟩] :
            List (Triangle ℚ)) { min_triangles := 1 }).nodes = []) ∧
      (KdTreeStore.build
          ([⟨⟨0, 0, 0⟩, ⟨1, 0, 0⟩, ⟨0, 1, 0⟩⟩, ⟨⟨10, 0, 0⟩, ⟨11, 0, 0⟩, ⟨10, 1, 0⟩⟩] :
            List (Triangle ℚ)) { min_triangles := 1 }).empty = false) ∧
    (KdTreeStore.IsState (KdTreeStore.build ([] : List (Triangle ℚ)) {}) ∧
      ((KdTreeStore.build ([] : List (Triangle ℚ)) {}).empty = true ↔
        (KdTreeStore.build ([] : List (Triangle ℚ)) {}).nodes = []) ∧
      (KdTreeStore.build ([] : List (Triangle ℚ)) {}).empty = true) :=
  ⟨⟨KdTreeStore.IsState.build _ _ _ KdTreeStore.IsState.ctor,
      KdTreeStore.empty_iff_nodes_empty _
        (KdTreeStore.IsState.build _ _ _ KdTreeStore.IsState.ctor),
      by decide!⟩,
    ⟨KdTreeStore.IsState.build _ _ _ KdTreeStore.IsState.ctor,
      KdTreeStore.empty_iff_nodes_empty _
        (KdTreeStore.IsState.build _ _ _ KdTreeStore.IsState.ctor),
      by decide!⟩⟩

end CS350
